import Mathlib

/-!
Shallow embedding of the atlas generator of `Generator/generate_posters.py`
and `Generator/generate_static.py` (udon-poster repository), together with
proofs of the specification claims about it.

Conventions of the embedding:
* Python integers are modelled as `Int` (all quantities that appear are
  unbounded signed integers in Python).
* Python float division used for the normalized UV coordinates and the
  efficiency score is modelled with exact rationals (`ℚ`); the spec states
  the intended values as exact fractions.
* `None` results are `Option.none`; Python tuples are Lean structures.
* Lists keep Python's iteration/insertion order.
-/

/-- `Rectangle` of `generate_posters.py` (lines 8-22): integer position and
size. -/
structure Rect where
  x : Int
  y : Int
  width : Int
  height : Int
deriving DecidableEq, Repr, Inhabited

namespace Rect

/-- `Rectangle.fits_in` (line 16). -/
def fitsIn (r other : Rect) : Bool :=
  decide (r.width ≤ other.width) && decide (r.height ≤ other.height)

/-- `Rectangle.contains_point` (line 20). -/
def containsPoint (r : Rect) (px py : Int) : Prop :=
  r.x ≤ px ∧ px < r.x + r.width ∧ r.y ≤ py ∧ py < r.y + r.height

instance (r : Rect) (px py : Int) : Decidable (r.containsPoint px py) := by
  unfold containsPoint; infer_instance

end Rect

/-- State of `BinPacker` (lines 24-32). -/
structure BinPacker where
  width : Int
  height : Int
  placementStrategy : String
  freeRectangles : List Rect
  usedRectangles : List Rect
deriving Repr

/-- `BinPacker.__init__` (lines 27-32). -/
def BinPacker.init (width height : Int) (placementStrategy : String) : BinPacker :=
  { width := width
    height := height
    placementStrategy := placementStrategy
    freeRectangles := [⟨0, 0, width, height⟩]
    usedRectangles := [] }

namespace BinPacker

/-- One candidate-selection loop of `insert` (lines 43-53 etc.): scan the
free list in order; a rectangle is a candidate when `rect.width >= width and
rect.height >= height`; the first candidate always replaces the infinite
initial score, a later candidate replaces the current best only when
`better` holds of its score against the current best score. -/
def scanFree {α : Type} (score : Rect → α) (better : α → α → Bool)
    (w h : Int) (free : List Rect) : Option (Rect × α) :=
  go free none
where
  /-- The loop body: fold the remaining free list over the current best. -/
  go : List Rect → Option (Rect × α) → Option (Rect × α)
  | [], best => best
  | r :: rest, best =>
      go rest
        (if w ≤ r.width ∧ h ≤ r.height then
          match best with
          | none => some (⟨r.x, r.y, w, h⟩, score r)
          | some (br, bs) =>
              if better (score r) bs then some (⟨r.x, r.y, w, h⟩, score r)
              else some (br, bs)
        else best)

/-- Strict lexicographic `<` on two integer components, the tie-break rule
`a < a' or (a = a' and b < b')` used by the placement loops. -/
def lexLt (p q : Int × Int) : Bool :=
  decide (p.1 < q.1) || (decide (p.1 = q.1) && decide (p.2 < q.2))

/-- Contact score of `contact_point` (lines 108-122): edge contact with the
atlas border plus contact with every already used rectangle. -/
def contactScoreOf (used : List Rect) (w h x y : Int) : Int :=
  (if x = 0 then h else 0) + (if y = 0 then w else 0) +
    used.foldl
      (fun acc u =>
        acc +
          (if u.x + u.width = x ∧ ¬(y + h ≤ u.y ∨ u.y + u.height ≤ y)
            then min h u.height else 0) +
          (if u.y + u.height = y ∧ ¬(x + w ≤ u.x ∨ u.x + u.width ≤ x)
            then min w u.width else 0))
      0

/-- `area_fit < best_area_fit` against the `float('inf')` sentinel of the
`contact_point` branch (line 104): the stored best area is absent (`none`)
until a candidate is stored, and every integer beats that infinity. -/
def ltInf (x : Int) : Option Int → Prop
  | none => True
  | some b => x < b

instance : (x : Int) → (o : Option Int) → Decidable (ltInf x o)
  | _, none => Decidable.isTrue True.intro
  | x, some b => inferInstanceAs (Decidable (x < b))

/-- The `contact_point` candidate loop of `insert` (lines 101-129).  Unlike
the four other strategies, whose `float('inf')` sentinels make the first
fitting candidate always win, this branch starts from the sentinel pair
`best_contact = -1`, `best_area_fit = float('inf')` (lines 103-104), so a
fitting candidate whose contact score is at most `-2` is rejected even
while nothing has been stored yet. -/
def scanContact (used : List Rect) (w h : Int) :
    List Rect → Option Rect × Int × Option Int → Option Rect × Int × Option Int
  | [], best => best
  | r :: rest, best =>
      scanContact used w h rest
        (if w ≤ r.width ∧ h ≤ r.height then
          let contact := contactScoreOf used w h r.x r.y
          let areaFit := r.width * r.height - w * h
          if best.2.1 < contact ∨ (contact = best.2.1 ∧ ltInf areaFit best.2.2)
          then (some ⟨r.x, r.y, w, h⟩, contact, some areaFit)
          else best
        else best)

/-- The `best_rect` selection of `insert` (lines 36-129), one branch per
placement strategy string; an unknown strategy selects nothing, exactly as
in the source where no `elif` branch runs. -/
def selectBestRect (p : BinPacker) (w h : Int) : Option Rect :=
  if p.placementStrategy = "best_area_fit" then
    (scanFree
      (fun r => (r.width * r.height - w * h, min (r.width - w) (r.height - h)))
      lexLt w h p.freeRectangles).map Prod.fst
  else if p.placementStrategy = "best_short_side_fit" then
    (scanFree
      (fun r => (min (r.width - w) (r.height - h), max (r.width - w) (r.height - h)))
      lexLt w h p.freeRectangles).map Prod.fst
  else if p.placementStrategy = "best_long_side_fit" then
    (scanFree
      (fun r => (max (r.width - w) (r.height - h), min (r.width - w) (r.height - h)))
      lexLt w h p.freeRectangles).map Prod.fst
  else if p.placementStrategy = "bottom_left" then
    (scanFree (fun r => (r.y, r.x)) lexLt w h p.freeRectangles).map Prod.fst
  else if p.placementStrategy = "contact_point" then
    (scanContact p.usedRectangles w h p.freeRectangles (none, -1, none)).1
  else none

/-- The non-overlap early exit of `_split_rectangle` (lines 151-155). -/
def noOverlap (r b : Rect) : Prop :=
  b.x + b.width ≤ r.x ∨ r.x + r.width ≤ b.x ∨
  b.y + b.height ≤ r.y ∨ r.y + r.height ≤ b.y

instance (r b : Rect) : Decidable (noOverlap r b) := by
  unfold noOverlap; infer_instance

/-- The up-to-four residual rectangles appended by `_split_rectangle`
(lines 157-177), in the source's append order: right, left, bottom, top. -/
def splitPieces (r b : Rect) : List Rect :=
  (if r.x < b.x + b.width ∧ b.x + b.width < r.x + r.width then
      [⟨b.x + b.width, r.y, r.x + r.width - (b.x + b.width), r.height⟩] else []) ++
  (if r.x < b.x ∧ b.x < r.x + r.width then
      [⟨r.x, r.y, b.x - r.x, r.height⟩] else []) ++
  (if r.y < b.y + b.height ∧ b.y + b.height < r.y + r.height then
      [⟨r.x, b.y + b.height, r.width, r.y + r.height - (b.y + b.height)⟩] else []) ++
  (if r.y < b.y ∧ b.y < r.y + r.height then
      [⟨r.x, r.y, r.width, b.y - r.y⟩] else [])

/-- The free-list traversal of `_split_free_rectangle` (lines 139-145): an
overlapping free rectangle is replaced in place by its residual pieces, a
non-overlapping one is kept verbatim. -/
def splitFreeList (free : List Rect) (b : Rect) : List Rect :=
  free.flatMap (fun r => if noOverlap r b then [r] else splitPieces r b)

/-- One rectangle being contained in another, the containment test of
`_prune_free_rectangles` (lines 190-192 and 196-198). -/
def containedIn (r s : Rect) : Prop :=
  s.x ≤ r.x ∧ s.y ≤ r.y ∧ r.x + r.width ≤ s.x + s.width ∧
    r.y + r.height ≤ s.y + s.height

instance (r s : Rect) : Decidable (containedIn r s) := by
  unfold containedIn; infer_instance

/-- The two nested `while` loops of `_prune_free_rectangles`
(lines 183-202), written as one tail recursion on the pair of cursors.
The correspondence with the source is branch by branch:
* `i ≥ len`: the outer `while` exits.
* `j ≥ len`: the inner `while` exits, the outer does `i += 1` and the
  inner restarts at `j = i + 1` of the new `i`, hence `(i+1, i+2)`.
* `rect1` contained in `rect2`: `pop(i); i -= 1; break` followed by the
  outer `i += 1` — same `i`, inner restarted at `i + 1` on the shorter
  list.
* `rect2` contained in `rect1`: `pop(j); j -= 1` then `j += 1` — same
  `j` on the shorter list.
* otherwise `j += 1`. -/
def pruneGo (l : List Rect) (i j : Nat) : List Rect :=
  if hi : i < l.length then
    if hj : j < l.length then
      let r1 := l.getD i default
      let r2 := l.getD j default
      if containedIn r1 r2 then pruneGo (l.eraseIdx i) i (i + 1)
      else if containedIn r2 r1 then pruneGo (l.eraseIdx j) i j
      else pruneGo l i (j + 1)
    else pruneGo l (i + 1) (i + 2)
  else l
termination_by (l.length, l.length - i, l.length - j)
decreasing_by
  · apply Prod.Lex.left
    rw [List.length_eraseIdx_of_lt hi]
    omega
  · apply Prod.Lex.left
    rw [List.length_eraseIdx_of_lt hj]
    omega
  · apply Prod.Lex.right
    apply Prod.Lex.right
    omega
  · apply Prod.Lex.right
    apply Prod.Lex.left
    omega

/-- `_prune_free_rectangles` (lines 181-202): the loops start at
`i = 0`, `j = 1`. -/
def pruneFreeRectangles (l : List Rect) : List Rect :=
  pruneGo l 0 1

/-- `_split_free_rectangle` (lines 137-147): split every free rectangle
against the just placed one, then prune. -/
def splitFreeRectangle (free : List Rect) (b : Rect) : List Rect :=
  pruneFreeRectangles (splitFreeList free b)

/-- `BinPacker.insert` (lines 34-135): choose a free rectangle with the
placement strategy; on success split the free list, append to the used
list and return the placed rectangle; on failure return `none` leaving the
state untouched. -/
def insert (p : BinPacker) (w h : Int) : Option Rect × BinPacker :=
  match p.selectBestRect w h with
  | none => (none, p)
  | some b =>
      (some b,
        { p with
          freeRectangles := splitFreeRectangle p.freeRectangles b
          usedRectangles := p.usedRectangles ++ [b] })

/-- A sequence of `insert` calls, keeping only the packer state. -/
def applyInserts (p : BinPacker) (reqs : List (Int × Int)) : BinPacker :=
  reqs.foldl (fun st wh => (st.insert wh.1 wh.2).2) p

end BinPacker

/-- Geometric predicates used by the claims (not by the algorithm). -/
def Rect.inBounds (r : Rect) (w h : Int) : Prop :=
  0 ≤ r.x ∧ 0 ≤ r.y ∧ r.x + r.width ≤ w ∧ r.y + r.height ≤ h

instance (r : Rect) (w h : Int) : Decidable (r.inBounds w h) := by
  unfold Rect.inBounds; infer_instance

/-- Two rectangles are disjoint when they share no interior point: one lies
entirely to the left of, to the right of, above or below the other. -/
def Rect.disjointWith (r s : Rect) : Prop :=
  r.x + r.width ≤ s.x ∨ s.x + s.width ≤ r.x ∨
  r.y + r.height ≤ s.y ∨ s.y + s.height ≤ r.y

instance (r s : Rect) : Decidable (r.disjointWith s) := by
  unfold Rect.disjointWith; infer_instance

/-- A rectangle has positive width and height. -/
def Rect.posDims (r : Rect) : Prop := 0 < r.width ∧ 0 < r.height

instance (r : Rect) : Decidable r.posDims := by
  unfold Rect.posDims; infer_instance

/-- An input image as the packing engine sees it: the tuple
`(filename, img)` with `img.size = (width, height)`.  Pixel contents play
no role in any claim, so only the dimensions are modelled. -/
structure Img where
  name : String
  width : Int
  height : Int
deriving DecidableEq, Repr, Inhabited

/-- The double-ended interleaving of the `pathological` sort
(lines 279-288): repeatedly take the first and the last remaining
element. -/
def interleaveEnds {α : Type} : List α → List α
  | [] => []
  | [a] => [a]
  | a :: b :: rest =>
      a :: (b :: rest).getLast (by simp) :: interleaveEnds ((b :: rest).dropLast)
termination_by l => l.length
decreasing_by
  simp [List.length_dropLast]
  omega

/-- `AtlasGenerator._sort_images` (lines 241-290).  Python's `sorted` is
stable also with `reverse=True`, which `List.mergeSort le` reproduces with
`le a b := key b ≤ key a` for a descending key (ties keep source order).
The `ratio` keys use exact rationals for Python's float division, and
`diagonal` compares the squared lengths: `sqrt` is strictly monotone, and
on the integer ranges involved (sides ≤ 2048) the float `sqrt` values of
distinct squares are distinct, so the induced order is the same. -/
def sortImages (images : List Img) (sortStrategy : String) : List Img :=
  if sortStrategy = "none" then images
  else if sortStrategy = "area" then
    images.mergeSort (fun a b => b.width * b.height ≤ a.width * a.height)
  else if sortStrategy = "area_asc" then
    images.mergeSort (fun a b => a.width * a.height ≤ b.width * b.height)
  else if sortStrategy = "height" then
    images.mergeSort (fun a b => b.height ≤ a.height)
  else if sortStrategy = "height_asc" then
    images.mergeSort (fun a b => a.height ≤ b.height)
  else if sortStrategy = "width" then
    images.mergeSort (fun a b => b.width ≤ a.width)
  else if sortStrategy = "width_asc" then
    images.mergeSort (fun a b => a.width ≤ b.width)
  else if sortStrategy = "perimeter" then
    images.mergeSort (fun a b => b.width + b.height ≤ a.width + a.height)
  else if sortStrategy = "max_side" then
    images.mergeSort (fun a b => max b.width b.height ≤ max a.width a.height)
  else if sortStrategy = "min_side" then
    images.mergeSort (fun a b => min b.width b.height ≤ min a.width a.height)
  else if sortStrategy = "ratio" then
    images.mergeSort (fun a b =>
      (b.width : ℚ) / (max b.height 1 : Int) ≤ (a.width : ℚ) / (max a.height 1 : Int))
  else if sortStrategy = "ratio_inv" then
    images.mergeSort (fun a b =>
      (b.height : ℚ) / (max b.width 1 : Int) ≤ (a.height : ℚ) / (max a.width 1 : Int))
  else if sortStrategy = "diagonal" then
    images.mergeSort (fun a b =>
      b.width ^ 2 + b.height ^ 2 ≤ a.width ^ 2 + a.height ^ 2)
  else if sortStrategy = "pathological" then
    interleaveEnds (images.mergeSort (fun a b => b.width * b.height ≤ a.width * a.height))
  else images

/-- The intermediate per-image placement record of `pack_images_in_atlas`
(lines 337-342): pixel position of the pasted raster (padding already
added) and its unpadded size. -/
structure RawUV where
  x : Int
  y : Int
  width : Int
  height : Int
deriving DecidableEq, Repr

/-- The final per-image UV entry (lines 361-369): unpadded pixel size plus
normalized rectangle against the cropped atlas, y flipped to a bottom-left
origin. -/
structure UVEntry where
  width : Int
  height : Int
  rectX : ℚ
  rectY : ℚ
  rectWidth : ℚ
  rectHeight : ℚ
deriving DecidableEq, Repr

/-- A value of a `uv` dict.  The dicts are heterogeneous in the source:
`pack_images_in_atlas` returns raw records when the placed area is empty
(the crop branch is skipped) and finalized ones otherwise, and
`create_individual_atlases` merges both shapes into one dict
(lines 782-795). -/
inductive UVVal where
  | raw (r : RawUV)
  | unity (e : UVEntry)
  | indiv (r : RawUV) (e : UVEntry)
deriving DecidableEq, Repr

/-- The `width` field every `uv` dict shape carries. -/
def UVVal.imgWidth : UVVal → Int
  | .raw r => r.width
  | .unity e => e.width
  | .indiv r _ => r.width

/-- The `height` field every `uv` dict shape carries. -/
def UVVal.imgHeight : UVVal → Int
  | .raw r => r.height
  | .unity e => e.height
  | .indiv r _ => r.height

/-- Assignment `d[k] = v` on a Python dict modelled as an insertion-ordered
association list: an existing key keeps its position, a new key is
appended. -/
def dictInsert {α : Type} (m : List (String × α)) (k : String) (v : α) :
    List (String × α) :=
  if m.any (fun p => p.1 = k) then
    m.map (fun p => if p.1 = k then (k, v) else p)
  else m ++ [(k, v)]

/-- The keys of a `uv` dict, in insertion order. -/
def uvKeys {α : Type} (m : List (String × α)) : List String := m.map Prod.fst

/-- The filenames of a list of images. -/
def imgNames (images : List Img) : List String := images.map Img.name

/-- The placement loop of `pack_images_in_atlas` (lines 319-346): insert
each image padded on both axes, breaking at the first failure; track the
per-image raw records and the maximal right and bottom extents of the
placed (padded) rectangles. -/
def packLoop (packer : BinPacker) (pad : Int) (imgs : List Img)
    (uv : List (String × RawUV)) (maxRight maxBottom : Int) :
    BinPacker × List (String × RawUV) × Int × Int :=
  match imgs with
  | [] => (packer, uv, maxRight, maxBottom)
  | im :: rest =>
      let paddedWidth := im.width + pad * 2
      let paddedHeight := im.height + pad * 2
      match packer.insert paddedWidth paddedHeight with
      | (none, _) => (packer, uv, maxRight, maxBottom)
      | (some rect, packer') =>
          packLoop packer' pad rest
            (dictInsert uv im.name
              ⟨rect.x + pad, rect.y + pad, im.width, im.height⟩)
            (max maxRight (rect.x + rect.width))
            (max maxBottom (rect.y + rect.height))

/-- The UV finalization of `pack_images_in_atlas` (lines 358-369) against
the cropped dimensions. -/
def finalizeUV (uv : List (String × RawUV)) (w h : Int) :
    List (String × UVEntry) :=
  uv.map (fun p =>
    (p.1,
      { width := p.2.width
        height := p.2.height
        rectX := (p.2.x : ℚ) / (w : ℚ)
        rectY := 1 - ((p.2.y : ℚ) + (p.2.height : ℚ)) / (h : ℚ)
        rectWidth := (p.2.width : ℚ) / (w : ℚ)
        rectHeight := (p.2.height : ℚ) / (h : ℚ) }))

/-- `AtlasGenerator.pack_images_in_atlas` (lines 292-371).  The atlas
raster is modelled by its dimensions (`none` for the `None` returned on an
empty input).  When nothing extends the used area the crop branch of
lines 349-369 is skipped and the raw records are returned, as in the
source. -/
def packImagesInAtlas (maxAtlasSize pad : Int) (images : List Img)
    (sortStrategy placementStrategy : String) :
    Option (Int × Int) × List (String × UVVal) :=
  if images = [] then (none, [])
  else
    let sortedImages := sortImages images sortStrategy
    let packer := BinPacker.init maxAtlasSize maxAtlasSize placementStrategy
    let r := packLoop packer pad sortedImages [] 0 0
    let maxRight := r.2.2.1
    let maxBottom := r.2.2.2
    if 0 < maxRight ∧ 0 < maxBottom then
      let actualWidth := max 1 maxRight
      let actualHeight := max 1 maxBottom
      (some (actualWidth, actualHeight),
        (finalizeUV r.2.1 actualWidth actualHeight).map
          (fun p => (p.1, UVVal.unity p.2)))
    else
      (some (maxAtlasSize, maxAtlasSize),
        r.2.1.map (fun p => (p.1, UVVal.raw p.2)))

/-- The candidate score of `find_best_single_atlas` (lines 523-528). -/
structure Score where
  numImages : Nat
  efficiency : ℚ
  totalArea : Int
  imageArea : Int
deriving DecidableEq, Repr

/-- A `best_result` candidate of `find_best_single_atlas`
(lines 543-553); the raster itself is represented by its dimensions. -/
structure BestResult where
  uv : List (String × UVVal)
  width : Int
  height : Int
  count : Nat
  atlasSize : Int
  sortStrategy : String
  placementStrategy : String
  score : Score
deriving DecidableEq, Repr

/-- Score computation for one candidate (lines 518-528 and the identical
blocks at 581-591 and 638-648): `uv['width'] * uv['height']` summed over
the entries, efficiency as a percentage. -/
def scoreOf (w h : Int) (uv : List (String × UVVal)) : Score :=
  let atlasArea : Int := w * h
  let imageArea : Int := uv.foldl (fun a p => a + p.2.imgWidth * p.2.imgHeight) 0
  { numImages := uv.length
    efficiency := if 0 < atlasArea then (imageArea : ℚ) / (atlasArea : ℚ) * 100 else 0
    totalArea := atlasArea
    imageArea := imageArea }

/-- The `is_better` cascade (lines 530-540): more images, then smaller
total area, then larger efficiency; an absent best is always beaten.
The permutation and random branches (lines 593-601, 650-658) read
`best_score[...]` without a `None` check — Python would raise there, but
that state is unreachable because every 2048-size grid configuration
accepts a candidate first (the pre-check at lines 480-486 guarantees the
first insert succeeds); the `none` branch value is therefore never
consulted. -/
def isBetter (score : Score) (best : Option Score) : Bool :=
  match best with
  | none => true
  | some b =>
      if b.numImages < score.numImages then true
      else if score.numImages = b.numImages then
        if score.totalArea < b.totalArea then true
        else if score.totalArea = b.totalArea then
          decide (b.efficiency < score.efficiency)
        else false
      else false

/-- Running state of the search loops of `find_best_single_atlas`:
`best_result`/`best_score` (always updated together, lines 542-554) and
the `configs_tested` counter. -/
structure SearchState where
  best : Option BestResult
  configsTested : Nat
deriving Repr

/-- The grid sizes (line 491). -/
def atlasSizesList : List Int := [2048, 1536, 1024]

/-- The grid sort strategies (lines 492-494). -/
def sortStrategiesList : List String :=
  ["area", "height", "width", "perimeter", "max_side",
   "min_side", "ratio", "ratio_inv", "diagonal",
   "height_asc", "width_asc", "pathological"]

/-- The grid placement strategies (lines 495-496). -/
def placementStrategiesList : List String :=
  ["best_area_fit", "best_short_side_fit", "best_long_side_fit",
   "bottom_left", "contact_point"]

/-- One deterministic grid configuration of `find_best_single_atlas`
(lines 506-554): bump `configs_tested`, pack with the configuration's
atlas size, and keep the candidate when `if atlas and uv_coords` holds and
the score is better. -/
def considerGrid (pad : Int) (images : List Img) (atlasSize : Int)
    (placement sort : String) (st : SearchState) : SearchState :=
  let st := { st with configsTested := st.configsTested + 1 }
  let r := packImagesInAtlas atlasSize pad images sort placement
  match r.1 with
  | none => st
  | some (w, h) =>
      if r.2 = [] then st
      else
        let score := scoreOf w h r.2
        if isBetter score (st.best.map BestResult.score) then
          { st with
            best := some
              { uv := r.2, width := w, height := h, count := r.2.length
                atlasSize := atlasSize, sortStrategy := sort
                placementStrategy := placement, score := score } }
        else st

/-- One block-shuffle permutation run (lines 557-615).  The in-place
seeded `random.shuffle` of contiguous blocks is abstracted as
`oracle seed list`; the theorems only assume it permutes its input.  The
block structure itself is modelled by `codePermRuns` below.  Note the
Python loop variable `sort_strategy` holds the last grid entry
(`'pathological'`) when this block runs, since it sits after the sort
loop. -/
def considerPerm (oracle : Int → List Img → List Img) (pad : Int)
    (images : List Img) (atlasSize : Int) (placement sort : String)
    (permIdx : Nat) (st : SearchState) : SearchState :=
  let st := { st with configsTested := st.configsTested + 1 }
  let sortedImages := sortImages images sort
  let shuffled :=
    oracle (atlasSize + (st.configsTested : Int) + (permIdx : Int) * 1000)
      sortedImages
  let r := packImagesInAtlas atlasSize pad shuffled "none" placement
  match r.1 with
  | none => st
  | some (w, h) =>
      if r.2 = [] then st
      else
        let score := scoreOf w h r.2
        if isBetter score (st.best.map BestResult.score) then
          { st with
            best := some
              { uv := r.2, width := w, height := h, count := r.2.length
                atlasSize := atlasSize
                sortStrategy := sort ++ "_perm" ++ toString permIdx
                placementStrategy := placement, score := score } }
        else st

/-- The body of the placement loop (lines 505-615): all twelve sort
configurations, then up to two permutation runs for this
(size, placement) pair. -/
def placementPass (oracle : Int → List Img → List Img) (pad : Int)
    (images : List Img) (permsPerConfig : Nat) (atlasSize : Int)
    (placement : String) (st : SearchState) : SearchState :=
  let st := sortStrategiesList.foldl
    (fun st sort => considerGrid pad images atlasSize placement sort st) st
  if 0 < permsPerConfig then
    (List.range (min 2 permsPerConfig)).foldl
      (fun st permIdx =>
        considerPerm oracle pad images atlasSize placement
          (sortStrategiesList.getLastD "area") permIdx st)
      st
  else st

/-- The full deterministic grid of `find_best_single_atlas`
(lines 504-615). -/
def gridPass (oracle : Int → List Img → List Img) (pad : Int)
    (images : List Img) (permsPerConfig : Nat) : SearchState :=
  atlasSizesList.foldl
    (fun st atlasSize =>
      placementStrategiesList.foldl
        (fun st placement =>
          placementPass oracle pad images permsPerConfig atlasSize placement st)
        st)
    { best := none, configsTested := 0 }

/-- The global random refinement (lines 617-672): ten fully shuffled runs
with seeds `5000..5009` against the current best's atlas size and
placement; skipped when there is no best yet (`if use_random and
best_result`). -/
def randomPass (oracle : Int → List Img → List Img) (pad : Int)
    (images : List Img) (st : SearchState) : SearchState :=
  match st.best with
  | none => st
  | some best0 =>
      (List.range 10).foldl
        (fun st i =>
          let randomImages := oracle ((i : Int) + 5000) images
          let r := packImagesInAtlas best0.atlasSize pad randomImages "none"
            best0.placementStrategy
          match r.1 with
          | none => st
          | some (w, h) =>
              if r.2 = [] then st
              else
                let score := scoreOf w h r.2
                if isBetter score (st.best.map BestResult.score) then
                  { st with
                    best := some
                      { uv := r.2, width := w, height := h
                        count := r.2.length, atlasSize := best0.atlasSize
                        sortStrategy := "random_" ++ toString i
                        placementStrategy := best0.placementStrategy
                        score := score } }
                else st)
        st

/-- `AtlasGenerator.find_best_single_atlas` (lines 466-674): `none` on an
empty input or when some image cannot fit a 2048 atlas after padding
(lines 480-486); otherwise the grid, the permutation runs and, when
enabled, the random refinement. -/
def findBestSingleAtlas (oracle : Int → List Img → List Img) (pad : Int)
    (images : List Img) (useRandom : Bool) (permsPerConfig : Nat) :
    Option BestResult :=
  match images with
  | [] => none
  | im0 :: rest =>
      let maxImgWidth := rest.foldl (fun a im => max a im.width) im0.width
      let maxImgHeight := rest.foldl (fun a im => max a im.height) im0.height
      if 2048 < maxImgWidth + pad * 2 ∨ 2048 < maxImgHeight + pad * 2 then none
      else
        let st := gridPass oracle pad images permsPerConfig
        let st := if useRandom then randomPass oracle pad images st else st
        st.best

/-- The adaptive loop of `find_best_packing` (lines 688-719): repeatedly
pack one best atlas from the residual images, remove the placed names,
stop on failure or after the 100-atlas safety limit.  The second component
is the residual list the source's loop leaves behind (and silently
drops). -/
def fbpLoop (oracle : Int → List Img → List Img) (pad : Int)
    (useAdvanced : Bool) (remaining : List Img) (atlasIndex : Nat)
    (acc : List BestResult) : List BestResult × List Img :=
  if remaining.isEmpty then (acc, remaining)
  else
    match findBestSingleAtlas oracle pad remaining useAdvanced 5 with
    | none => (acc, remaining)
    | some best =>
        let acc := acc ++ [best]
        let placed := uvKeys best.uv
        let remaining' := remaining.filter (fun im => !(placed.contains im.name))
        if 100 < atlasIndex + 1 then (acc, remaining')
        else fbpLoop oracle pad useAdvanced remaining' (atlasIndex + 1) acc
termination_by 101 - atlasIndex
decreasing_by omega

/-- `AtlasGenerator.find_best_packing` (lines 676-746), reduced to the
atlas list it builds (first component) and the dropped residual images
(second component); the aggregate statistics it also assembles play no
role in the claims. -/
def findBestPacking (oracle : Int → List Img → List Img) (pad : Int)
    (images : List Img) (useAdvanced : Bool) : List BestResult × List Img :=
  fbpLoop oracle pad useAdvanced images 0 []

/-- One atlas as the per-level driver records it (the dict keys `width`,
`height`, `uv`, `count` common to search results and fallback atlases). -/
structure AtlasInfo where
  width : Int
  height : Int
  uv : List (String × UVVal)
  count : Nat
deriving DecidableEq, Repr

/-- `AtlasGenerator.create_individual_atlases` (lines 748-805): one atlas
per image, the image downscaled to fit `max_atlas_size` minus padding when
needed (`int(...)` on a nonnegative float is the floor, modelled exactly
with rationals), pasted at `(pad, pad)` with the near-full UV entry of
lines 782-795. -/
def createIndividualAtlases (maxAtlasSize pad : Int) (images : List Img) :
    List AtlasInfo :=
  images.map (fun im =>
    let maxImageWidth := maxAtlasSize - pad * 2
    let maxImageHeight := maxAtlasSize - pad * 2
    let resized : Int × Int :=
      if maxImageWidth < im.width ∨ maxImageHeight < im.height then
        let ratio : ℚ :=
          min ((maxImageWidth : ℚ) / (im.width : ℚ))
            ((maxImageHeight : ℚ) / (im.height : ℚ))
        (⌊(im.width : ℚ) * ratio⌋, ⌊(im.height : ℚ) * ratio⌋)
      else (im.width, im.height)
    let imgWidth := resized.1
    let imgHeight := resized.2
    let atlasWidth := imgWidth + pad * 2
    let atlasHeight := imgHeight + pad * 2
    let raw : RawUV := ⟨pad, pad, imgWidth, imgHeight⟩
    let entry : UVEntry :=
      { width := imgWidth
        height := imgHeight
        rectX := (pad : ℚ) / (atlasWidth : ℚ)
        rectY := 1 - ((pad : ℚ) + (imgHeight : ℚ)) / (atlasHeight : ℚ)
        rectWidth := (imgWidth : ℚ) / (atlasWidth : ℚ)
        rectHeight := (imgHeight : ℚ) / (atlasHeight : ℚ) }
    { width := atlasWidth, height := atlasHeight
      uv := [(im.name, UVVal.indiv raw entry)], count := 1 })

/-- Projection of a search result onto the dict keys the per-level driver
reads. -/
def bestResultAtlasInfo (b : BestResult) : AtlasInfo :=
  { width := b.width, height := b.height, uv := b.uv, count := b.count }

/-- The per-level atlas list of `generate_atlases` (lines 916-937): the
adaptive packing, or one individual atlas per image when it produced
nothing. -/
def levelAtlases (oracle : Int → List Img → List Img)
    (pad maxAtlasSize : Int) (images : List Img) : List AtlasInfo :=
  let r := findBestPacking oracle pad images true
  if r.1.isEmpty then createIndividualAtlases maxAtlasSize pad images
  else r.1.map bestResultAtlasInfo

/-- `AtlasGenerator.downscale_image` (lines 229-239): floor division of
both sides (dimensions are nonnegative, so `Int` division is the floor),
clamped to at least one pixel. -/
def downscaleImage (im : Img) (f : Nat) : Img :=
  let newWidth := im.width / (f : Int)
  let newHeight := im.height / (f : Int)
  if newWidth < 1 ∨ newHeight < 1 then
    { name := im.name, width := max 1 newWidth, height := max 1 newHeight }
  else
    { name := im.name, width := newWidth, height := newHeight }

/-- The fixed downscale sequence of `generate_atlases` (line 902). -/
def scaleFactorsList : List Nat := [1, 2, 4, 8, 16]

/-- The downscale loop of `generate_atlases` (lines 904-992), with the
per-level computation abstracted as `g` (it is `levelBody` in the real
pipeline; the loop behaviour depends on it only through the produced
lists).  Per level: skip an empty result (the `continue` of line 927),
otherwise emit the atlases sorted by `count` descending (line 940) tagged
with the scale factor, and break when the level produced exactly one
atlas (lines 987-992). -/
def processScalesGo (g : Nat → List AtlasInfo) :
    List Nat → List (Nat × AtlasInfo)
  | [] => []
  | f :: rest =>
      let atl := g f
      if atl.isEmpty then processScalesGo g rest
      else
        let entries := (atl.mergeSort (fun a b => b.count ≤ a.count)).map
          (fun a => (f, a))
        if atl.length = 1 then entries else entries ++ processScalesGo g rest

/-- The emitted `(scale, atlas)` pairs of the whole downscale pipeline. -/
def processScales (g : Nat → List AtlasInfo) : List (Nat × AtlasInfo) :=
  processScalesGo g scaleFactorsList

/-- The real per-level body: downscale every loaded image by the factor,
then run the adaptive driver with fallback (lines 909-937). -/
def levelBody (oracle : Int → List Img → List Img)
    (pad maxAtlasSize : Int) (images : List Img) (f : Nat) : List AtlasInfo :=
  levelAtlases oracle pad maxAtlasSize (images.map (fun im => downscaleImage im f))

/-- `supported_formats` of `generate_atlases` (line 837). -/
def supportedFormats : List String := [".png", ".jpg", ".jpeg", ".bmp", ".tiff"]

/-- Python's `str.lower` on the ASCII filenames involved, written over
the character list. -/
def pyLower (s : String) : String := String.mk (s.data.map Char.toLower)

/-- `str.endswith` with a tuple of suffixes. -/
def endsWithAny (s : String) (suffixes : List String) : Bool :=
  suffixes.any (fun e => e.data.isSuffixOf s.data)

/-- The input filter of `generate_atlases` (line 840):
`filename.lower().endswith(supported_formats)`. -/
def isSupportedImageFile (filename : String) : Bool :=
  endsWithAny (pyLower filename) supportedFormats

/-- Modelled from the spec's words for comparison (§6, "flat directory of
image files with extensions {.png,.jpg,.jpeg,.bmp,.tiff,.gif,.webp}
(case-insensitive)"): the acceptance predicate the claim asserts. -/
def specSupportedFormats : List String :=
  [".png", ".jpg", ".jpeg", ".bmp", ".tiff", ".gif", ".webp"]

/-- The claim's acceptance predicate, following the spec's words. -/
def specAcceptsFile (filename : String) : Bool :=
  endsWithAny (pyLower filename) specSupportedFormats

/-- An atlas record of the output manifest as `generate_static.py` reads
it.  `J` stands for the opaque JSON payloads (UV entries, user metadata)
that the static pass copies without inspecting. -/
structure MAtlas (J : Type) where
  file? : Option String
  scale : Int
  width : Int
  height : Int
  sha : String
  uv : List (String × J)
deriving DecidableEq, Repr

/-- The manifest fields `compress_atlas_data` reads (lines 14-56 of
`generate_static.py`): dicts are insertion-ordered association lists. -/
structure InputManifest (J : Type) where
  version : Int
  imagesMetadata : List (String × J)
  atlases : List (MAtlas J)
  metadataBlock : Option J
deriving Repr

/-- One compressed atlas (lines 41-47 of `generate_static.py`). -/
structure CAtlas (J : Type) where
  scale : Int
  width : Int
  height : Int
  sha : String
  uv : List (String × J)
deriving DecidableEq, Repr

/-- The compressed output (lines 19-23 of `generate_static.py`). -/
structure CompressedData (J : Type) where
  version : Int
  mapping : List J
  atlases : List (CAtlas J)
  metadataBlock : Option J
deriving Repr

/-- `image_name_to_index` of `compress_atlas_data` (lines 30-37): names
mapped to their running index over `images_metadata` insertion order
(a repeated name would keep the later index, as in a Python dict). -/
def nameIndexMap {J : Type} (meta : List (String × J)) : List (String × Nat) :=
  (meta.foldl (fun acc p => (dictInsert acc.1 p.1 acc.2, acc.2 + 1))
    (([], 0) : List (String × Nat) × Nat)).1

/-- The zero-based position of an image name in the `images_metadata`
insertion order, the "stable image index" of the spec. -/
def stableIndexOf {J : Type} (meta : List (String × J)) (nm : String) : Nat :=
  (meta.map Prod.fst).indexOf nm

/-- The uv re-keying of one atlas (lines 50-52 of `generate_static.py`):
every key is replaced by `str(index)`; a missing name raises `KeyError`
in the source, modelled as `none`. -/
def compressUV {J : Type} (idxMap : List (String × Nat))
    (uv : List (String × J)) : Option (List (String × J)) :=
  uv.foldlM
    (fun acc p =>
      (idxMap.lookup p.1).map (fun ix => dictInsert acc (toString ix) p.2))
    []

/-- `compress_atlas_data` (lines 14-56 of `generate_static.py`). -/
def compressAtlasData {J : Type} (data : InputManifest J) :
    Option (CompressedData J) :=
  let idxMap := nameIndexMap data.imagesMetadata
  let mapping := data.imagesMetadata.map Prod.snd
  (data.atlases.mapM
      (fun a =>
        (compressUV idxMap a.uv).map
          (fun cuv =>
            ({ scale := a.scale, width := a.width, height := a.height
               sha := a.sha, uv := cuv } : CAtlas J)))).map
    (fun catlases =>
      { version := data.version, mapping := mapping, atlases := catlases
        metadataBlock := data.metadataBlock })

/-- `pathlib.Path.suffix` for the plain `name.ext` filenames the atlas
files use: the final dot-suffix, empty when there is no dot or when the
name is a lone hidden file like `.png`. -/
def fileSuffix (s : String) : String :=
  let parts := s.splitOn "."
  if parts.length ≤ 1 then ""
  else if parts.getD 0 "" = "" ∧ parts.length = 2 then ""
  else "." ++ parts.getLastD ""

/-- `copy_and_rename_images` (lines 59-89 of `generate_static.py`),
reduced to the `(original, new, index)` renaming triples it records;
`fileExists` stands for the filesystem probe `source_file.exists()`.
`enumerate` assigns the flat index to every atlas whether or not its file
is copied. -/
def copyAndRenameImages {J : Type} (atlases : List (MAtlas J))
    (fileExists : String → Bool) : List (String × String × Nat) :=
  atlases.enum.filterMap
    (fun p =>
      match p.2.file? with
      | none => none
      | some f =>
          if fileExists f then some (f, toString p.1 ++ fileSuffix f, p.1)
          else none)

/-- One block-shuffle permutation run of `find_best_single_atlas`
(lines 556-574), recorded rather than performed: the configuration it
belongs to, the list it starts from, the PRNG seed, the block size and
the start indices of the shuffled blocks `[i, i+block)`. -/
structure PermRun where
  atlasSize : Int
  placement : String
  baseSort : String
  baseOrder : List Img
  seed : Int
  blockSize : Nat
  shuffleStarts : List Nat
  packSort : String
deriving DecidableEq, Repr

/-- The multiples of `step` strictly below `stop`, Python's
`range(0, stop, step)` for positive `step`. -/
def rangeStep (stop step : Nat) : List Nat :=
  if step = 0 then []
  else (List.range ((stop + step - 1) / step)).map (· * step)

/-- The multiples of `step` up to and including `stop`. -/
def rangeStepIncl (stop step : Nat) : List Nat :=
  if step = 0 then []
  else (List.range (stop / step + 1)).map (· * step)

/-- The permutation runs `find_best_single_atlas` actually generates
(lines 504-574): the block sits inside the placement loop but after the
sort loop, so it runs once per (size, placement) pair, the Python loop
variable `sort_strategy` holding the last grid entry; `configs_tested`
counts the twelve grid configurations of the pair and each permutation
run itself (incremented before seeding, line 559); the shuffled block
starts are `range(0, n - block, block // 2)` (line 566), the upper bound
exclusive. -/
def codePermRuns (images : List Img) (permsPerConfig : Nat) : List PermRun :=
  (atlasSizesList.foldl
    (fun (acc : List PermRun × Nat) atlasSize =>
      placementStrategiesList.foldl
        (fun acc placement =>
          let acc := sortStrategiesList.foldl
            (fun (acc : List PermRun × Nat) _ => (acc.1, acc.2 + 1)) acc
          if 0 < permsPerConfig then
            (List.range (min 2 permsPerConfig)).foldl
              (fun acc permIdx =>
                let configsTested := acc.2 + 1
                let sort := sortStrategiesList.getLastD "area"
                let sorted := sortImages images sort
                let block := max 3 (sorted.length / 10)
                (acc.1 ++
                  [{ atlasSize := atlasSize, placement := placement
                     baseSort := sort, baseOrder := sorted
                     seed := atlasSize + (configsTested : Int) +
                       (permIdx : Int) * 1000
                     blockSize := block
                     shuffleStarts := rangeStep (sorted.length - block) (block / 2)
                     packSort := "none" }],
                  configsTested))
              acc
          else acc)
        acc)
    (([], 0) : List PermRun × Nat)).1

/-- Modelled from the spec's words for comparison (§4.4: "per
(size × sort × placement), generate up to 2 block-shuffle permutations:
start from the chosen sort, seed = size + config_counter + perm_index 1000,
choose block = max(3, n/10), and for i = 0, block/2, block, ..., n − block
inclusive, shuffle the contiguous block [i, i+block)"): one pair of runs
for EVERY triple of the grid, each starting from that triple's own sort
and shuffling blocks up to `n − block` inclusive. -/
def specPermRuns (images : List Img) : List PermRun :=
  (atlasSizesList.foldl
    (fun (acc : List PermRun × Nat) atlasSize =>
      placementStrategiesList.foldl
        (fun acc placement =>
          sortStrategiesList.foldl
            (fun acc sort =>
              let acc := (acc.1, acc.2 + 1)
              (List.range 2).foldl
                (fun (acc : List PermRun × Nat) permIdx =>
                  let configsTested := acc.2 + 1
                  let sorted := sortImages images sort
                  let block := max 3 (sorted.length / 10)
                  (acc.1 ++
                    [{ atlasSize := atlasSize, placement := placement
                       baseSort := sort, baseOrder := sorted
                       seed := atlasSize + (configsTested : Int) +
                         (permIdx : Int) * 1000
                       blockSize := block
                       shuffleStarts :=
                         rangeStepIncl (sorted.length - block) (block / 2)
                       packSort := "none" }],
                    configsTested))
                acc)
            acc)
        acc)
    (([], 0) : List PermRun × Nat)).1

/-- The closed form the permutation runs actually follow with the
pipeline's `permutations_per_config = 5` (any value at least 2 gives the
same runs): two runs per (size, placement) pair, both starting from the
`pathological` order — the last entry of the sort grid — with
`configs_tested` counting the twelve grid configurations of each pair plus
the permutation runs themselves, and block starts strictly below
`n - block`. -/
def amendedPermRuns (images : List Img) : List PermRun :=
  atlasSizesList.enum.flatMap (fun sp =>
    placementStrategiesList.enum.flatMap (fun pp =>
      (List.range 2).map (fun permIdx =>
        let sorted := sortImages images "pathological"
        let block := max 3 (sorted.length / 10)
        let configsTested := 14 * (5 * sp.1 + pp.1) + 13 + permIdx
        { atlasSize := sp.2, placement := pp.2
          baseSort := "pathological", baseOrder := sorted
          seed := sp.2 + (configsTested : Int) + (permIdx : Int) * 1000
          blockSize := block
          shuffleStarts := rangeStep (sorted.length - block) (block / 2)
          packSort := "none" })))

/-- A point of the atlas covered by some rectangle of a list. -/
def coveredBy (l : List Rect) (px py : Int) : Prop :=
  ∃ r ∈ l, r.containsPoint px py

instance (l : List Rect) (px py : Int) : Decidable (coveredBy l px py) := by
  unfold coveredBy; infer_instance

/-- Mutual non-containment of two free rectangles, the relation the prune
invariant establishes. -/
def okFree (a b : Rect) : Prop :=
  ¬ BinPacker.containedIn a b ∧ ¬ BinPacker.containedIn b a

instance (a b : Rect) : Decidable (okFree a b) := by
  unfold okFree; infer_instance

/-- The state invariant of a `BinPacker` (spec §3): free and used
rectangles lie within the bounds and have positive dimensions, used
rectangles are pairwise disjoint, no free rectangle is contained in
another free rectangle, free rectangles never overlap used ones, and
every point of the atlas is covered by a free rectangle exactly when it
is covered by no used rectangle. -/
def PackerInv (p : BinPacker) : Prop :=
  (∀ r ∈ p.freeRectangles, r.inBounds p.width p.height ∧ r.posDims) ∧
  (∀ r ∈ p.usedRectangles, r.inBounds p.width p.height ∧ r.posDims) ∧
  p.usedRectangles.Pairwise Rect.disjointWith ∧
  p.freeRectangles.Pairwise okFree ∧
  (∀ f ∈ p.freeRectangles, ∀ u ∈ p.usedRectangles, f.disjointWith u) ∧
  (∀ px py : Int, 0 ≤ px → px < p.width → 0 ≤ py → py < p.height →
    (coveredBy p.freeRectangles px py ↔ ¬ coveredBy p.usedRectangles px py))

/-- All image names placed across a list of search results, with
multiplicity. -/
def placedNames (bs : List BestResult) : List String :=
  bs.flatMap (fun b => uvKeys b.uv)

/-- All image names placed across a list of per-level atlases, with
multiplicity. -/
def placedNamesA (atlases : List AtlasInfo) : List String :=
  atlases.flatMap (fun a => uvKeys a.uv)

/-- The residual images `find_best_packing` silently drops (line 719):
the images still unplaced when its loop stops, empty when the
individual-atlas fallback runs instead. -/
def droppedImages (oracle : Int → List Img → List Img) (pad : Int)
    (images : List Img) : List Img :=
  let r := findBestPacking oracle pad images true
  if r.1.isEmpty then [] else r.2

/-- A `best_result` candidate as every store of `find_best_single_atlas`
shapes it: its uv map is the second component of some
`pack_images_in_atlas` call on a permutation of the input, its atlas size
and placement strategy come from the search grids, and an empty uv map is
never stored (the `if atlas and uv_coords` guards). -/
def CandidateFrom (pad : Int) (images : List Img) (b : BestResult) : Prop :=
  ∃ (l : List Img) (sort : String), l.Perm images ∧
    b.atlasSize ∈ atlasSizesList ∧
    b.placementStrategy ∈ placementStrategiesList ∧
    b.uv = (packImagesInAtlas b.atlasSize pad l sort b.placementStrategy).2 ∧
    b.uv ≠ []

/-- Search-state invariant: any stored best is a candidate of the above
shape. -/
def SearchInv (pad : Int) (images : List Img) (st : SearchState) : Prop :=
  ∀ b, st.best = some b → CandidateFrom pad images b

/-- 102 distinct images of 1500 x 1500 pixels, one more than the 100-atlas
safety limit of `find_best_packing` can hold when each atlas fits a single
such image. -/
def c4Images : List Img :=
  (List.range 102).map
    (fun k => { name := "i" ++ toString k, width := 1500, height := 1500 })

theorem containedIn_point {a c : Rect} {px py : Int}
    (h : BinPacker.containedIn a c) (hp : a.containsPoint px py) :
    c.containsPoint px py := by
  unfold BinPacker.containedIn at h
  unfold Rect.containsPoint at *
  omega

theorem getD_eq_getElem_of_lt {α : Type} [Inhabited α] {l : List α} {i : Nat}
    (h : i < l.length) : l.getD i default = l[i] := by
  simp [List.getD_eq_getElem?_getD, List.getElem?_eq_getElem h]

theorem getElem_mem_eraseIdx {α : Type} {l : List α} {i k : Nat}
    (hk : k < l.length) (hne : k ≠ i) : l[k] ∈ l.eraseIdx i := by
  by_cases hi : i < l.length
  · rcases Nat.lt_or_ge k i with h | h
    · have hk' : k < (l.eraseIdx i).length := by
        rw [List.length_eraseIdx_of_lt hi]; omega
      have := List.getElem_eraseIdx_of_lt l i k hk' h
      exact this ▸ List.getElem_mem hk'
    · have hgt : i < k := by omega
      have hk' : k - 1 < (l.eraseIdx i).length := by
        rw [List.length_eraseIdx_of_lt hi]; omega
      have h2 : (l.eraseIdx i)[k - 1] = l[k] := by
        rw [List.getElem_eraseIdx_of_ge l i (k - 1) hk' (by omega)]
        congr 1
        omega
      exact h2 ▸ List.getElem_mem hk'
  · rw [List.eraseIdx_of_length_le (by omega)]
    exact List.getElem_mem hk

theorem covered_eraseIdx_of_containedIn {l : List Rect} {i j : Nat}
    (hi : i < l.length) (hj : j < l.length) (hne : j ≠ i)
    (hc : BinPacker.containedIn (l.getD i default) (l.getD j default))
    (px py : Int) :
    coveredBy (l.eraseIdx i) px py ↔ coveredBy l px py := by
  constructor
  · rintro ⟨r, hr, hpt⟩
    exact ⟨r, (List.eraseIdx_sublist l i).mem hr, hpt⟩
  · rintro ⟨r, hr, hpt⟩
    rcases List.getElem_of_mem hr with ⟨k, hk, rfl⟩
    by_cases hki : k = i
    · subst hki
      refine ⟨l[j], getElem_mem_eraseIdx hj hne, ?_⟩
      rw [getD_eq_getElem_of_lt hk, getD_eq_getElem_of_lt hj] at hc
      exact containedIn_point hc hpt
    · exact ⟨l[k], getElem_mem_eraseIdx hk hki, hpt⟩

theorem pruneGo_sublist (l : List Rect) (i j : Nat) :
    (BinPacker.pruneGo l i j).Sublist l := by
  induction l, i, j using BinPacker.pruneGo.induct with
  | case1 l i j hi hj r1 r2 hc ih =>
      rw [BinPacker.pruneGo]
      simp only [dif_pos hi, dif_pos hj, if_pos hc]
      exact ih.trans (List.eraseIdx_sublist l i)
  | case2 l i j hi hj r1 r2 hc1 hc2 ih =>
      rw [BinPacker.pruneGo]
      simp only [dif_pos hi, dif_pos hj, if_neg hc1, if_pos hc2]
      exact ih.trans (List.eraseIdx_sublist l j)
  | case3 l i j hi hj r1 r2 hc1 hc2 ih =>
      rw [BinPacker.pruneGo]
      simp only [dif_pos hi, dif_pos hj, if_neg hc1, if_neg hc2]
      exact ih
  | case4 l i j hi hj ih =>
      rw [BinPacker.pruneGo]
      simp only [dif_pos hi, dif_neg hj]
      exact ih
  | case5 l i j hi =>
      rw [BinPacker.pruneGo]
      simp only [dif_neg hi]
      exact List.Sublist.refl l

theorem pruneGo_covers (l : List Rect) (i j : Nat) (hij : i < j) (px py : Int) :
    coveredBy (BinPacker.pruneGo l i j) px py ↔ coveredBy l px py := by
  induction l, i, j using BinPacker.pruneGo.induct with
  | case1 l i j hi hj r1 r2 hc ih =>
      rw [BinPacker.pruneGo]
      simp only [dif_pos hi, dif_pos hj, if_pos hc]
      rw [ih (by omega)]
      exact covered_eraseIdx_of_containedIn hi hj (by omega) hc px py
  | case2 l i j hi hj r1 r2 hc1 hc2 ih =>
      rw [BinPacker.pruneGo]
      simp only [dif_pos hi, dif_pos hj, if_neg hc1, if_pos hc2]
      rw [ih hij]
      exact covered_eraseIdx_of_containedIn hj hi (by omega) hc2 px py
  | case3 l i j hi hj r1 r2 hc1 hc2 ih =>
      rw [BinPacker.pruneGo]
      simp only [dif_pos hi, dif_pos hj, if_neg hc1, if_neg hc2]
      exact ih (by omega)
  | case4 l i j hi hj ih =>
      rw [BinPacker.pruneGo]
      simp only [dif_pos hi, dif_neg hj]
      exact ih (by omega)
  | case5 l i j hi =>
      rw [BinPacker.pruneGo]
      simp only [dif_neg hi]

/-- The inner/outer loop invariant of `_prune_free_rectangles`: pairs whose
smaller index is settled (`< i`), and the pairs `(i, m)` the inner loop has
already compared (`m < j`), are mutually non-contained; the loop then
leaves a list in which every pair is mutually non-contained. -/
theorem pruneGo_antichain (l : List Rect) (i j : Nat) (hij : i < j)
    (h1 : ∀ p q (_ : p < l.length) (hq : q < l.length), p < q → p < i →
      okFree (l[p]) (l[q]))
    (h2 : ∀ m (hm : m < l.length) (hil : i < l.length), i < m → m < j →
      okFree (l[i]) (l[m])) :
    ∀ p q (hp : p < (BinPacker.pruneGo l i j).length)
      (hq : q < (BinPacker.pruneGo l i j).length), p < q →
      okFree ((BinPacker.pruneGo l i j)[p]) ((BinPacker.pruneGo l i j)[q]) := by
  induction l, i, j using BinPacker.pruneGo.induct with
  | case1 l i j hi hj r1 r2 hc ih =>
      rw [BinPacker.pruneGo]
      simp only [dif_pos hi, dif_pos hj, if_pos hc]
      apply ih (by omega)
      · intro p q hp hq hpq hpi
        have hq0 : q < l.length - 1 := by
          have := List.length_eraseIdx_of_lt hi; omega
        have e1 : (l.eraseIdx i)[p] = l[p] :=
          List.getElem_eraseIdx_of_lt l i p hp (by omega)
        by_cases hqi : q < i
        · have e2 : (l.eraseIdx i)[q] = l[q] :=
            List.getElem_eraseIdx_of_lt l i q hq hqi
          rw [e1, e2]
          exact h1 p q (by omega) (by omega) hpq hpi
        · have e2 : (l.eraseIdx i)[q] = l[q + 1] :=
            List.getElem_eraseIdx_of_ge l i q hq (by omega)
          rw [e1, e2]
          exact h1 p (q + 1) (by omega) (by omega) (by omega) hpi
      · intro m hm hil him hmj
        omega
  | case2 l i j hi hj r1 r2 hc1 hc2 ih =>
      rw [BinPacker.pruneGo]
      simp only [dif_pos hi, dif_pos hj, if_neg hc1, if_pos hc2]
      apply ih hij
      · intro p q hp hq hpq hpi
        have hq0 : q < l.length - 1 := by
          have := List.length_eraseIdx_of_lt hj; omega
        have e1 : (l.eraseIdx j)[p] = l[p] :=
          List.getElem_eraseIdx_of_lt l j p hp (by omega)
        by_cases hqj : q < j
        · have e2 : (l.eraseIdx j)[q] = l[q] :=
            List.getElem_eraseIdx_of_lt l j q hq hqj
          rw [e1, e2]
          exact h1 p q (by omega) (by omega) hpq hpi
        · have e2 : (l.eraseIdx j)[q] = l[q + 1] :=
            List.getElem_eraseIdx_of_ge l j q hq (by omega)
          rw [e1, e2]
          exact h1 p (q + 1) (by omega) (by omega) (by omega) hpi
      · intro m hm hil him hmj
        have e1 : (l.eraseIdx j)[i] = l[i] :=
          List.getElem_eraseIdx_of_lt l j i hil hij
        have e2 : (l.eraseIdx j)[m] = l[m] :=
          List.getElem_eraseIdx_of_lt l j m hm hmj
        rw [e1, e2]
        exact h2 m (by omega) (by omega) him hmj
  | case3 l i j hi hj r1 r2 hc1 hc2 ih =>
      rw [BinPacker.pruneGo]
      simp only [dif_pos hi, dif_pos hj, if_neg hc1, if_neg hc2]
      apply ih (by omega) h1
      intro m hm hil him hmj
      by_cases hmj' : m < j
      · exact h2 m hm hil him hmj'
      · have hmj2 : m = j := by omega
        subst hmj2
        have e1 : l.getD i default = l[i] := getD_eq_getElem_of_lt hi
        have e2 : l.getD m default = l[m] := getD_eq_getElem_of_lt (by omega)
        refine ⟨fun hcont => hc1 ?_, fun hcont => hc2 ?_⟩
        · show BinPacker.containedIn (l.getD i default) (l.getD m default)
          rw [e1, e2]; exact hcont
        · show BinPacker.containedIn (l.getD m default) (l.getD i default)
          rw [e1, e2]; exact hcont
  | case4 l i j hi hj ih =>
      rw [BinPacker.pruneGo]
      simp only [dif_pos hi, dif_neg hj]
      apply ih (by omega)
      · intro p q hp hq hpq hpi
        by_cases hpi' : p < i
        · exact h1 p q hp hq hpq hpi'
        · have hpe : p = i := by omega
          subst hpe
          exact h2 q hq hp (by omega) (by omega)
      · intro m hm hil him hmj
        omega
  | case5 l i j hi =>
      rw [BinPacker.pruneGo]
      simp only [dif_neg hi]
      intro p q hp hq hpq
      exact h1 p q hp hq hpq (by omega)

/-- `_prune_free_rectangles` leaves no free rectangle contained in another
free rectangle. -/
theorem pruneFreeRectangles_antichain (l : List Rect) :
    (BinPacker.pruneFreeRectangles l).Pairwise okFree := by
  rw [List.pairwise_iff_getElem]
  intro p q hp hq hpq
  exact pruneGo_antichain l 0 1 (by omega)
    (by intro p q hp hq hpq hpi; omega)
    (by intro m hm hil him hmj; omega) p q hp hq hpq

theorem pruneFreeRectangles_sublist (l : List Rect) :
    (BinPacker.pruneFreeRectangles l).Sublist l :=
  pruneGo_sublist l 0 1

theorem pruneFreeRectangles_covers (l : List Rect) (px py : Int) :
    coveredBy (BinPacker.pruneFreeRectangles l) px py ↔ coveredBy l px py :=
  pruneGo_covers l 0 1 (by omega) px py

theorem mem_ite_singleton {α : Type} {c : Prop} [Decidable c] {a x : α} :
    (x ∈ if c then [a] else ([] : List α)) ↔ c ∧ x = a := by
  split <;> simp_all

theorem mem_splitPieces_iff {r b p : Rect} :
    p ∈ BinPacker.splitPieces r b ↔
      ((r.x < b.x + b.width ∧ b.x + b.width < r.x + r.width) ∧
        p = ⟨b.x + b.width, r.y, r.x + r.width - (b.x + b.width), r.height⟩) ∨
      ((r.x < b.x ∧ b.x < r.x + r.width) ∧
        p = ⟨r.x, r.y, b.x - r.x, r.height⟩) ∨
      ((r.y < b.y + b.height ∧ b.y + b.height < r.y + r.height) ∧
        p = ⟨r.x, b.y + b.height, r.width, r.y + r.height - (b.y + b.height)⟩) ∨
      ((r.y < b.y ∧ b.y < r.y + r.height) ∧
        p = ⟨r.x, r.y, r.width, b.y - r.y⟩) := by
  unfold BinPacker.splitPieces
  simp only [List.mem_append, mem_ite_singleton]
  tauto

theorem splitPieces_containedIn {r b p : Rect}
    (h : p ∈ BinPacker.splitPieces r b) : BinPacker.containedIn p r := by
  rcases mem_splitPieces_iff.1 h with ⟨hc, rfl⟩ | ⟨hc, rfl⟩ | ⟨hc, rfl⟩ | ⟨hc, rfl⟩ <;>
    (unfold BinPacker.containedIn; dsimp only; omega)

theorem splitPieces_posDims {r b p : Rect}
    (h : p ∈ BinPacker.splitPieces r b) (hr : r.posDims) : p.posDims := by
  unfold Rect.posDims at hr
  rcases mem_splitPieces_iff.1 h with ⟨hc, rfl⟩ | ⟨hc, rfl⟩ | ⟨hc, rfl⟩ | ⟨hc, rfl⟩ <;>
    (unfold Rect.posDims; dsimp only; omega)

theorem splitPieces_disjoint_used {r b p : Rect}
    (h : p ∈ BinPacker.splitPieces r b) : p.disjointWith b := by
  rcases mem_splitPieces_iff.1 h with ⟨hc, rfl⟩ | ⟨hc, rfl⟩ | ⟨hc, rfl⟩ | ⟨hc, rfl⟩ <;>
    (unfold Rect.disjointWith; dsimp only; omega)

theorem containedIn_inBounds {p r : Rect} {w h : Int}
    (hc : BinPacker.containedIn p r) (hr : r.inBounds w h) : p.inBounds w h := by
  unfold BinPacker.containedIn at hc
  unfold Rect.inBounds at *
  omega

theorem containedIn_disjointWith {p r u : Rect}
    (hc : BinPacker.containedIn p r) (hd : r.disjointWith u) :
    p.disjointWith u := by
  unfold BinPacker.containedIn at hc
  unfold Rect.disjointWith at *
  omega

theorem disjointWith_symm {r s : Rect} (h : r.disjointWith s) :
    s.disjointWith r := by
  unfold Rect.disjointWith at *
  omega

theorem splitPieces_covers {r b : Rect} (h : ¬ BinPacker.noOverlap r b)
    (px py : Int) :
    (∃ p ∈ BinPacker.splitPieces r b, p.containsPoint px py) ↔
      r.containsPoint px py ∧ ¬ b.containsPoint px py := by
  unfold BinPacker.noOverlap at h
  push_neg at h
  constructor
  · rintro ⟨p, hp, hpt⟩
    rcases mem_splitPieces_iff.1 hp with ⟨hc, rfl⟩ | ⟨hc, rfl⟩ | ⟨hc, rfl⟩ | ⟨hc, rfl⟩ <;>
      (unfold Rect.containsPoint at *; dsimp only at *; omega)
  · rintro ⟨hr, hb⟩
    unfold Rect.containsPoint at hr hb
    push_neg at hb
    by_cases h1 : px < b.x
    · refine ⟨⟨r.x, r.y, b.x - r.x, r.height⟩,
        mem_splitPieces_iff.2 (Or.inr (Or.inl ⟨⟨by omega, by omega⟩, rfl⟩)), ?_⟩
      unfold Rect.containsPoint
      dsimp only
      omega
    · by_cases h2 : b.x + b.width ≤ px
      · refine ⟨⟨b.x + b.width, r.y, r.x + r.width - (b.x + b.width), r.height⟩,
          mem_splitPieces_iff.2 (Or.inl ⟨⟨by omega, by omega⟩, rfl⟩), ?_⟩
        unfold Rect.containsPoint
        dsimp only
        omega
      · by_cases h3 : py < b.y
        · refine ⟨⟨r.x, r.y, r.width, b.y - r.y⟩,
            mem_splitPieces_iff.2 (Or.inr (Or.inr (Or.inr ⟨⟨by omega, by omega⟩, rfl⟩))), ?_⟩
          unfold Rect.containsPoint
          dsimp only
          omega
        · refine ⟨⟨r.x, b.y + b.height, r.width, r.y + r.height - (b.y + b.height)⟩,
            mem_splitPieces_iff.2 (Or.inr (Or.inr (Or.inl ⟨⟨by omega, by omega⟩, rfl⟩))), ?_⟩
          unfold Rect.containsPoint
          dsimp only
          omega

theorem mem_splitFreeList_iff {free : List Rect} {b q : Rect} :
    q ∈ BinPacker.splitFreeList free b ↔
      ∃ r ∈ free, (BinPacker.noOverlap r b ∧ q = r) ∨
        (¬ BinPacker.noOverlap r b ∧ q ∈ BinPacker.splitPieces r b) := by
  unfold BinPacker.splitFreeList
  simp only [List.mem_flatMap]
  constructor
  · rintro ⟨r, hr, hq⟩
    by_cases hno : BinPacker.noOverlap r b
    · rw [if_pos hno] at hq
      simp only [List.mem_singleton] at hq
      exact ⟨r, hr, Or.inl ⟨hno, hq⟩⟩
    · rw [if_neg hno] at hq
      exact ⟨r, hr, Or.inr ⟨hno, hq⟩⟩
  · rintro ⟨r, hr, ⟨hno, rfl⟩ | ⟨hno, hq⟩⟩
    · exact ⟨q, hr, by rw [if_pos hno]; simp⟩
    · exact ⟨r, hr, by rw [if_neg hno]; exact hq⟩

theorem noOverlap_point {r b : Rect} (h : BinPacker.noOverlap r b)
    {px py : Int} (hr : r.containsPoint px py) : ¬ b.containsPoint px py := by
  unfold BinPacker.noOverlap at h
  unfold Rect.containsPoint at *
  omega

theorem splitFreeList_covers (free : List Rect) (b : Rect) (px py : Int) :
    coveredBy (BinPacker.splitFreeList free b) px py ↔
      coveredBy free px py ∧ ¬ b.containsPoint px py := by
  constructor
  · rintro ⟨q, hq, hpt⟩
    rcases mem_splitFreeList_iff.1 hq with ⟨r, hr, ⟨hno, rfl⟩ | ⟨hno, hmem⟩⟩
    · exact ⟨⟨q, hr, hpt⟩, noOverlap_point hno hpt⟩
    · have := (splitPieces_covers hno px py).1 ⟨q, hmem, hpt⟩
      exact ⟨⟨r, hr, this.1⟩, this.2⟩
  · rintro ⟨⟨r, hr, hpt⟩, hb⟩
    by_cases hno : BinPacker.noOverlap r b
    · exact ⟨r, mem_splitFreeList_iff.2 ⟨r, hr, Or.inl ⟨hno, rfl⟩⟩, hpt⟩
    · obtain ⟨p, hp, hppt⟩ := (splitPieces_covers hno px py).2 ⟨hpt, hb⟩
      exact ⟨p, mem_splitFreeList_iff.2 ⟨r, hr, Or.inr ⟨hno, hp⟩⟩, hppt⟩

theorem scanFree_go_none_iff {α : Type} (score : Rect → α) (better : α → α → Bool)
    (w h : Int) :
    ∀ (free : List Rect) (acc : Option (Rect × α)),
      BinPacker.scanFree.go score better w h free acc = none ↔
        (acc = none ∧ ∀ r ∈ free, ¬(w ≤ r.width ∧ h ≤ r.height)) := by
  intro free
  induction free with
  | nil => intro acc; simp [BinPacker.scanFree.go]
  | cons r rest ih =>
      intro acc
      simp only [BinPacker.scanFree.go]
      by_cases hfit : w ≤ r.width ∧ h ≤ r.height
      · rw [if_pos hfit]
        constructor
        · intro hnone
          rcases (ih _).1 hnone with ⟨hacc, _⟩
          exfalso
          match acc, hacc with
          | none, hacc => simp at hacc
          | some (br, bs), hacc =>
              rcases ite_eq_iff.1 hacc with ⟨_, hacc⟩ | ⟨_, hacc⟩ <;> simp at hacc
        · rintro ⟨rfl, hall⟩
          exact absurd hfit (hall r (by simp))
      · rw [if_neg hfit]
        rw [ih acc]
        constructor
        · rintro ⟨rfl, hall⟩
          exact ⟨rfl, by
            intro s hs
            rcases List.mem_cons.1 hs with rfl | hs
            · exact hfit
            · exact hall s hs⟩
        · rintro ⟨rfl, hall⟩
          exact ⟨rfl, fun s hs => hall s (List.mem_cons_of_mem r hs)⟩

theorem scanFree_go_some {α : Type} (score : Rect → α) (better : α → α → Bool)
    (w h : Int) :
    ∀ (free : List Rect) (acc : Option (Rect × α)) (out : Rect × α),
      BinPacker.scanFree.go score better w h free acc = some out →
        acc = some out ∨
          ∃ f ∈ free, (w ≤ f.width ∧ h ≤ f.height) ∧
            out = (⟨f.x, f.y, w, h⟩, score f) := by
  intro free
  induction free with
  | nil =>
      intro acc out hout
      exact Or.inl (by simpa [BinPacker.scanFree.go] using hout)
  | cons r rest ih =>
      intro acc out hout
      simp only [BinPacker.scanFree.go] at hout
      rcases ih _ out hout with hacc | ⟨f, hf, hfit, rfl⟩
      · by_cases hfit : w ≤ r.width ∧ h ≤ r.height
        · rw [if_pos hfit] at hacc
          match acc, hacc with
          | none, hacc =>
              simp only [Option.some.injEq] at hacc
              exact Or.inr ⟨r, by simp, hfit, hacc.symm⟩
          | some (br, bs), hacc =>
              rcases ite_eq_iff.1 hacc with ⟨_, hacc⟩ | ⟨_, hacc⟩
              · simp only [Option.some.injEq] at hacc
                exact Or.inr ⟨r, by simp, hfit, hacc.symm⟩
              · exact Or.inl hacc
        · rw [if_neg hfit] at hacc
          exact Or.inl hacc
      · exact Or.inr ⟨f, List.mem_cons_of_mem r hf, hfit, rfl⟩

theorem scanFree_none_iff {α : Type} (score : Rect → α) (better : α → α → Bool)
    (w h : Int) (free : List Rect) :
    BinPacker.scanFree score better w h free = none ↔
      ∀ r ∈ free, ¬(w ≤ r.width ∧ h ≤ r.height) := by
  unfold BinPacker.scanFree
  rw [scanFree_go_none_iff]
  simp

theorem scanFree_some_spec {α : Type} (score : Rect → α) (better : α → α → Bool)
    (w h : Int) (free : List Rect) (out : Rect × α)
    (hout : BinPacker.scanFree score better w h free = some out) :
    ∃ f ∈ free, (w ≤ f.width ∧ h ≤ f.height) ∧
      out = (⟨f.x, f.y, w, h⟩, score f) := by
  unfold BinPacker.scanFree at hout
  rcases scanFree_go_some score better w h free none out hout with hacc | h
  · simp at hacc
  · exact h

theorem scanContact_some (used : List Rect) (w h : Int) :
    ∀ (free : List Rect) (st : Option Rect × Int × Option Int) (out : Rect),
      (BinPacker.scanContact used w h free st).1 = some out →
      st.1 = some out ∨ ∃ f ∈ free, (w ≤ f.width ∧ h ≤ f.height) ∧
        out = ⟨f.x, f.y, w, h⟩ := by
  intro free
  induction free with
  | nil =>
      intro st out hout
      exact Or.inl (by simpa [BinPacker.scanContact] using hout)
  | cons r rest ih =>
      intro st out hout
      simp only [BinPacker.scanContact] at hout
      rcases ih _ out hout with hacc | ⟨f, hf, hfit, rfl⟩
      · by_cases hfit : w ≤ r.width ∧ h ≤ r.height
        · rw [if_pos hfit] at hacc
          split at hacc
          · simp only [Option.some.injEq] at hacc
            exact Or.inr ⟨r, by simp, hfit, hacc.symm⟩
          · exact Or.inl hacc
        · rw [if_neg hfit] at hacc
          exact Or.inl hacc
      · exact Or.inr ⟨f, List.mem_cons_of_mem r hf, hfit, rfl⟩

theorem scanContact_nofit (used : List Rect) (w h : Int) :
    ∀ (free : List Rect) (st : Option Rect × Int × Option Int),
      (∀ r ∈ free, ¬(w ≤ r.width ∧ h ≤ r.height)) →
      BinPacker.scanContact used w h free st = st := by
  intro free
  induction free with
  | nil => intro st _; rfl
  | cons r rest ih =>
      intro st hno
      simp only [BinPacker.scanContact]
      rw [if_neg (hno r (by simp))]
      exact ih st (fun q hq => hno q (List.mem_cons_of_mem r hq))

theorem scanContact_isSome (used : List Rect) (w h : Int) :
    ∀ (free : List Rect) (st : Option Rect × Int × Option Int),
      st.1.isSome = true →
      ((BinPacker.scanContact used w h free st).1).isSome = true := by
  intro free
  induction free with
  | nil => intro st hst; simpa [BinPacker.scanContact] using hst
  | cons r rest ih =>
      intro st hst
      simp only [BinPacker.scanContact]
      split
      · split
        · exact ih _ rfl
        · exact ih st hst
      · exact ih st hst

theorem scanContact_sentinel_accept (used : List Rect) (w h : Int) :
    ∀ free : List Rect,
      (∃ r ∈ free, (w ≤ r.width ∧ h ≤ r.height) ∧
        -1 ≤ BinPacker.contactScoreOf used w h r.x r.y) →
      ((BinPacker.scanContact used w h free (none, -1, none)).1).isSome
        = true := by
  intro free
  induction free with
  | nil => intro hex; simp at hex
  | cons r rest ih =>
      intro hex
      simp only [BinPacker.scanContact]
      rcases hex with ⟨q, hq, hqfit, hqc⟩
      rcases List.mem_cons.1 hq with rfl | hmem
      · rw [if_pos hqfit]
        split
        · exact scanContact_isSome used w h rest _ rfl
        next hno =>
            exfalso
            apply hno
            rcases lt_or_eq_of_le hqc with hlt | heq
            · exact Or.inl hlt
            · exact Or.inr ⟨heq.symm, True.intro⟩
      · by_cases hfit : w ≤ r.width ∧ h ≤ r.height
        · rw [if_pos hfit]
          split
          · exact scanContact_isSome used w h rest _ rfl
          · exact ih ⟨q, hmem, hqfit, hqc⟩
        · rw [if_neg hfit]
          exact ih ⟨q, hmem, hqfit, hqc⟩

/-- In every placement branch, a selected rectangle sits at the origin of
some fitting free rectangle. -/
theorem selectBestRect_some_spec (p : BinPacker) (w h : Int) (b : Rect)
    (hb : p.selectBestRect w h = some b) :
    ∃ f ∈ p.freeRectangles, (w ≤ f.width ∧ h ≤ f.height) ∧
      b = ⟨f.x, f.y, w, h⟩ := by
  unfold BinPacker.selectBestRect at hb
  split_ifs at hb
  · simp only [Option.map_eq_some'] at hb
    obtain ⟨out, hout, rfl⟩ := hb
    obtain ⟨f, hf, hfit, rfl⟩ := scanFree_some_spec _ _ w h _ out hout
    exact ⟨f, hf, hfit, rfl⟩
  · simp only [Option.map_eq_some'] at hb
    obtain ⟨out, hout, rfl⟩ := hb
    obtain ⟨f, hf, hfit, rfl⟩ := scanFree_some_spec _ _ w h _ out hout
    exact ⟨f, hf, hfit, rfl⟩
  · simp only [Option.map_eq_some'] at hb
    obtain ⟨out, hout, rfl⟩ := hb
    obtain ⟨f, hf, hfit, rfl⟩ := scanFree_some_spec _ _ w h _ out hout
    exact ⟨f, hf, hfit, rfl⟩
  · simp only [Option.map_eq_some'] at hb
    obtain ⟨out, hout, rfl⟩ := hb
    obtain ⟨f, hf, hfit, rfl⟩ := scanFree_some_spec _ _ w h _ out hout
    exact ⟨f, hf, hfit, rfl⟩
  · rcases scanContact_some p.usedRectangles w h p.freeRectangles _ b hb
      with hacc | h
    · simp at hacc
    · exact h

/-- Selection fails when no free rectangle fits, for any strategy string:
the four scan loops never store anything and the final `else` of the
source selects nothing. -/
theorem selectBestRect_none_of_nofit (p : BinPacker) (w h : Int)
    (hno : ∀ r ∈ p.freeRectangles, ¬(w ≤ r.width ∧ h ≤ r.height)) :
    p.selectBestRect w h = none := by
  unfold BinPacker.selectBestRect
  split_ifs
  · rw [(scanFree_none_iff _ _ w h _).2 hno]; rfl
  · rw [(scanFree_none_iff _ _ w h _).2 hno]; rfl
  · rw [(scanFree_none_iff _ _ w h _).2 hno]; rfl
  · rw [(scanFree_none_iff _ _ w h _).2 hno]; rfl
  · rw [scanContact_nofit p.usedRectangles w h p.freeRectangles _ hno]
  · rfl

/-- For the four strategies whose sentinels are `float('inf')`, selection
fails exactly when no free rectangle fits; `contact_point` is excluded
since its `best_contact = -1` sentinel can reject every fitting
candidate. -/
theorem selectBestRect_none_iff (p : BinPacker) (w h : Int)
    (hstrat : p.placementStrategy ∈ placementStrategiesList)
    (hnc : p.placementStrategy ≠ "contact_point") :
    p.selectBestRect w h = none ↔
      ∀ r ∈ p.freeRectangles, ¬(w ≤ r.width ∧ h ≤ r.height) := by
  simp only [placementStrategiesList, List.mem_cons, List.not_mem_nil, or_false] at hstrat
  unfold BinPacker.selectBestRect
  rcases hstrat with hs | hs | hs | hs | hs
  · rw [hs]
    simp only [if_pos, if_neg, String.reduceEq, reduceIte, Option.map_eq_none']
    exact scanFree_none_iff _ _ w h _
  · rw [hs]
    simp only [if_pos, if_neg, String.reduceEq, reduceIte, Option.map_eq_none']
    exact scanFree_none_iff _ _ w h _
  · rw [hs]
    simp only [if_pos, if_neg, String.reduceEq, reduceIte, Option.map_eq_none']
    exact scanFree_none_iff _ _ w h _
  · rw [hs]
    simp only [if_pos, if_neg, String.reduceEq, reduceIte, Option.map_eq_none']
    exact scanFree_none_iff _ _ w h _
  · exact absurd hs hnc

/-- With `contact_point` selected, `selectBestRect` is the sentinel scan. -/
theorem selectBestRect_contact (p : BinPacker) (w h : Int)
    (hnc : p.placementStrategy = "contact_point") :
    p.selectBestRect w h =
      (BinPacker.scanContact p.usedRectangles w h p.freeRectangles
        (none, -1, none)).1 := by
  unfold BinPacker.selectBestRect
  rw [hnc]
  simp only [String.reduceEq, reduceIte]

/-- `insert` either fails leaving the state untouched, or places the
request at the origin of a fitting free rectangle, splitting the free list
and appending to the used list. -/
theorem insert_cases (p : BinPacker) (w h : Int) :
    p.insert w h = (none, p) ∨
      ∃ f ∈ p.freeRectangles, (w ≤ f.width ∧ h ≤ f.height) ∧
        p.insert w h = (some ⟨f.x, f.y, w, h⟩,
          { p with
            freeRectangles :=
              BinPacker.splitFreeRectangle p.freeRectangles ⟨f.x, f.y, w, h⟩
            usedRectangles := p.usedRectangles ++ [⟨f.x, f.y, w, h⟩] }) := by
  unfold BinPacker.insert
  cases hsel : p.selectBestRect w h with
  | none => exact Or.inl rfl
  | some b =>
      obtain ⟨f, hf, hfit, rfl⟩ := selectBestRect_some_spec p w h b hsel
      exact Or.inr ⟨f, hf, hfit, rfl⟩

theorem noOverlap_disjointWith {r b : Rect} (h : BinPacker.noOverlap r b) :
    r.disjointWith b := by
  unfold BinPacker.noOverlap at h
  unfold Rect.disjointWith
  omega

theorem coveredBy_append {l1 l2 : List Rect} {px py : Int} :
    coveredBy (l1 ++ l2) px py ↔ coveredBy l1 px py ∨ coveredBy l2 px py := by
  unfold coveredBy
  simp only [List.mem_append]
  constructor
  · rintro ⟨r, hr | hr, hpt⟩
    · exact Or.inl ⟨r, hr, hpt⟩
    · exact Or.inr ⟨r, hr, hpt⟩
  · rintro (⟨r, hr, hpt⟩ | ⟨r, hr, hpt⟩)
    · exact ⟨r, Or.inl hr, hpt⟩
    · exact ⟨r, Or.inr hr, hpt⟩

theorem insert_preserves_inv (p : BinPacker) (hinv : PackerInv p)
    (w h : Int) (hw : 0 < w) (hh : 0 < h) : PackerInv (p.insert w h).2 := by
  obtain ⟨hfree, hused, hpair, hanti, hfu, hcov⟩ := hinv
  rcases insert_cases p w h with heq | ⟨f, hf, hfit, heq⟩
  · rw [heq]
    exact ⟨hfree, hused, hpair, hanti, hfu, hcov⟩
  · rw [heq]
    set b : Rect := ⟨f.x, f.y, w, h⟩ with hbdef
    obtain ⟨hfB, hfP⟩ := hfree f hf
    have hbf : BinPacker.containedIn b f := by
      unfold BinPacker.containedIn
      simp only [hbdef]
      omega
    have hbB : b.inBounds p.width p.height := containedIn_inBounds hbf hfB
    have hbP : b.posDims := by
      unfold Rect.posDims
      simp only [hbdef]
      omega
    have hbu : ∀ u ∈ p.usedRectangles, b.disjointWith u :=
      fun u hu => containedIn_disjointWith hbf (hfu f hf u hu)
    have hmem' : ∀ q ∈ BinPacker.splitFreeRectangle p.freeRectangles b,
        ∃ r ∈ p.freeRectangles,
          (BinPacker.noOverlap r b ∧ q = r) ∨
          (¬ BinPacker.noOverlap r b ∧ q ∈ BinPacker.splitPieces r b) := by
      intro q hq
      exact mem_splitFreeList_iff.1
        ((pruneFreeRectangles_sublist _).mem hq)
    refine ⟨?_, ?_, ?_, ?_, ?_, ?_⟩
    · intro q hq
      obtain ⟨r, hr, hcase⟩ := hmem' q hq
      obtain ⟨hrB, hrP⟩ := hfree r hr
      rcases hcase with ⟨_, rfl⟩ | ⟨_, hpmem⟩
      · exact ⟨hrB, hrP⟩
      · exact ⟨containedIn_inBounds (splitPieces_containedIn hpmem) hrB,
          splitPieces_posDims hpmem hrP⟩
    · intro u hu
      rcases List.mem_append.1 hu with hu | hu
      · exact hused u hu
      · simp only [List.mem_singleton] at hu
        subst hu
        exact ⟨hbB, hbP⟩
    · rw [List.pairwise_append]
      refine ⟨hpair, by simp, ?_⟩
      intro u hu x hx
      simp only [List.mem_singleton] at hx
      subst hx
      exact disjointWith_symm (hbu u hu)
    · exact pruneFreeRectangles_antichain _
    · intro q hq u hu
      obtain ⟨r, hr, hcase⟩ := hmem' q hq
      rcases List.mem_append.1 hu with hu | hu
      · rcases hcase with ⟨_, rfl⟩ | ⟨_, hpmem⟩
        · exact hfu q hr u hu
        · exact containedIn_disjointWith (splitPieces_containedIn hpmem)
            (hfu r hr u hu)
      · simp only [List.mem_singleton] at hu
        subst hu
        rcases hcase with ⟨hno, rfl⟩ | ⟨_, hpmem⟩
        · exact noOverlap_disjointWith hno
        · exact splitPieces_disjoint_used hpmem
    · intro px py hx0 hxW hy0 hyH
      rw [show ({ p with
            freeRectangles :=
              BinPacker.splitFreeRectangle p.freeRectangles b
            usedRectangles := p.usedRectangles ++ [b] } : BinPacker).width
          = p.width from rfl] at hxW
      rw [show ({ p with
            freeRectangles :=
              BinPacker.splitFreeRectangle p.freeRectangles b
            usedRectangles := p.usedRectangles ++ [b] } : BinPacker).height
          = p.height from rfl] at hyH
      show coveredBy (BinPacker.splitFreeRectangle p.freeRectangles b) px py ↔
        ¬ coveredBy (p.usedRectangles ++ [b]) px py
      unfold BinPacker.splitFreeRectangle
      rw [pruneFreeRectangles_covers, splitFreeList_covers,
        hcov px py hx0 hxW hy0 hyH, coveredBy_append]
      unfold coveredBy
      simp only [List.mem_singleton]
      constructor
      · rintro ⟨hnu, hnb⟩ (hcu | ⟨r, rfl, hpt⟩)
        · exact hnu hcu
        · exact hnb hpt
      · intro hno
        exact ⟨fun hcu => hno (Or.inl hcu), fun hpt => hno (Or.inr ⟨b, rfl, hpt⟩)⟩

theorem init_inv (w h : Int) (s : String) (hw : 0 < w) (hh : 0 < h) :
    PackerInv (BinPacker.init w h s) := by
  refine ⟨?_, ?_, ?_, ?_, ?_, ?_⟩
  · intro r hr
    simp only [BinPacker.init, List.mem_singleton] at hr
    subst hr
    unfold Rect.inBounds Rect.posDims
    refine ⟨⟨?_, ?_, ?_, ?_⟩, ?_, ?_⟩ <;>
      simp only [BinPacker.init] <;> omega
  · intro r hr
    simp [BinPacker.init] at hr
  · simp [BinPacker.init]
  · simp [BinPacker.init]
  · intro f hf u hu
    simp [BinPacker.init] at hu
  · intro px py hx0 hxW hy0 hyH
    simp only [BinPacker.init]
    constructor
    · intro _ hc
      rcases hc with ⟨r, hr, _⟩
      simp at hr
    · intro _
      exact ⟨⟨0, 0, w, h⟩, by simp, by
        unfold Rect.containsPoint
        simp only [BinPacker.init] at hxW hyH
        dsimp only
        omega⟩

theorem applyInserts_inv (p : BinPacker) (hinv : PackerInv p)
    (reqs : List (Int × Int)) (hreqs : ∀ q ∈ reqs, 0 < q.1 ∧ 0 < q.2) :
    PackerInv (BinPacker.applyInserts p reqs) := by
  induction reqs generalizing p with
  | nil => exact hinv
  | cons q rest ih =>
      unfold BinPacker.applyInserts
      rw [List.foldl_cons]
      have hq := hreqs q (by simp)
      exact ih _ (insert_preserves_inv p hinv q.1 q.2 hq.1 hq.2)
        (fun r hr => hreqs r (List.mem_cons_of_mem q hr))

theorem insert_dims (p : BinPacker) (w h : Int) :
    (p.insert w h).2.width = p.width ∧ (p.insert w h).2.height = p.height ∧
      (p.insert w h).2.placementStrategy = p.placementStrategy := by
  rcases insert_cases p w h with heq | ⟨f, _, _, heq⟩ <;> rw [heq] <;>
    exact ⟨rfl, rfl, rfl⟩

theorem applyInserts_dims (p : BinPacker) (reqs : List (Int × Int)) :
    (BinPacker.applyInserts p reqs).width = p.width ∧
      (BinPacker.applyInserts p reqs).height = p.height ∧
      (BinPacker.applyInserts p reqs).placementStrategy = p.placementStrategy := by
  induction reqs generalizing p with
  | nil => exact ⟨rfl, rfl, rfl⟩
  | cons q rest ih =>
      unfold BinPacker.applyInserts
      rw [List.foldl_cons]
      have h1 := insert_dims p q.1 q.2
      have h2 := ih (p.insert q.1 q.2).2
      unfold BinPacker.applyInserts at h2
      exact ⟨h2.1.trans h1.1, h2.2.1.trans h1.2.1, h2.2.2.trans h1.2.2⟩

/-- C1: for every BinPacker created with positive width and height and any
of the five placement policies, after any sequence of `insert(w,h)` calls
with `w, h > 0`: every rectangle in `used` and in `free` lies within
`[0, atlas_w) × [0, atlas_h)`, the rectangles in `used` are pairwise
disjoint, no rectangle in `free` is contained in another rectangle in
`free`, and no rectangle in `free` overlaps any rectangle in `used`. -/
theorem c1_binpacker_invariants (w h : Int) (strat : String)
    (reqs : List (Int × Int)) (hw : 0 < w) (hh : 0 < h)
    (hstrat : strat ∈ placementStrategiesList)
    (hreqs : ∀ q ∈ reqs, 0 < q.1 ∧ 0 < q.2) :
    (∀ r ∈ (BinPacker.applyInserts (BinPacker.init w h strat) reqs).usedRectangles ++
        (BinPacker.applyInserts (BinPacker.init w h strat) reqs).freeRectangles,
      r.inBounds w h) ∧
    (BinPacker.applyInserts (BinPacker.init w h strat) reqs).usedRectangles.Pairwise
      Rect.disjointWith ∧
    (BinPacker.applyInserts (BinPacker.init w h strat) reqs).freeRectangles.Pairwise
      okFree ∧
    (∀ f ∈ (BinPacker.applyInserts (BinPacker.init w h strat) reqs).freeRectangles,
      ∀ u ∈ (BinPacker.applyInserts (BinPacker.init w h strat) reqs).usedRectangles,
        f.disjointWith u) := by
  have hinv := applyInserts_inv _ (init_inv w h strat hw hh) reqs hreqs
  have hdims := applyInserts_dims (BinPacker.init w h strat) reqs
  obtain ⟨hfree, hused, hpair, hanti, hfu, _⟩ := hinv
  rw [show (BinPacker.init w h strat).width = w from rfl] at hdims
  rw [show (BinPacker.init w h strat).height = h from rfl] at hdims
  refine ⟨?_, hpair, hanti, hfu⟩
  intro r hr
  rcases List.mem_append.1 hr with hr | hr
  · have := (hused r hr).1
    rw [hdims.1, hdims.2.1] at this
    exact this
  · have := (hfree r hr).1
    rw [hdims.1, hdims.2.1] at this
    exact this

/-- Witness for C1 at a concrete packer and insert sequence. -/
theorem c1_binpacker_invariants_witness :
    (0 : Int) < 4 ∧ "best_area_fit" ∈ placementStrategiesList ∧
    ((∀ r ∈ (BinPacker.applyInserts (BinPacker.init 4 4 "best_area_fit")
          [(2, 2), (1, 1)]).usedRectangles ++
        (BinPacker.applyInserts (BinPacker.init 4 4 "best_area_fit")
          [(2, 2), (1, 1)]).freeRectangles,
        r.inBounds 4 4) ∧
      (BinPacker.applyInserts (BinPacker.init 4 4 "best_area_fit")
        [(2, 2), (1, 1)]).usedRectangles.Pairwise Rect.disjointWith ∧
      (BinPacker.applyInserts (BinPacker.init 4 4 "best_area_fit")
        [(2, 2), (1, 1)]).freeRectangles.Pairwise okFree ∧
      (∀ f ∈ (BinPacker.applyInserts (BinPacker.init 4 4 "best_area_fit")
          [(2, 2), (1, 1)]).freeRectangles,
        ∀ u ∈ (BinPacker.applyInserts (BinPacker.init 4 4 "best_area_fit")
          [(2, 2), (1, 1)]).usedRectangles, f.disjointWith u)) :=
  ⟨by norm_num, by decide,
    c1_binpacker_invariants 4 4 "best_area_fit" [(2, 2), (1, 1)]
      (by norm_num) (by norm_num) (by decide) (by decide)⟩

/-- C2 counterexample: with the `contact_point` policy the source starts
its scan from the sentinel `best_contact = -1` (line 103), so a fitting
candidate whose contact score is at most `-2` is never stored: on a fresh
2048 x 2048 packer the request `(-100, 1)` fits the single free rectangle
(contact score `1 + (-100) = -99`), yet `insert` returns `None` and leaves
the state untouched, falsifying the claim's "otherwise it returns a
Rect" half. -/
theorem c2_sentinel_counterexample :
    (∃ r ∈ (BinPacker.init 2048 2048 "contact_point").freeRectangles,
      (-100 : Int) ≤ r.width ∧ (1 : Int) ≤ r.height) ∧
    (BinPacker.init 2048 2048 "contact_point").insert (-100) 1 =
      (none, BinPacker.init 2048 2048 "contact_point") :=
  ⟨by decide, rfl⟩

/-- C2 (amended): `insert` is total and never raises.  When no free
rectangle fits it returns `None` with the free and used lists exactly
unchanged, under every placement policy; every successful insert returns a
rectangle of the requested size at the origin of a fitting free rectangle
and appends exactly that rectangle to the used list.  A fitting free
rectangle guarantees success for the four policies whose sentinels are
`float('inf')`; under `contact_point` the sentinel `best_contact = -1`
accepts only candidates whose contact score is at least `-1`, so success
is guaranteed when some fitting free rectangle scores at least `-1` —
which every placement of a positive request into a fresh atlas does, but a
non-positive request can fit and still be refused (see the
counterexample). -/
theorem c2_insert_total_amended (p : BinPacker) (w h : Int)
    (hstrat : p.placementStrategy ∈ placementStrategiesList) :
    ((∀ r ∈ p.freeRectangles, ¬(w ≤ r.width ∧ h ≤ r.height)) →
        p.insert w h = (none, p)) ∧
    (∀ b, (p.insert w h).1 = some b →
      ∃ f ∈ p.freeRectangles, (w ≤ f.width ∧ h ≤ f.height) ∧
        b = ⟨f.x, f.y, w, h⟩ ∧
        (p.insert w h).2.usedRectangles = p.usedRectangles ++ [b]) ∧
    (p.placementStrategy ≠ "contact_point" →
      (∃ r ∈ p.freeRectangles, w ≤ r.width ∧ h ≤ r.height) →
      ∃ b, (p.insert w h).1 = some b) ∧
    ((∃ r ∈ p.freeRectangles, (w ≤ r.width ∧ h ≤ r.height) ∧
        -1 ≤ BinPacker.contactScoreOf p.usedRectangles w h r.x r.y) →
      ∃ b, (p.insert w h).1 = some b) := by
  refine ⟨?_, ?_, ?_, ?_⟩
  · intro hno
    unfold BinPacker.insert
    rw [selectBestRect_none_of_nofit p w h hno]
  · intro b hb
    cases hsel : p.selectBestRect w h with
    | none =>
        unfold BinPacker.insert at hb
        rw [hsel] at hb
        simp at hb
    | some b2 =>
        have hb2 : b2 = b := by
          unfold BinPacker.insert at hb
          rw [hsel] at hb
          simpa using hb
        subst hb2
        obtain ⟨f, hf, hfit, rfl⟩ := selectBestRect_some_spec p w h b2 hsel
        refine ⟨f, hf, hfit, rfl, ?_⟩
        unfold BinPacker.insert
        rw [hsel]
  · intro hnc hfit
    cases hsel : p.selectBestRect w h with
    | none =>
        obtain ⟨r, hr, hrfit⟩ := hfit
        exact absurd hrfit
          ((selectBestRect_none_iff p w h hstrat hnc).1 hsel r hr)
    | some b =>
        refine ⟨b, ?_⟩
        unfold BinPacker.insert
        rw [hsel]
  · intro hex
    cases hsel : p.selectBestRect w h with
    | some b =>
        refine ⟨b, ?_⟩
        unfold BinPacker.insert
        rw [hsel]
    | none =>
        exfalso
        by_cases hnc : p.placementStrategy = "contact_point"
        · rw [selectBestRect_contact p w h hnc] at hsel
          have hacc := scanContact_sentinel_accept p.usedRectangles w h
            p.freeRectangles hex
          rw [hsel] at hacc
          simp at hacc
        · obtain ⟨r, hr, hrfit, _⟩ := hex
          exact absurd hrfit
            ((selectBestRect_none_iff p w h hstrat hnc).1 hsel r hr)

/-- Witness for C2's amended totality at a concrete `contact_point` packer
and request. -/
theorem c2_insert_total_amended_witness :
    "contact_point" ∈ placementStrategiesList ∧
    (((∀ r ∈ (BinPacker.init 10 10 "contact_point").freeRectangles,
          ¬((3 : Int) ≤ r.width ∧ (4 : Int) ≤ r.height)) →
        (BinPacker.init 10 10 "contact_point").insert 3 4 =
          (none, BinPacker.init 10 10 "contact_point")) ∧
      (∀ b, ((BinPacker.init 10 10 "contact_point").insert 3 4).1 = some b →
        ∃ f ∈ (BinPacker.init 10 10 "contact_point").freeRectangles,
          ((3 : Int) ≤ f.width ∧ (4 : Int) ≤ f.height) ∧
          b = ⟨f.x, f.y, 3, 4⟩ ∧
          ((BinPacker.init 10 10 "contact_point").insert 3 4).2.usedRectangles =
            (BinPacker.init 10 10 "contact_point").usedRectangles ++ [b]) ∧
      ((BinPacker.init 10 10 "contact_point").placementStrategy ≠
          "contact_point" →
        (∃ r ∈ (BinPacker.init 10 10 "contact_point").freeRectangles,
          (3 : Int) ≤ r.width ∧ (4 : Int) ≤ r.height) →
        ∃ b, ((BinPacker.init 10 10 "contact_point").insert 3 4).1 = some b) ∧
      ((∃ r ∈ (BinPacker.init 10 10 "contact_point").freeRectangles,
          ((3 : Int) ≤ r.width ∧ (4 : Int) ≤ r.height) ∧
          -1 ≤ BinPacker.contactScoreOf
            (BinPacker.init 10 10 "contact_point").usedRectangles 3 4
            r.x r.y) →
        ∃ b, ((BinPacker.init 10 10 "contact_point").insert 3 4).1 = some b)) :=
  ⟨by decide,
    c2_insert_total_amended (BinPacker.init 10 10 "contact_point") 3 4
      (by decide)⟩

/-- The concrete state a 2×2 `best_area_fit` packer reaches after
`insert(1,1)`: the two residual free rectangles overlap each other. -/
theorem example_state_2x2 :
    BinPacker.applyInserts (BinPacker.init 2 2 "best_area_fit") [(1, 1)] =
      { width := 2, height := 2, placementStrategy := "best_area_fit"
        freeRectangles := [⟨1, 0, 1, 2⟩, ⟨0, 1, 2, 1⟩]
        usedRectangles := [⟨0, 0, 1, 1⟩] } := by
  simp only [BinPacker.applyInserts, List.foldl_cons, List.foldl_nil]
  simp [BinPacker.insert, BinPacker.selectBestRect, BinPacker.scanFree,
    BinPacker.scanFree.go, BinPacker.splitFreeRectangle, BinPacker.splitFreeList,
    BinPacker.splitPieces, BinPacker.pruneFreeRectangles, BinPacker.pruneGo,
    BinPacker.noOverlap, BinPacker.containedIn, BinPacker.init, BinPacker.lexLt]

/-- C5 counterexample: the free rectangles of a MaxRects packer overlap
each other, so the raw area sum exceeds the atlas area: a 2×2 packer after
`insert(1,1)` carries `1 + (2 + 2) = 5 > 4`. -/
theorem c5_area_sum_counterexample :
    ((BinPacker.applyInserts (BinPacker.init 2 2 "best_area_fit")
        [(1, 1)]).usedRectangles.map (fun r => r.width * r.height)).sum +
      ((BinPacker.applyInserts (BinPacker.init 2 2 "best_area_fit")
        [(1, 1)]).freeRectangles.map (fun r => r.width * r.height)).sum = 5 ∧
    ¬(((BinPacker.applyInserts (BinPacker.init 2 2 "best_area_fit")
        [(1, 1)]).usedRectangles.map (fun r => r.width * r.height)).sum +
      ((BinPacker.applyInserts (BinPacker.init 2 2 "best_area_fit")
        [(1, 1)]).freeRectangles.map (fun r => r.width * r.height)).sum ≤ 2 * 2) := by
  rw [example_state_2x2]
  norm_num

/-- C5 (amended): the used and free rectangles together tile the atlas
pointwise — every in-bounds point lies in some free rectangle exactly when
it lies in no used rectangle (free rectangles may overlap one another, so
their raw area sum can exceed the atlas area). -/
theorem c5_amended_coverage (w h : Int) (strat : String)
    (reqs : List (Int × Int)) (hw : 0 < w) (hh : 0 < h)
    (hreqs : ∀ q ∈ reqs, 0 < q.1 ∧ 0 < q.2) (px py : Int)
    (hx0 : 0 ≤ px) (hxw : px < w) (hy0 : 0 ≤ py) (hyh : py < h) :
    coveredBy (BinPacker.applyInserts (BinPacker.init w h strat)
        reqs).freeRectangles px py ↔
      ¬ coveredBy (BinPacker.applyInserts (BinPacker.init w h strat)
        reqs).usedRectangles px py := by
  have hinv := applyInserts_inv _ (init_inv w h strat hw hh) reqs hreqs
  have hdims := applyInserts_dims (BinPacker.init w h strat) reqs
  exact hinv.2.2.2.2.2 px py hx0
    (by rw [hdims.1]; exact hxw) hy0 (by rw [hdims.2.1]; exact hyh)

/-- Witness for the amended C5 at a concrete packer, insert and point. -/
theorem c5_amended_coverage_witness :
    (0 : Int) < 2 ∧
    (coveredBy (BinPacker.applyInserts (BinPacker.init 2 2 "best_area_fit")
        [(1, 1)]).freeRectangles 1 0 ↔
      ¬ coveredBy (BinPacker.applyInserts (BinPacker.init 2 2 "best_area_fit")
        [(1, 1)]).usedRectangles 1 0) :=
  ⟨by norm_num,
    c5_amended_coverage 2 2 "best_area_fit" [(1, 1)] (by norm_num) (by norm_num)
      (by decide) 1 0 (by norm_num) (by norm_num) (by norm_num) (by norm_num)⟩

theorem dictInsert_keys_of_fresh {α : Type} {m : List (String × α)}
    {k : String} {v : α} (h : k ∉ uvKeys m) :
    uvKeys (dictInsert m k v) = uvKeys m ++ [k] := by
  unfold dictInsert
  rw [if_neg]
  · unfold uvKeys
    simp
  · intro hany
    obtain ⟨p, hp, hpk⟩ := List.any_eq_true.1 hany
    exact h (by
      simp only [decide_eq_true_eq] at hpk
      exact hpk ▸ List.mem_map_of_mem Prod.fst hp)

theorem mem_dictInsert {α : Type} {m : List (String × α)} {k : String}
    {v : α} {p : String × α} (h : p ∈ dictInsert m k v) :
    p = (k, v) ∨ p ∈ m := by
  unfold dictInsert at h
  split at h
  · rcases List.mem_map.1 h with ⟨q, hq, hqp⟩
    by_cases hqk : q.1 = k
    · rw [if_pos hqk] at hqp
      exact Or.inl hqp.symm
    · rw [if_neg hqk] at hqp
      exact Or.inr (hqp ▸ hq)
  · rcases List.mem_append.1 h with h | h
    · exact Or.inr h
    · simp only [List.mem_singleton] at h
      exact Or.inl h

/-- The used list only grows along the packing loop. -/
theorem packLoop_used (pad : Int) :
    ∀ (imgs : List Img) (packer : BinPacker) (uv : List (String × RawUV))
      (mR mB : Int), ∃ ext,
      (packLoop packer pad imgs uv mR mB).1.usedRectangles =
        packer.usedRectangles ++ ext := by
  intro imgs
  induction imgs with
  | nil => intro packer uv mR mB; exact ⟨[], by simp [packLoop]⟩
  | cons im rest ih =>
      intro packer uv mR mB
      rw [packLoop]
      cases hins : packer.insert (im.width + pad * 2) (im.height + pad * 2) with
      | mk o packer' =>
          cases o with
          | none => exact ⟨[], by simp⟩
          | some rect =>
              obtain ⟨ext, hext⟩ := ih packer' _ _ _
              rcases insert_cases packer (im.width + pad * 2) (im.height + pad * 2)
                with heq | ⟨f, _, _, heq⟩
              · rw [heq] at hins
                simp at hins
              · rw [heq] at hins
                injection hins with ho hp
                injection ho with ho
                refine ⟨rect :: ext, ?_⟩
                rw [hext, ← hp]
                simp [← ho]

/-- The packing loop places a prefix of its input: the recorded keys are
the names of the first `k` images, and when `k` is not all of them the
very next insert fails on the final packer state. -/
theorem packLoop_main (pad : Int) :
    ∀ (imgs : List Img) (packer : BinPacker) (uv : List (String × RawUV))
      (mR mB : Int), (∀ im ∈ imgs, im.name ∉ uvKeys uv) →
      (imgNames imgs).Nodup →
      ∃ k, k ≤ imgs.length ∧
        uvKeys (packLoop packer pad imgs uv mR mB).2.1 =
          uvKeys uv ++ imgNames (imgs.take k) ∧
        (k < imgs.length →
          ((packLoop packer pad imgs uv mR mB).1.insert
            ((imgs.getD k default).width + pad * 2)
            ((imgs.getD k default).height + pad * 2)).1 = none) := by
  intro imgs
  induction imgs with
  | nil =>
      intro packer uv mR mB hfresh hnodup
      exact ⟨0, by omega, by simp [packLoop, imgNames], by intro habs; simp at habs⟩
  | cons im rest ih =>
      intro packer uv mR mB hfresh hnodup
      rw [packLoop]
      cases hins : packer.insert (im.width + pad * 2) (im.height + pad * 2) with
      | mk o packer' =>
          cases o with
          | none =>
              refine ⟨0, by omega, by simp [imgNames], ?_⟩
              intro _
              simp only [List.getD_cons_zero]
              rw [hins]
          | some rect =>
              have hfresh' : ∀ jm ∈ rest, jm.name ∉
                  uvKeys (dictInsert uv im.name
                    ⟨rect.x + pad, rect.y + pad, im.width, im.height⟩) := by
                intro jm hjm
                rw [dictInsert_keys_of_fresh (hfresh im (by simp))]
                simp only [List.mem_append, List.mem_singleton]
                rintro (hk | hk)
                · exact hfresh jm (List.mem_cons_of_mem im hjm) hk
                · have := (List.nodup_cons.1 hnodup).1
                  exact this (hk ▸ List.mem_map_of_mem Img.name hjm)
              obtain ⟨k, hk, hkeys, hfail⟩ :=
                ih packer' _ (max mR (rect.x + rect.width))
                  (max mB (rect.y + rect.height)) hfresh'
                  (List.nodup_cons.1 hnodup).2
              refine ⟨k + 1, by simp only [List.length_cons]; omega, ?_, ?_⟩
              · rw [hkeys, dictInsert_keys_of_fresh (hfresh im (by simp))]
                simp [imgNames]
              · intro hlt
                simp only [List.length_cons] at hlt
                simp only [List.getD_cons_succ]
                exact hfail (by omega)

/-- The tracked maximal extents equal the fold of the placed rectangles'
right and bottom edges over the loop's starting values. -/
theorem packLoop_max (pad : Int) :
    ∀ (imgs : List Img) (packer : BinPacker) (uv : List (String × RawUV))
      (mR mB : Int),
      (packLoop packer pad imgs uv mR mB).2.2.1 =
        (((packLoop packer pad imgs uv mR mB).1.usedRectangles.drop
          packer.usedRectangles.length).map (fun r => r.x + r.width)).foldl max mR ∧
      (packLoop packer pad imgs uv mR mB).2.2.2 =
        (((packLoop packer pad imgs uv mR mB).1.usedRectangles.drop
          packer.usedRectangles.length).map (fun r => r.y + r.height)).foldl max mB := by
  intro imgs
  induction imgs with
  | nil =>
      intro packer uv mR mB
      simp [packLoop, List.drop_length]
  | cons im rest ih =>
      intro packer uv mR mB
      simp only [packLoop]
      cases hins : packer.insert (im.width + pad * 2) (im.height + pad * 2) with
      | mk o packer' =>
          cases o with
          | none => simp [List.drop_length]
          | some rect =>
              rcases insert_cases packer (im.width + pad * 2) (im.height + pad * 2)
                with heq | ⟨f, _, _, heq⟩
              · rw [heq] at hins
                simp at hins
              · rw [heq] at hins
                injection hins with ho hp
                injection ho with ho
                have hused' : packer'.usedRectangles =
                    packer.usedRectangles ++ [rect] := by
                  rw [← hp, ← ho]
                obtain ⟨ext, hext⟩ := packLoop_used pad rest packer'
                  (dictInsert uv im.name
                    ⟨rect.x + pad, rect.y + pad, im.width, im.height⟩)
                  (max mR (rect.x + rect.width)) (max mB (rect.y + rect.height))
                have hdrop1 : (packLoop packer' pad rest
                    (dictInsert uv im.name
                      ⟨rect.x + pad, rect.y + pad, im.width, im.height⟩)
                    (max mR (rect.x + rect.width))
                    (max mB (rect.y + rect.height))).1.usedRectangles.drop
                    packer.usedRectangles.length = rect :: ext := by
                  rw [hext, hused', List.append_assoc]
                  rw [List.drop_left]
                  rfl
                have hdrop2 : (packLoop packer' pad rest
                    (dictInsert uv im.name
                      ⟨rect.x + pad, rect.y + pad, im.width, im.height⟩)
                    (max mR (rect.x + rect.width))
                    (max mB (rect.y + rect.height))).1.usedRectangles.drop
                    packer'.usedRectangles.length = ext := by
                  rw [hext, List.drop_left]
                have hih := ih packer'
                  (dictInsert uv im.name
                    ⟨rect.x + pad, rect.y + pad, im.width, im.height⟩)
                  (max mR (rect.x + rect.width)) (max mB (rect.y + rect.height))
                rw [hdrop2] at hih
                rw [hdrop1]
                simpa using hih

/-- Every recorded raw placement comes from an image of the input and a
rectangle of the final used list, padded on both axes. -/
theorem packLoop_raws (pad : Int) :
    ∀ (imgs : List Img) (packer : BinPacker) (uv : List (String × RawUV))
      (mR mB : Int),
      ∀ p ∈ (packLoop packer pad imgs uv mR mB).2.1,
        p ∈ uv ∨ ∃ im ∈ imgs, p.1 = im.name ∧ p.2.width = im.width ∧
          p.2.height = im.height ∧
          ∃ rect ∈ (packLoop packer pad imgs uv mR mB).1.usedRectangles,
            p.2.x = rect.x + pad ∧ p.2.y = rect.y + pad ∧
            rect.width = im.width + pad * 2 ∧ rect.height = im.height + pad * 2 := by
  intro imgs
  induction imgs with
  | nil =>
      intro packer uv mR mB p hp
      exact Or.inl (by simpa [packLoop] using hp)
  | cons im rest ih =>
      intro packer uv mR mB p hp
      simp only [packLoop] at hp ⊢
      rcases insert_cases packer (im.width + pad * 2) (im.height + pad * 2)
        with heq | ⟨f, hf, hfit, heq⟩
      · rw [heq] at hp ⊢
        exact Or.inl hp
      · rw [heq] at hp ⊢
        rcases ih _ _ _ _ p hp with hmem | ⟨jm, hjm, h1, h2, h3, rect, hrect, h4⟩
        · rcases mem_dictInsert hmem with rfl | hmem'
          · refine Or.inr ⟨im, by simp, rfl, rfl, rfl,
              ⟨f.x, f.y, im.width + pad * 2, im.height + pad * 2⟩, ?_, rfl, rfl, rfl, rfl⟩
            obtain ⟨ext, hext⟩ := packLoop_used pad rest
              ({ packer with
                freeRectangles := BinPacker.splitFreeRectangle packer.freeRectangles
                  ⟨f.x, f.y, im.width + pad * 2, im.height + pad * 2⟩
                usedRectangles := packer.usedRectangles ++
                  [⟨f.x, f.y, im.width + pad * 2, im.height + pad * 2⟩] })
              (dictInsert uv im.name
                ⟨f.x + pad, f.y + pad, im.width, im.height⟩)
              (max mR (f.x + (im.width + pad * 2)))
              (max mB (f.y + (im.height + pad * 2)))
            rw [hext]
            simp
          · exact Or.inl hmem'
        · exact Or.inr ⟨jm, List.mem_cons_of_mem im hjm, h1, h2, h3, rect, hrect, h4⟩

theorem interleaveEnds_perm {α : Type} : ∀ l : List α,
    (interleaveEnds l).Perm l := by
  intro l
  induction l using interleaveEnds.induct with
  | case1 => simp [interleaveEnds]
  | case2 a => simp [interleaveEnds]
  | case3 a b rest ih =>
      rw [interleaveEnds]
      have hne : (b :: rest) ≠ [] := by simp
      have h1 : ((b :: rest).getLast hne :: interleaveEnds (b :: rest).dropLast).Perm
          ((b :: rest).getLast hne :: (b :: rest).dropLast) := ih.cons _
      have h2 : ((b :: rest).getLast hne :: (b :: rest).dropLast).Perm
          ((b :: rest).dropLast ++ [(b :: rest).getLast hne]) :=
        (List.perm_append_singleton _ _).symm
      have h3 := (h1.trans h2).cons a
      rw [List.dropLast_append_getLast hne] at h3
      exact h3

theorem sortImages_perm (l : List Img) (s : String) :
    (sortImages l s).Perm l := by
  unfold sortImages
  by_cases h1 : s = "none"
  · rw [if_pos h1]
  rw [if_neg h1]
  by_cases h2 : s = "area"
  · rw [if_pos h2]; exact List.mergeSort_perm l _
  rw [if_neg h2]
  by_cases h3 : s = "area_asc"
  · rw [if_pos h3]; exact List.mergeSort_perm l _
  rw [if_neg h3]
  by_cases h4 : s = "height"
  · rw [if_pos h4]; exact List.mergeSort_perm l _
  rw [if_neg h4]
  by_cases h5 : s = "height_asc"
  · rw [if_pos h5]; exact List.mergeSort_perm l _
  rw [if_neg h5]
  by_cases h6 : s = "width"
  · rw [if_pos h6]; exact List.mergeSort_perm l _
  rw [if_neg h6]
  by_cases h7 : s = "width_asc"
  · rw [if_pos h7]; exact List.mergeSort_perm l _
  rw [if_neg h7]
  by_cases h8 : s = "perimeter"
  · rw [if_pos h8]; exact List.mergeSort_perm l _
  rw [if_neg h8]
  by_cases h9 : s = "max_side"
  · rw [if_pos h9]; exact List.mergeSort_perm l _
  rw [if_neg h9]
  by_cases h10 : s = "min_side"
  · rw [if_pos h10]; exact List.mergeSort_perm l _
  rw [if_neg h10]
  by_cases h11 : s = "ratio"
  · rw [if_pos h11]; exact List.mergeSort_perm l _
  rw [if_neg h11]
  by_cases h12 : s = "ratio_inv"
  · rw [if_pos h12]; exact List.mergeSort_perm l _
  rw [if_neg h12]
  by_cases h13 : s = "diagonal"
  · rw [if_pos h13]; exact List.mergeSort_perm l _
  rw [if_neg h13]
  by_cases h14 : s = "pathological"
  · rw [if_pos h14]
    exact (interleaveEnds_perm _).trans (List.mergeSort_perm l _)
  rw [if_neg h14]


theorem imgNames_nodup_sort (images : List Img) (s : String)
    (hnodup : (imgNames images).Nodup) :
    (imgNames (sortImages images s)).Nodup :=
  (((sortImages_perm images s).map Img.name).nodup_iff).2 hnodup

theorem sortImages_nil (s : String) : sortImages [] s = [] :=
  (sortImages_perm [] s).eq_nil

/-- C7: `pack_images_in_atlas` processes the sorted images in order: the
recorded placements are exactly the names of a prefix of the sorted list,
the insert of the first unplaced image fails on the final packer state (so
no later image is attempted), and the result is a failure for its callers
(`None` canvas or empty uv map) exactly when no image at all was placed. -/
theorem c7_pack_stops_at_first_failure (maxAtlasSize pad : Int)
    (images : List Img) (sortStrategy placementStrategy : String)
    (hnodup : (imgNames images).Nodup) :
    ∃ k, k ≤ (sortImages images sortStrategy).length ∧
      uvKeys (packLoop (BinPacker.init maxAtlasSize maxAtlasSize placementStrategy)
          pad (sortImages images sortStrategy) [] 0 0).2.1 =
        imgNames ((sortImages images sortStrategy).take k) ∧
      (k < (sortImages images sortStrategy).length →
        ((packLoop (BinPacker.init maxAtlasSize maxAtlasSize placementStrategy)
            pad (sortImages images sortStrategy) [] 0 0).1.insert
          (((sortImages images sortStrategy).getD k default).width + pad * 2)
          (((sortImages images sortStrategy).getD k default).height + pad * 2)).1 =
          none) ∧
      ((packImagesInAtlas maxAtlasSize pad images sortStrategy
          placementStrategy).1 = none ↔ images = []) ∧
      ((packImagesInAtlas maxAtlasSize pad images sortStrategy
          placementStrategy).2 = [] ↔
        (packLoop (BinPacker.init maxAtlasSize maxAtlasSize placementStrategy)
          pad (sortImages images sortStrategy) [] 0 0).2.1 = []) := by
  obtain ⟨k, hk, hkeys, hfail⟩ :=
    packLoop_main pad (sortImages images sortStrategy)
      (BinPacker.init maxAtlasSize maxAtlasSize placementStrategy) [] 0 0
      (by intro im _ habs; simp [uvKeys] at habs)
      (imgNames_nodup_sort images sortStrategy hnodup)
  refine ⟨k, hk, by simpa using hkeys, hfail, ?_, ?_⟩
  · by_cases himgs : images = []
    · simp [packImagesInAtlas, himgs]
    · simp only [packImagesInAtlas, if_neg himgs]
      constructor
      · intro habs
        split at habs <;> simp at habs
      · intro habs
        exact absurd habs himgs
  · by_cases himgs : images = []
    · subst himgs
      rw [sortImages_nil]
      simp [packImagesInAtlas, packLoop]
    · simp only [packImagesInAtlas, if_neg himgs]
      split <;> simp [finalizeUV]

/-- Witness for C7 at a concrete single-image packing. -/
theorem c7_pack_stops_at_first_failure_witness :
    (imgNames [(⟨"a", 100, 50⟩ : Img)]).Nodup ∧
    (∃ k, k ≤ (sortImages [(⟨"a", 100, 50⟩ : Img)] "area").length ∧
      uvKeys (packLoop (BinPacker.init 2048 2048 "best_area_fit")
          2 (sortImages [(⟨"a", 100, 50⟩ : Img)] "area") [] 0 0).2.1 =
        imgNames ((sortImages [(⟨"a", 100, 50⟩ : Img)] "area").take k) ∧
      (k < (sortImages [(⟨"a", 100, 50⟩ : Img)] "area").length →
        ((packLoop (BinPacker.init 2048 2048 "best_area_fit")
            2 (sortImages [(⟨"a", 100, 50⟩ : Img)] "area") [] 0 0).1.insert
          (((sortImages [(⟨"a", 100, 50⟩ : Img)] "area").getD k default).width + 2 * 2)
          (((sortImages [(⟨"a", 100, 50⟩ : Img)] "area").getD k default).height + 2 * 2)).1 =
          none) ∧
      ((packImagesInAtlas 2048 2 [(⟨"a", 100, 50⟩ : Img)] "area"
          "best_area_fit").1 = none ↔ [(⟨"a", 100, 50⟩ : Img)] = []) ∧
      ((packImagesInAtlas 2048 2 [(⟨"a", 100, 50⟩ : Img)] "area"
          "best_area_fit").2 = [] ↔
        (packLoop (BinPacker.init 2048 2048 "best_area_fit")
          2 (sortImages [(⟨"a", 100, 50⟩ : Img)] "area") [] 0 0).2.1 = [])) :=
  ⟨by decide,
    c7_pack_stops_at_first_failure 2048 2 [(⟨"a", 100, 50⟩ : Img)] "area"
      "best_area_fit" (by decide)⟩

theorem mem_finalizeUV {uv : List (String × RawUV)} {w h : Int}
    {q : String × UVEntry} (hq : q ∈ finalizeUV uv w h) :
    ∃ raw ∈ uv, q.1 = raw.1 ∧ q.2.width = raw.2.width ∧
      q.2.height = raw.2.height ∧
      q.2.rectX = (raw.2.x : ℚ) / (w : ℚ) ∧
      q.2.rectY = 1 - ((raw.2.y : ℚ) + (raw.2.height : ℚ)) / (h : ℚ) ∧
      q.2.rectWidth = (raw.2.width : ℚ) / (w : ℚ) ∧
      q.2.rectHeight = (raw.2.height : ℚ) / (h : ℚ) := by
  unfold finalizeUV at hq
  simp only [List.mem_map] at hq
  obtain ⟨raw, hraw, hq⟩ := hq
  subst hq
  exact ⟨raw, hraw, rfl, rfl, rfl, rfl, rfl, rfl, rfl⟩

/-- C3: for a non-empty packing, the canvas is cropped to
`(0, 0, max_right, max_bottom)` where the two extents are the maxima of
`rect.x + rect.width` and `rect.y + rect.height` over the placed padded
rectangles, and every placed image of unpadded size `(iw, ih)` pasted at
`(px, py) = (rect.x + pad, rect.y + pad)` gets the UV entry
`rect_x = px / W`, `rect_y = 1 - (py + ih) / H`, `rect_width = iw / W`,
`rect_height = ih / H`, `width = iw`, `height = ih`. -/
theorem c3_uv_entries (maxAtlasSize pad : Int) (images : List Img)
    (sortStrategy placementStrategy : String) (himgs : images ≠ [])
    (hR : 0 < (packLoop (BinPacker.init maxAtlasSize maxAtlasSize
      placementStrategy) pad (sortImages images sortStrategy) [] 0 0).2.2.1)
    (hB : 0 < (packLoop (BinPacker.init maxAtlasSize maxAtlasSize
      placementStrategy) pad (sortImages images sortStrategy) [] 0 0).2.2.2) :
    (packImagesInAtlas maxAtlasSize pad images sortStrategy placementStrategy).1 =
      some ((packLoop (BinPacker.init maxAtlasSize maxAtlasSize
          placementStrategy) pad (sortImages images sortStrategy) [] 0 0).2.2.1,
        (packLoop (BinPacker.init maxAtlasSize maxAtlasSize
          placementStrategy) pad (sortImages images sortStrategy) [] 0 0).2.2.2) ∧
    (packLoop (BinPacker.init maxAtlasSize maxAtlasSize placementStrategy)
        pad (sortImages images sortStrategy) [] 0 0).2.2.1 =
      (((packLoop (BinPacker.init maxAtlasSize maxAtlasSize placementStrategy)
        pad (sortImages images sortStrategy) [] 0 0).1.usedRectangles).map
          (fun r => r.x + r.width)).foldl max 0 ∧
    (packLoop (BinPacker.init maxAtlasSize maxAtlasSize placementStrategy)
        pad (sortImages images sortStrategy) [] 0 0).2.2.2 =
      (((packLoop (BinPacker.init maxAtlasSize maxAtlasSize placementStrategy)
        pad (sortImages images sortStrategy) [] 0 0).1.usedRectangles).map
          (fun r => r.y + r.height)).foldl max 0 ∧
    (∀ nm (e : UVEntry), (nm, UVVal.unity e) ∈
        (packImagesInAtlas maxAtlasSize pad images sortStrategy
          placementStrategy).2 →
      ∃ im ∈ images, im.name = nm ∧
        ∃ rect ∈ (packLoop (BinPacker.init maxAtlasSize maxAtlasSize
            placementStrategy) pad (sortImages images sortStrategy)
            [] 0 0).1.usedRectangles,
          rect.width = im.width + pad * 2 ∧ rect.height = im.height + pad * 2 ∧
          e.width = im.width ∧ e.height = im.height ∧
          e.rectX = ((rect.x + pad : Int) : ℚ) /
            (((packLoop (BinPacker.init maxAtlasSize maxAtlasSize
              placementStrategy) pad (sortImages images sortStrategy)
              [] 0 0).2.2.1 : Int) : ℚ) ∧
          e.rectY = 1 - (((rect.y + pad : Int) : ℚ) + (im.height : ℚ)) /
            (((packLoop (BinPacker.init maxAtlasSize maxAtlasSize
              placementStrategy) pad (sortImages images sortStrategy)
              [] 0 0).2.2.2 : Int) : ℚ) ∧
          e.rectWidth = (im.width : ℚ) /
            (((packLoop (BinPacker.init maxAtlasSize maxAtlasSize
              placementStrategy) pad (sortImages images sortStrategy)
              [] 0 0).2.2.1 : Int) : ℚ) ∧
          e.rectHeight = (im.height : ℚ) /
            (((packLoop (BinPacker.init maxAtlasSize maxAtlasSize
              placementStrategy) pad (sortImages images sortStrategy)
              [] 0 0).2.2.2 : Int) : ℚ)) := by
  have hmax1 : max 1 (packLoop (BinPacker.init maxAtlasSize maxAtlasSize
      placementStrategy) pad (sortImages images sortStrategy) [] 0 0).2.2.1 =
      (packLoop (BinPacker.init maxAtlasSize maxAtlasSize placementStrategy)
        pad (sortImages images sortStrategy) [] 0 0).2.2.1 :=
    max_eq_right (by omega)
  have hmax2 : max 1 (packLoop (BinPacker.init maxAtlasSize maxAtlasSize
      placementStrategy) pad (sortImages images sortStrategy) [] 0 0).2.2.2 =
      (packLoop (BinPacker.init maxAtlasSize maxAtlasSize placementStrategy)
        pad (sortImages images sortStrategy) [] 0 0).2.2.2 :=
    max_eq_right (by omega)
  have hpack : packImagesInAtlas maxAtlasSize pad images sortStrategy
      placementStrategy =
      (some ((packLoop (BinPacker.init maxAtlasSize maxAtlasSize
          placementStrategy) pad (sortImages images sortStrategy) [] 0 0).2.2.1,
        (packLoop (BinPacker.init maxAtlasSize maxAtlasSize
          placementStrategy) pad (sortImages images sortStrategy) [] 0 0).2.2.2),
        (finalizeUV (packLoop (BinPacker.init maxAtlasSize maxAtlasSize
            placementStrategy) pad (sortImages images sortStrategy) [] 0 0).2.1
          (packLoop (BinPacker.init maxAtlasSize maxAtlasSize
            placementStrategy) pad (sortImages images sortStrategy) [] 0 0).2.2.1
          (packLoop (BinPacker.init maxAtlasSize maxAtlasSize
            placementStrategy) pad (sortImages images sortStrategy) [] 0 0).2.2.2).map
          (fun p => (p.1, UVVal.unity p.2))) := by
    simp only [packImagesInAtlas, if_neg himgs]
    rw [if_pos ⟨hR, hB⟩, hmax1, hmax2]
  have hmaxes := packLoop_max pad (sortImages images sortStrategy)
    (BinPacker.init maxAtlasSize maxAtlasSize placementStrategy) [] 0 0
  refine ⟨by rw [hpack], ?_, ?_, ?_⟩
  · simpa [BinPacker.init] using hmaxes.1
  · simpa [BinPacker.init] using hmaxes.2
  · intro nm e hmem
    rw [hpack] at hmem
    simp only [List.mem_map] at hmem
    obtain ⟨q, hq, hqe⟩ := hmem
    obtain ⟨hq1, hq2⟩ := Prod.mk.inj hqe.symm
    have he : e = q.2 := UVVal.unity.inj hq2
    obtain ⟨praw, hpraw, hname, hewidth, heheight, hex, hey, herw, herh⟩ :=
      mem_finalizeUV hq
    rcases packLoop_raws pad (sortImages images sortStrategy)
        (BinPacker.init maxAtlasSize maxAtlasSize placementStrategy) [] 0 0
        praw hpraw with habs | ⟨im, him, hnm, hw, hh, rect, hrect, hx, hy, hrw, hrh⟩
    · simp at habs
    · refine ⟨im, (sortImages_perm images sortStrategy).mem_iff.1 him, ?_,
        rect, hrect, hrw, hrh, ?_, ?_, ?_, ?_, ?_, ?_⟩
      · rw [hq1, hname, hnm]
      · rw [he, hewidth, hw]
      · rw [he, heheight, hh]
      · rw [he, hex, hx]
      · rw [he, hey, hy, hh]
      · rw [he, herw, hw]
      · rw [he, herh, hh]

/-- The concrete loop state for the spec's single-image example: one
100×50 image, padding 2, atlas 2048. -/
theorem example_loop_100x50 :
    packLoop (BinPacker.init 2048 2048 "best_area_fit") 2
      (sortImages [⟨"a", 100, 50⟩] "area") [] 0 0 =
      ({ width := 2048, height := 2048, placementStrategy := "best_area_fit"
         freeRectangles := [⟨104, 0, 1944, 2048⟩, ⟨0, 54, 2048, 1994⟩]
         usedRectangles := [⟨0, 0, 104, 54⟩] },
       [("a", ⟨2, 2, 100, 50⟩)], 104, 54) := by
  simp [sortImages, packLoop, BinPacker.insert, BinPacker.selectBestRect,
    BinPacker.scanFree, BinPacker.scanFree.go, BinPacker.splitFreeRectangle,
    BinPacker.splitFreeList, BinPacker.splitPieces,
    BinPacker.pruneFreeRectangles, BinPacker.pruneGo, BinPacker.noOverlap,
    BinPacker.containedIn, BinPacker.init, BinPacker.lexLt, dictInsert]

/-- The spec's single-image example end to end: atlas 104×54 and the UV
entry `(2/104, 1 - 52/54, 100/104, 50/54)`. -/
theorem example_pack_100x50 :
    packImagesInAtlas 2048 2 [⟨"a", 100, 50⟩] "area" "best_area_fit" =
      (some (104, 54),
        [("a", UVVal.unity
          { width := 100, height := 50
            rectX := 2 / 104, rectY := 1 - 52 / 54
            rectWidth := 100 / 104, rectHeight := 50 / 54 })]) := by
  simp only [packImagesInAtlas]
  rw [if_neg (by simp)]
  rw [example_loop_100x50]
  norm_num [finalizeUV]

/-- Witness for C3 at the spec's 100×50 example. -/
theorem c3_uv_entries_witness :
    ([(⟨"a", 100, 50⟩ : Img)] ≠ [] ∧
      (0 : Int) < (packLoop (BinPacker.init 2048 2048 "best_area_fit") 2
        (sortImages [⟨"a", 100, 50⟩] "area") [] 0 0).2.2.1 ∧
      (0 : Int) < (packLoop (BinPacker.init 2048 2048 "best_area_fit") 2
        (sortImages [⟨"a", 100, 50⟩] "area") [] 0 0).2.2.2) ∧
    packImagesInAtlas 2048 2 [⟨"a", 100, 50⟩] "area" "best_area_fit" =
      (some (104, 54),
        [("a", UVVal.unity
          { width := 100, height := 50
            rectX := 2 / 104, rectY := 1 - 52 / 54
            rectWidth := 100 / 104, rectHeight := 50 / 54 })]) ∧
    ((packImagesInAtlas 2048 2 [⟨"a", 100, 50⟩] "area" "best_area_fit").1 =
      some ((packLoop (BinPacker.init 2048 2048 "best_area_fit") 2
          (sortImages [⟨"a", 100, 50⟩] "area") [] 0 0).2.2.1,
        (packLoop (BinPacker.init 2048 2048 "best_area_fit") 2
          (sortImages [⟨"a", 100, 50⟩] "area") [] 0 0).2.2.2)) :=
  ⟨⟨by simp, by rw [example_loop_100x50]; norm_num, by rw [example_loop_100x50]; norm_num⟩,
    example_pack_100x50,
    (c3_uv_entries 2048 2 [⟨"a", 100, 50⟩] "area" "best_area_fit" (by simp)
      (by rw [example_loop_100x50]; norm_num)
      (by rw [example_loop_100x50]; norm_num)).1⟩

/-- C9 counterexample: the source's `supported_formats` tuple (line 837)
has no `.gif` and no `.webp`, so `a.gif` — accepted per the claim — is
ignored by the generator's filter. -/
theorem c9_extensions_counterexample :
    isSupportedImageFile "a.gif" = false ∧ specAcceptsFile "a.gif" = true ∧
    isSupportedImageFile "b.webp" = false ∧ specAcceptsFile "b.webp" = true := by
  decide

/-- C9 (amended): the generator accepts exactly the files whose lowercased
name ends in one of `.png`, `.jpg`, `.jpeg`, `.bmp`, `.tiff`; `.gif` and
`.webp` files are ignored like any other extension. -/
theorem c9_extensions_amended (filename : String) :
    isSupportedImageFile filename = true ↔
      ∃ ext ∈ supportedFormats, ext.data.isSuffixOf (pyLower filename).data = true := by
  unfold isSupportedImageFile endsWithAny
  rw [List.any_eq_true]

/-- Witness for the amended C9 on sample accepted and rejected names. -/
theorem c9_extensions_amended_witness :
    (isSupportedImageFile "photo.PNG" = true ↔
      ∃ ext ∈ supportedFormats,
        ext.data.isSuffixOf (pyLower "photo.PNG").data = true) ∧
    isSupportedImageFile "photo.PNG" = true ∧
    isSupportedImageFile "photo.txt" = false :=
  ⟨c9_extensions_amended "photo.PNG", by decide, by decide⟩

theorem nameIndexMap_go {J : Type} :
    ∀ (meta : List (String × J)) (acc : List (String × Nat)) (n : Nat),
      (∀ p ∈ meta, p.1 ∉ uvKeys acc) → (meta.map Prod.fst).Nodup →
      (meta.foldl (fun a p => (dictInsert a.1 p.1 a.2, a.2 + 1)) (acc, n)).1 =
        acc ++ ((meta.map Prod.fst).enumFrom n).map (fun q => (q.2, q.1)) := by
  intro meta
  induction meta with
  | nil => intro acc n _ _; simp
  | cons p rest ih =>
      intro acc n hfresh hnodup
      rw [List.foldl_cons]
      have hins : dictInsert acc p.1 n = acc ++ [(p.1, n)] := by
        unfold dictInsert
        rw [if_neg]
        intro hany
        obtain ⟨q, hq, hqk⟩ := List.any_eq_true.1 hany
        exact hfresh p (by simp) (by
          simp only [decide_eq_true_eq] at hqk
          exact hqk ▸ List.mem_map_of_mem Prod.fst hq)
      simp only [List.map_cons, List.nodup_cons] at hnodup
      simp only [hins]
      rw [ih (acc ++ [(p.1, n)]) (n + 1) ?_ hnodup.2]
      · simp [List.enumFrom]
      · intro q hq hqmem
        unfold uvKeys at hqmem
        rw [List.map_append] at hqmem
        rcases List.mem_append.1 hqmem with hm | hm
        · exact hfresh q (List.mem_cons_of_mem p hq) hm
        · simp only [List.map_cons, List.map_nil, List.mem_singleton] at hm
          exact hnodup.1 (hm ▸ List.mem_map_of_mem Prod.fst hq)

theorem lookup_swap_enumFrom :
    ∀ (names : List String) (n : Nat) (nm : String), nm ∈ names →
      ((names.enumFrom n).map (fun q => (q.2, q.1))).lookup nm =
        some (names.indexOf nm + n) := by
  intro names
  induction names with
  | nil => intro n nm hm; simp at hm
  | cons x rest ih =>
      intro n nm hm
      simp only [List.enumFrom, List.map_cons]
      by_cases hx : x = nm
      · subst hx
        simp [List.lookup, List.indexOf_cons_self]
      · have hbeq : (nm == x) = false := by
          simp only [beq_eq_false_iff_ne, ne_eq]
          exact fun habs => hx habs.symm
        rw [List.lookup_cons]
        simp only [hbeq]
        rcases List.mem_cons.1 hm with rfl | hm
        · exact absurd rfl hx
        · rw [ih (n + 1) nm hm, List.indexOf_cons_ne rest hx]
          congr 1
          omega

theorem lookup_nameIndexMap {J : Type} (meta : List (String × J))
    (hnodup : (meta.map Prod.fst).Nodup) (nm : String)
    (hm : nm ∈ meta.map Prod.fst) :
    (nameIndexMap meta).lookup nm = some (stableIndexOf meta nm) := by
  unfold nameIndexMap stableIndexOf
  rw [nameIndexMap_go meta [] 0 (by intro p _ habs; simp [uvKeys] at habs) hnodup]
  rw [List.nil_append, lookup_swap_enumFrom _ 0 nm hm]
  norm_num

theorem compressUV_go {J : Type} (meta : List (String × J))
    (hnodup : (meta.map Prod.fst).Nodup)
    (hinj : ∀ i j : Nat, i < meta.length → j < meta.length →
      toString i = toString j → i = j) :
    ∀ (uv : List (String × J)) (acc : List (String × J)),
      (∀ p ∈ uv, p.1 ∈ meta.map Prod.fst) → (uvKeys uv).Nodup →
      (∀ p ∈ uv, toString (stableIndexOf meta p.1) ∉ uvKeys acc) →
      uv.foldlM
        (fun acc p =>
          ((nameIndexMap meta).lookup p.1).map
            (fun ix => dictInsert acc (toString ix) p.2))
        acc =
        some (acc ++ uv.map (fun p => (toString (stableIndexOf meta p.1), p.2))) := by
  intro uv
  induction uv with
  | nil => intro acc _ _ _; simp
  | cons p rest ih =>
      intro acc hkeys hkn hfresh
      rw [List.foldlM_cons]
      rw [lookup_nameIndexMap meta hnodup p.1 (hkeys p (by simp))]
      simp only [Option.map_some', Option.some_bind]
      have hins : dictInsert acc (toString (stableIndexOf meta p.1)) p.2 =
          acc ++ [(toString (stableIndexOf meta p.1), p.2)] := by
        unfold dictInsert
        rw [if_neg]
        intro hany
        obtain ⟨q, hq, hqk⟩ := List.any_eq_true.1 hany
        exact hfresh p (by simp) (by
          simp only [decide_eq_true_eq] at hqk
          exact hqk ▸ List.mem_map_of_mem Prod.fst hq)
      rw [hins]
      show rest.foldlM
          (fun acc p =>
            ((nameIndexMap meta).lookup p.1).map
              (fun ix => dictInsert acc (toString ix) p.2))
          (acc ++ [(toString (stableIndexOf meta p.1), p.2)]) =
        some (acc ++ (p :: rest).map (fun p => (toString (stableIndexOf meta p.1), p.2)))
      rw [ih (acc ++ [(toString (stableIndexOf meta p.1), p.2)])
        (fun q hq => hkeys q (List.mem_cons_of_mem p hq))
        (List.nodup_cons.1 hkn).2 ?_]
      · simp
      · intro q hq hqmem
        unfold uvKeys at hqmem
        rw [List.map_append] at hqmem
        rcases List.mem_append.1 hqmem with hmm | hmm
        · exact hfresh q (List.mem_cons_of_mem p hq) hmm
        · simp only [List.map_cons, List.map_nil, List.mem_singleton] at hmm
          have hqname : q.1 ∈ meta.map Prod.fst :=
            hkeys q (List.mem_cons_of_mem p hq)
          have hpname : p.1 ∈ meta.map Prod.fst := hkeys p (by simp)
          have hlen : (meta.map Prod.fst).length = meta.length := by simp
          have hi1 : stableIndexOf meta q.1 < meta.length := by
            unfold stableIndexOf
            rw [← hlen]
            exact List.indexOf_lt_length.2 hqname
          have hi2 : stableIndexOf meta p.1 < meta.length := by
            unfold stableIndexOf
            rw [← hlen]
            exact List.indexOf_lt_length.2 hpname
          have heqidx := hinj _ _ hi1 hi2 hmm
          unfold stableIndexOf at heqidx
          have : q.1 = p.1 :=
            (List.indexOf_inj hqname hpname).1 heqidx
          exact (List.nodup_cons.1 hkn).1 (this ▸ List.mem_map_of_mem Prod.fst hq)

theorem mapM_option_eq_map {α β : Type} (f : α → Option β) (g : α → β) :
    ∀ (l : List α), (∀ a ∈ l, f a = some (g a)) → l.mapM f = some (l.map g) := by
  intro l
  induction l with
  | nil => intro _; rfl
  | cons a rest ih =>
      intro h
      rw [List.mapM_cons, h a (by simp), ih (fun b hb => h b (List.mem_cons_of_mem a hb))]
      rfl

/-- C10: the static-publication pass replaces every key of every atlas's
uv map by the string form of that name's zero-based position in the
`images_metadata` insertion order, emits a top-level `mapping` array with
the per-image metadata in that same order, and the rename pass assigns
each atlas file the flat zero-based index of its atlas across all atlases.
(The index is computed from `images_metadata` alone, so it is independent
of whatever sort strategy the packer chose for the atlases.)  The
injectivity of `str(int)` on the indices in range, a fact of Python's
decimal rendering, is taken as the hypothesis `hinj`. -/
theorem c10_static_publication {J : Type} (data : InputManifest J)
    (hnodup : (data.imagesMetadata.map Prod.fst).Nodup)
    (hkeys : ∀ a ∈ data.atlases, ∀ p ∈ a.uv,
      p.1 ∈ data.imagesMetadata.map Prod.fst)
    (huvnodup : ∀ a ∈ data.atlases, (uvKeys a.uv).Nodup)
    (hinj : ∀ i j : Nat, i < data.imagesMetadata.length →
      j < data.imagesMetadata.length → toString i = toString j → i = j)
    (fileExists : String → Bool) :
    compressAtlasData data = some
      { version := data.version
        mapping := data.imagesMetadata.map Prod.snd
        atlases := data.atlases.map (fun a =>
          { scale := a.scale, width := a.width, height := a.height
            sha := a.sha
            uv := a.uv.map (fun p =>
              (toString (stableIndexOf data.imagesMetadata p.1), p.2)) })
        metadataBlock := data.metadataBlock } ∧
    (∀ i (hi : i < data.atlases.length) (file : String),
      (data.atlases.get ⟨i, hi⟩).file? = some file → fileExists file = true →
      (file, toString i ++ fileSuffix file, i) ∈
        copyAndRenameImages data.atlases fileExists) := by
  constructor
  · have hone : ∀ a ∈ data.atlases,
        (compressUV (nameIndexMap data.imagesMetadata) a.uv).map
          (fun cuv => ({ scale := a.scale, width := a.width, height := a.height, sha := a.sha, uv := cuv } : CAtlas J)) =
        some ({ scale := a.scale, width := a.width, height := a.height, sha := a.sha, uv := a.uv.map (fun p => (toString (stableIndexOf data.imagesMetadata p.1), p.2)) } : CAtlas J) := by
      intro a ha
      unfold compressUV
      rw [compressUV_go data.imagesMetadata hnodup hinj a.uv []
        (hkeys a ha) (huvnodup a ha)
        (by intro p _ habs; simp [uvKeys] at habs)]
      simp
    have hm := mapM_option_eq_map
      (fun a => (compressUV (nameIndexMap data.imagesMetadata) a.uv).map
        (fun cuv => ({ scale := a.scale, width := a.width, height := a.height, sha := a.sha, uv := cuv } : CAtlas J)))
      (fun a => ({ scale := a.scale, width := a.width, height := a.height, sha := a.sha, uv := a.uv.map (fun p => (toString (stableIndexOf data.imagesMetadata p.1), p.2)) } : CAtlas J))
      data.atlases hone
    simp only [compressAtlasData]
    rw [hm]
    rfl
  · intro i hi file hfile hex
    unfold copyAndRenameImages
    rw [List.mem_filterMap]
    refine ⟨(i, data.atlases.get ⟨i, hi⟩), ?_, ?_⟩
    · have hi2 : i < data.atlases.enum.length := by simpa using hi
      have : data.atlases.enum[i] =
          (i, data.atlases.get ⟨i, hi⟩) := by
        rw [List.getElem_enum]
        rfl
      exact this ▸ List.getElem_mem _
    · rw [hfile]
      simp only [hex, if_pos]

/-- Witness for C10 at a concrete three-image manifest. -/
theorem c10_static_publication_witness :
    ((([("A", 7), ("B", 8), ("C", 9)] : List (String × Nat)).map Prod.fst).Nodup) ∧
    compressAtlasData
      ({ version := 1
         imagesMetadata := [("A", 7), ("B", 8), ("C", 9)]
         atlases := [{ file? := some "atlas_x01_00.png", scale := 1, width := 10
                       height := 10, sha := "s", uv := [("B", 8), ("A", 7)] }]
         metadataBlock := none } : InputManifest Nat) = some
      { version := 1
        mapping := ([("A", 7), ("B", 8), ("C", 9)] : List (String × Nat)).map Prod.snd
        atlases := ([{ file? := some "atlas_x01_00.png", scale := 1, width := 10
                       height := 10, sha := "s",
                       uv := [("B", 8), ("A", 7)] }] : List (MAtlas Nat)).map (fun a =>
          { scale := a.scale, width := a.width, height := a.height
            sha := a.sha
            uv := a.uv.map (fun p =>
              (toString (stableIndexOf
                ([("A", 7), ("B", 8), ("C", 9)] : List (String × Nat)) p.1), p.2)) })
        metadataBlock := none } :=
  ⟨by decide,
    (c10_static_publication
      ({ version := 1
         imagesMetadata := [("A", 7), ("B", 8), ("C", 9)]
         atlases := [{ file? := some "atlas_x01_00.png", scale := 1, width := 10
                       height := 10, sha := "s", uv := [("B", 8), ("A", 7)] }]
         metadataBlock := none } : InputManifest Nat)
      (by decide) (by decide) (by decide)
      (by intro i j hi hj h
          simp only [List.length_cons, List.length_nil] at hi hj
          interval_cases i <;> interval_cases j <;> revert h <;> decide)
      (fun _ => true)).1⟩

theorem processScalesGo_break (g : Nat → List AtlasInfo) (f : Nat)
    (hone : (g f).length = 1) :
    ∀ fs : List Nat, fs.Pairwise (· < ·) → f ∈ fs →
      ∀ p ∈ processScalesGo g fs, p.1 ≤ f := by
  intro fs
  induction fs with
  | nil => intro _ hf; simp at hf
  | cons f0 rest ih =>
      intro hpair hf p hp
      simp only [processScalesGo] at hp
      have hpair' := List.pairwise_cons.1 hpair
      have hmemle : p ∈ ((g f0).mergeSort
          (fun a b => decide (b.count ≤ a.count))).map (fun a => (f0, a)) →
          p.1 ≤ f := by
        intro hmem
        obtain ⟨a, _, rfl⟩ := List.mem_map.1 hmem
        rcases List.mem_cons.1 hf with rfl | hf'
        · exact le_refl _
        · exact le_of_lt (hpair'.1 f hf')
      by_cases hemp : (g f0).isEmpty
      · rw [if_pos hemp] at hp
        rcases List.mem_cons.1 hf with rfl | hf'
        · rw [List.isEmpty_iff] at hemp
          rw [hemp] at hone
          simp at hone
        · exact ih hpair'.2 hf' p hp
      · rw [if_neg hemp] at hp
        by_cases hlen : (g f0).length = 1
        · rw [if_pos hlen] at hp
          exact hmemle hp
        · rw [if_neg hlen] at hp
          rcases List.mem_append.1 hp with hp | hp
          · exact hmemle hp
          · rcases List.mem_cons.1 hf with rfl | hf'
            · exact absurd hone hlen
            · exact ih hpair'.2 hf' p hp

/-- C8: the downscale pipeline walks the fixed sequence `[1, 2, 4, 8, 16]`
in order and breaks as soon as a level produces exactly one atlas, so if
factor `f` yields a single atlas then no level with a larger factor is
processed or emitted. -/
theorem c8_early_termination (g : Nat → List AtlasInfo) (f : Nat)
    (hf : f ∈ scaleFactorsList) (hone : (g f).length = 1) :
    ∀ p ∈ processScales g, p.1 ∈ scaleFactorsList ∧ p.1 ≤ f := by
  intro p hp
  refine ⟨?_, processScalesGo_break g f hone scaleFactorsList (by decide) hf p hp⟩
  have hmem : ∀ fs : List Nat, ∀ q ∈ processScalesGo g fs, q.1 ∈ fs := by
    intro fs
    induction fs with
    | nil => simp [processScalesGo]
    | cons f0 rest ih =>
        intro q hq
        simp only [processScalesGo] at hq
        split at hq
        · exact List.mem_cons_of_mem f0 (ih q hq)
        · split at hq
          · obtain ⟨a, _, rfl⟩ := List.mem_map.1 hq
            simp
          · rcases List.mem_append.1 hq with hq | hq
            · obtain ⟨a, _, rfl⟩ := List.mem_map.1 hq
              simp
            · exact List.mem_cons_of_mem f0 (ih q hq)
  exact hmem scaleFactorsList p hp

/-- Witness for C8 with a one-atlas level function at `f = 1`. -/
theorem c8_early_termination_witness :
    (1 ∈ scaleFactorsList ∧
      ((fun _ => [({ width := 1, height := 1, uv := [], count := 1 } :
        AtlasInfo)]) (1 : Nat)).length = 1) ∧
    (∀ p ∈ processScales
        (fun _ => [({ width := 1, height := 1, uv := [], count := 1 } :
          AtlasInfo)]),
      p.1 ∈ scaleFactorsList ∧ p.1 ≤ 1) :=
  ⟨⟨by decide, rfl⟩,
    c8_early_termination
      (fun _ => [({ width := 1, height := 1, uv := [], count := 1 } : AtlasInfo)])
      1 (by decide) rfl⟩

set_option maxRecDepth 40000 in
set_option maxHeartbeats 4000000 in
/-- C6 counterexample: the source generates its block-shuffle permutation
runs once per (size, placement) pair — 30 runs — not once per
(size, sort, placement) triple as the claim states — 360 runs. -/
theorem c6_perm_runs_counterexample :
    (codePermRuns [⟨"a", 10, 10⟩] 5).length = 30 ∧
    (specPermRuns [⟨"a", 10, 10⟩]).length = 360 ∧
    codePermRuns [⟨"a", 10, 10⟩] 5 ≠ specPermRuns [⟨"a", 10, 10⟩] := by
  refine ⟨rfl, rfl, fun h => ?_⟩
  have hlen := congrArg List.length h
  have h30 : (codePermRuns [⟨"a", 10, 10⟩] 5).length = 30 := rfl
  have h360 : (specPermRuns [⟨"a", 10, 10⟩]).length = 360 := rfl
  rw [h30, h360] at hlen
  exact absurd hlen (by decide)

set_option maxRecDepth 40000 in
set_option maxHeartbeats 4000000 in
/-- C6 (amended): with the pipeline's `permutations_per_config = 5`, the
permutation runs are generated once per (size, placement) pair, after the
sort loop: two runs each, starting from the `pathological` order (the loop
variable's last value), with seed
`size + configs_tested + perm_index * 1000` where `configs_tested` has
counted every grid configuration and permutation run so far, block
`max(3, n // 10)`, and shuffled blocks `[i, i + block)` for
`i = 0, block // 2, ...` strictly below `n - block`, packed with sort
`none`. -/
theorem c6_perm_runs_amended (images : List Img) :
    codePermRuns images 5 = amendedPermRuns images := by
  have hsort : sortStrategiesList.getLastD "area" = "pathological" := rfl
  have hrange : List.range (min 2 5) = [0, 1] := rfl
  have hrange2 : List.range 2 = [0, 1] := rfl
  simp only [codePermRuns, amendedPermRuns, atlasSizesList,
    placementStrategiesList, sortStrategiesList, List.foldl_cons,
    List.foldl_nil, List.enum, List.enumFrom, List.flatMap_cons,
    List.flatMap_nil, List.map_cons, List.map_nil, hrange, hrange2,
    List.foldl_append, List.nil_append, List.append_nil,
    List.singleton_append, List.cons_append, hsort]
  norm_num

theorem foldl_preserves_mem {α β : Type} (P : α → Prop) (f : α → β → α) :
    ∀ (l : List β) (a : α), (∀ a x, x ∈ l → P a → P (f a x)) → P a →
      P (l.foldl f a) := by
  intro l
  induction l with
  | nil => intro a _ ha; exact ha
  | cons x xs ih =>
      intro a hf ha
      exact ih (f a x) (fun b y hy => hf b y (List.mem_cons_of_mem x hy))
        (hf a x (by simp) ha)

theorem foldl_post {α β : Type} (P : α → Prop) (f : α → β → α)
    (h : ∀ a x, P (f a x)) : ∀ (l : List β) (a : α), l ≠ [] →
      P (l.foldl f a) := by
  intro l
  induction l with
  | nil => intro a hne; exact absurd rfl hne
  | cons x xs ih =>
      intro a _
      cases xs with
      | nil => exact h a x
      | cons y ys => exact ih (f a x) (by simp)

theorem insert_none_of_small (p : BinPacker) (w h : Int)
    (hs : ∀ r ∈ p.freeRectangles, r.width < w ∨ r.height < h) :
    p.insert w h = (none, p) := by
  have hsel : p.selectBestRect w h = none := by
    apply selectBestRect_none_of_nofit
    intro r hr hfit
    rcases hs r hr with h1 | h1 <;> omega
  unfold BinPacker.insert
  rw [hsel]

theorem init_selectBest (S w : Int) (strat : String)
    (hstrat : strat ∈ placementStrategiesList) (h0 : 0 < w) (h1 : w ≤ S) :
    (BinPacker.init S S strat).selectBestRect w w = some ⟨0, 0, w, w⟩ := by
  have hcs : BinPacker.contactScoreOf [] w w 0 0 = w + w := by
    unfold BinPacker.contactScoreOf
    simp
  have hcond : (-1 : Int) < BinPacker.contactScoreOf [] w w 0 0 := by
    rw [hcs]
    omega
  simp only [placementStrategiesList, List.mem_cons, List.not_mem_nil,
    or_false] at hstrat
  rcases hstrat with hs | hs | hs | hs | hs <;> subst hs
  · simp [BinPacker.selectBestRect, BinPacker.init, BinPacker.scanFree,
      BinPacker.scanFree.go, h1]
  · simp [BinPacker.selectBestRect, BinPacker.init, BinPacker.scanFree,
      BinPacker.scanFree.go, h1]
  · simp [BinPacker.selectBestRect, BinPacker.init, BinPacker.scanFree,
      BinPacker.scanFree.go, h1]
  · simp [BinPacker.selectBestRect, BinPacker.init, BinPacker.scanFree,
      BinPacker.scanFree.go, h1]
  · rw [selectBestRect_contact _ w w rfl]
    simp only [BinPacker.init]
    simp [BinPacker.scanContact, h1, hcond]

theorem init_insert_big (S w : Int) (strat : String)
    (hstrat : strat ∈ placementStrategiesList)
    (h0 : 0 < w) (h1 : w ≤ S) (h2 : S < 2 * w) :
    ∃ p', (BinPacker.init S S strat).insert w w = (some ⟨0, 0, w, w⟩, p') ∧
      p'.placementStrategy = strat ∧
      ∀ r ∈ p'.freeRectangles, r.width < w ∨ r.height < w := by
  have hsel := init_selectBest S w strat hstrat h0 h1
  have heq : (BinPacker.init S S strat).insert w w =
      (some ⟨0, 0, w, w⟩,
        { BinPacker.init S S strat with
          freeRectangles := BinPacker.splitFreeRectangle
            (BinPacker.init S S strat).freeRectangles ⟨0, 0, w, w⟩
          usedRectangles :=
            (BinPacker.init S S strat).usedRectangles ++ [⟨0, 0, w, w⟩] }) := by
    unfold BinPacker.insert
    rw [hsel]
  refine ⟨_, heq, rfl, ?_⟩
  intro r hr
  have hr' : r ∈ BinPacker.splitFreeRectangle
      (BinPacker.init S S strat).freeRectangles ⟨0, 0, w, w⟩ := hr
  unfold BinPacker.splitFreeRectangle at hr'
  have hsub := (pruneFreeRectangles_sublist _).subset hr'
  simp only [BinPacker.splitFreeList, BinPacker.init, List.flatMap_cons,
    List.flatMap_nil, List.append_nil] at hsub
  rw [if_neg (by unfold BinPacker.noOverlap; dsimp only; omega)] at hsub
  rcases mem_splitPieces_iff.1 hsub with
      ⟨hc, rfl⟩ | ⟨hc, rfl⟩ | ⟨hc, rfl⟩ | ⟨hc, rfl⟩ <;>
    dsimp only at hc ⊢ <;> omega

theorem packLoop_allsame (S : Int) (strat : String)
    (hstrat : strat ∈ placementStrategiesList)
    (h1 : 1504 ≤ S) (h2 : S < 3008) (im : Img) (rest : List Img)
    (him : im.width = 1500 ∧ im.height = 1500)
    (hrest : ∀ jm ∈ rest, jm.width = 1500 ∧ jm.height = 1500) :
    ∃ p', packLoop (BinPacker.init S S strat) 2 (im :: rest) [] 0 0 =
      (p', [(im.name, ⟨2, 2, 1500, 1500⟩)], 1504, 1504) := by
  obtain ⟨p', hins, hps, hsmall⟩ :=
    init_insert_big S 1504 strat hstrat (by norm_num) h1 (by omega)
  have hw : im.width + 2 * 2 = 1504 := by omega
  have hh : im.height + 2 * 2 = 1504 := by omega
  refine ⟨p', ?_⟩
  rw [packLoop, hw, hh, hins]
  dsimp only
  rw [him.1, him.2]
  have h02 : (0 : Int) + 2 = 2 := by norm_num
  have h015 : (0 : Int) + 1504 = 1504 := by norm_num
  have hmax : max (0 : Int) 1504 = 1504 := by norm_num
  have hdict : dictInsert ([] : List (String × RawUV)) im.name
      ⟨2, 2, 1500, 1500⟩ = [(im.name, ⟨2, 2, 1500, 1500⟩)] := by
    simp [dictInsert]
  rw [h02, h015, hmax, hdict]
  cases rest with
  | nil => rw [packLoop]
  | cons jm rest2 =>
      have hw2 : jm.width + 2 * 2 = 1504 := by
        have := hrest jm (by simp); omega
      have hh2 : jm.height + 2 * 2 = 1504 := by
        have := hrest jm (by simp); omega
      rw [packLoop, hw2, hh2, insert_none_of_small p' 1504 1504 hsmall]

theorem pack_allsame (S : Int) (σ strat : String)
    (hstrat : strat ∈ placementStrategiesList)
    (h1 : 1504 ≤ S) (h2 : S < 3008) (images : List Img) (hne : images ≠ [])
    (hall : ∀ im ∈ images, im.width = 1500 ∧ im.height = 1500) :
    ∃ nm v, nm ∈ imgNames images ∧
      (packImagesInAtlas S 2 images σ strat).2 = [(nm, v)] ∧
      (packImagesInAtlas S 2 images σ strat).1 = some (1504, 1504) := by
  have hperm := sortImages_perm images σ
  cases hs : sortImages images σ with
  | nil =>
      rw [hs] at hperm
      exact absurd hperm.symm.eq_nil hne
  | cons im rest =>
      rw [hs] at hperm
      have him : im.width = 1500 ∧ im.height = 1500 :=
        hall im (hperm.subset (by simp))
      have hrest : ∀ jm ∈ rest, jm.width = 1500 ∧ jm.height = 1500 :=
        fun jm hjm => hall jm (hperm.subset (List.mem_cons_of_mem im hjm))
      obtain ⟨p', hpl⟩ := packLoop_allsame S strat hstrat h1 h2 im rest him hrest
      have hmem : im.name ∈ imgNames images :=
        List.mem_map_of_mem Img.name (hperm.subset (by simp))
      have hm1 : max (1 : Int) 1504 = 1504 := by norm_num
      have hcalc : (packImagesInAtlas S 2 images σ strat).2 =
          (finalizeUV [(im.name, ⟨2, 2, 1500, 1500⟩)] 1504 1504).map
            (fun p => (p.1, UVVal.unity p.2)) := by
        simp only [packImagesInAtlas]
        rw [if_neg hne, hs, hpl]
        dsimp only
        rw [if_pos (by norm_num : (0 : Int) < 1504 ∧ (0 : Int) < 1504)]
        dsimp only
        rw [hm1]
      obtain ⟨v0, hv0⟩ : ∃ v,
          (finalizeUV [(im.name, (⟨2, 2, 1500, 1500⟩ : RawUV))] 1504 1504).map
            (fun p => (p.1, UVVal.unity p.2)) = [(im.name, v)] := ⟨_, rfl⟩
      have hpack2 : ∃ v, (packImagesInAtlas S 2 images σ strat).2 =
          [(im.name, v)] := ⟨v0, hcalc.trans hv0⟩
      have hpack1 : (packImagesInAtlas S 2 images σ strat).1 =
          some (1504, 1504) := by
        simp only [packImagesInAtlas]
        rw [if_neg hne, hs, hpl]
        dsimp only
        rw [if_pos (by norm_num : (0 : Int) < 1504 ∧ (0 : Int) < 1504)]
        dsimp only
        rw [hm1]
      obtain ⟨v, hv⟩ := hpack2
      exact ⟨im.name, v, hmem, hv, hpack1⟩

theorem pack_small (S : Int) (σ strat : String)
    (hstrat : strat ∈ placementStrategiesList)
    (hS : S < 1504) (images : List Img)
    (hall : ∀ im ∈ images, im.width = 1500 ∧ im.height = 1500) :
    (packImagesInAtlas S 2 images σ strat).2 = [] := by
  by_cases hne : images = []
  · subst hne
    simp [packImagesInAtlas]
  · have hperm := sortImages_perm images σ
    cases hs : sortImages images σ with
    | nil =>
        rw [hs] at hperm
        exact absurd hperm.symm.eq_nil hne
    | cons im rest =>
        rw [hs] at hperm
        have him : im.width = 1500 ∧ im.height = 1500 :=
          hall im (hperm.subset (by simp))
        have hw : im.width + 2 * 2 = 1504 := by omega
        have hh : im.height + 2 * 2 = 1504 := by omega
        have hins := insert_none_of_small (BinPacker.init S S strat) 1504 1504
          (by
            intro r hr
            simp only [BinPacker.init, List.mem_singleton] at hr
            subst hr
            left
            dsimp only
            omega)
        simp only [packImagesInAtlas]
        rw [if_neg hne, hs, packLoop, hw, hh, hins]
        dsimp only
        rw [if_neg (by omega : ¬((0 : Int) < 0 ∧ (0 : Int) < 0))]
        simp

theorem pack_keys (S pad : Int) (l : List Img) (σ π : String)
    (hnd : (imgNames l).Nodup) :
    (∀ nm ∈ uvKeys (packImagesInAtlas S pad l σ π).2, nm ∈ imgNames l) ∧
    (uvKeys (packImagesInAtlas S pad l σ π).2).Nodup := by
  by_cases hne : l = []
  · subst hne
    simp [packImagesInAtlas, uvKeys]
  · have hsortnd := imgNames_nodup_sort l σ hnd
    obtain ⟨k, hk, hkeys, _⟩ := packLoop_main pad (sortImages l σ)
      (BinPacker.init S S π) [] 0 0 (by simp [uvKeys]) hsortnd
    have hkeq : uvKeys (packImagesInAtlas S pad l σ π).2 =
        uvKeys (packLoop (BinPacker.init S S π) pad (sortImages l σ) [] 0 0).2.1 := by
      simp only [packImagesInAtlas]
      rw [if_neg hne]
      split
      · simp [uvKeys, finalizeUV, List.map_map]
      · simp [uvKeys, List.map_map]
    simp only [uvKeys, List.map_nil, List.nil_append] at hkeys
    rw [hkeq]
    simp only [uvKeys]
    rw [hkeys]
    constructor
    · intro nm hnm
      rw [imgNames, List.map_take] at hnm
      exact ((sortImages_perm l σ).map Img.name).subset
        (List.take_subset k _ hnm)
    · rw [imgNames, List.map_take]
      exact hsortnd.sublist (List.take_sublist k _)

theorem considerGrid_inv (pad : Int) (images : List Img) (S : Int)
    (plc srt : String) (st : SearchState)
    (hS : S ∈ atlasSizesList) (hplc : plc ∈ placementStrategiesList)
    (hinv : SearchInv pad images st) :
    SearchInv pad images (considerGrid pad images S plc srt st) := by
  intro b hb
  simp only [considerGrid] at hb
  split at hb
  · exact hinv b hb
  · split at hb
    · exact hinv b hb
    · split at hb
      · simp only [Option.some.injEq] at hb
        subst hb
        exact ⟨images, srt, List.Perm.refl images, hS, hplc, rfl, by assumption⟩
      · exact hinv b hb

theorem considerPerm_inv (oracle : Int → List Img → List Img)
    (horacle : ∀ s li, (oracle s li).Perm li) (pad : Int)
    (images : List Img) (S : Int) (plc srt : String) (permIdx : Nat)
    (st : SearchState)
    (hS : S ∈ atlasSizesList) (hplc : plc ∈ placementStrategiesList)
    (hinv : SearchInv pad images st) :
    SearchInv pad images
      (considerPerm oracle pad images S plc srt permIdx st) := by
  intro b hb
  simp only [considerPerm] at hb
  split at hb
  · exact hinv b hb
  · split at hb
    · exact hinv b hb
    · split at hb
      · simp only [Option.some.injEq] at hb
        subst hb
        exact ⟨_, "none", (horacle _ _).trans (sortImages_perm images srt),
          hS, hplc, rfl, by assumption⟩
      · exact hinv b hb

theorem randomPass_inv (oracle : Int → List Img → List Img)
    (horacle : ∀ s li, (oracle s li).Perm li) (pad : Int)
    (images : List Img) (st : SearchState)
    (hinv : SearchInv pad images st) :
    SearchInv pad images (randomPass oracle pad images st) := by
  cases hbest : st.best with
  | none =>
      simp only [randomPass, hbest]
      exact hinv
  | some best0 =>
      obtain ⟨l0, s0, hperm0, hS0, hplc0, huv0, hne0⟩ := hinv best0 hbest
      simp only [randomPass, hbest]
      clear hbest huv0 hne0
      refine foldl_preserves_mem (SearchInv pad images) _ _ _ ?_ hinv
      intro a i _ ha
      intro b hb
      split at hb
      · exact ha b hb
      · split at hb
        · exact ha b hb
        · split at hb
          · simp only [Option.some.injEq] at hb
            subst hb
            exact ⟨_, "none", horacle _ _, hS0, hplc0, rfl, by assumption⟩
          · exact ha b hb

theorem gridPass_inv (oracle : Int → List Img → List Img)
    (horacle : ∀ s li, (oracle s li).Perm li) (pad : Int)
    (images : List Img) (perms : Nat) :
    SearchInv pad images (gridPass oracle pad images perms) := by
  unfold gridPass
  apply foldl_preserves_mem (SearchInv pad images) _ atlasSizesList _ _
    (fun b hb => by simp at hb)
  intro st S hS hstinv
  apply foldl_preserves_mem (SearchInv pad images) _ placementStrategiesList _ _
    hstinv
  intro st2 plc hplc h2
  show SearchInv pad images (placementPass oracle pad images perms S plc st2)
  simp only [placementPass]
  have hsorts : SearchInv pad images
      (sortStrategiesList.foldl
        (fun st srt => considerGrid pad images S plc srt st) st2) :=
    foldl_preserves_mem _ _ _ _
      (fun a srt _ ha => considerGrid_inv pad images S plc srt a hS hplc ha) h2
  split
  · exact foldl_preserves_mem _ _ _ _
      (fun a pidx _ ha =>
        considerPerm_inv oracle horacle pad images S plc
          (sortStrategiesList.getLastD "area") pidx a hS hplc ha) hsorts
  · exact hsorts

theorem findBest_candidate (oracle : Int → List Img → List Img)
    (horacle : ∀ s li, (oracle s li).Perm li) (pad : Int)
    (images : List Img) (useRandom : Bool) (perms : Nat) (b : BestResult)
    (hb : findBestSingleAtlas oracle pad images useRandom perms = some b) :
    CandidateFrom pad images b := by
  unfold findBestSingleAtlas at hb
  cases images with
  | nil => simp at hb
  | cons im0 rest =>
      dsimp only at hb
      split at hb
      · simp at hb
      · split at hb
        · exact randomPass_inv oracle horacle pad (im0 :: rest) _
            (gridPass_inv oracle horacle pad (im0 :: rest) perms) b hb
        · exact gridPass_inv oracle horacle pad (im0 :: rest) perms b hb

theorem foldl_post_mem {α β : Type} (P : α → Prop) (f : α → β → α) :
    ∀ (l : List β) (a : α), (∀ a x, x ∈ l → P (f a x)) → l ≠ [] →
      P (l.foldl f a) := by
  intro l
  induction l with
  | nil => intro a _ hne; exact absurd rfl hne
  | cons x xs ih =>
      intro a h _
      cases xs with
      | nil => exact h a x (by simp)
      | cons y ys =>
          exact ih (f a x) (fun b z hz => h b z (List.mem_cons_of_mem x hz))
            (by simp)

theorem considerGrid_isSome_mono (pad : Int) (images : List Img) (S : Int)
    (plc srt : String) (st : SearchState) (h : st.best.isSome = true) :
    (considerGrid pad images S plc srt st).best.isSome = true := by
  simp only [considerGrid]
  split
  · exact h
  · split
    · exact h
    · split
      · rfl
      · exact h

theorem considerPerm_isSome_mono (oracle : Int → List Img → List Img)
    (pad : Int) (images : List Img) (S : Int) (plc srt : String)
    (permIdx : Nat) (st : SearchState) (h : st.best.isSome = true) :
    (considerPerm oracle pad images S plc srt permIdx st).best.isSome = true := by
  simp only [considerPerm]
  split
  · exact h
  · split
    · exact h
    · split
      · rfl
      · exact h

theorem considerGrid_isSome (images : List Img) (S : Int) (plc srt : String)
    (hplc : plc ∈ placementStrategiesList) (h1 : 1504 ≤ S) (h2 : S < 3008)
    (hne : images ≠ [])
    (hall : ∀ im ∈ images, im.width = 1500 ∧ im.height = 1500)
    (st : SearchState) :
    (considerGrid 2 images S plc srt st).best.isSome = true := by
  obtain ⟨nm, v, hmem, hp2, hp1⟩ := pack_allsame S srt plc hplc h1 h2 images hne hall
  simp only [considerGrid, hp1, hp2]
  rw [if_neg (by simp : ¬(([(nm, v)] : List (String × UVVal)) = []))]
  split
  · rfl
  next hbet =>
      cases hsb : st.best with
      | some b0 => rfl
      | none =>
          exfalso
          apply hbet
          have hsb' : ({ st with configsTested := st.configsTested + 1 } :
              SearchState).best = none := hsb
          rw [hsb']
          simp [isBetter]

theorem placementPass_isSome_mono (oracle : Int → List Img → List Img)
    (pad : Int) (images : List Img) (perms : Nat) (S : Int) (plc : String)
    (st : SearchState) (h : st.best.isSome = true) :
    (placementPass oracle pad images perms S plc st).best.isSome = true := by
  simp only [placementPass]
  have hsorts := foldl_preserves_mem (fun a : SearchState => a.best.isSome = true)
    (fun st srt => considerGrid pad images S plc srt st) sortStrategiesList st
    (fun a srt _ ha => considerGrid_isSome_mono pad images S plc srt a ha) h
  split
  · exact foldl_preserves_mem (fun a : SearchState => a.best.isSome = true)
      _ _ _
      (fun a pidx _ ha =>
        considerPerm_isSome_mono oracle pad images S plc
          (sortStrategiesList.getLastD "area") pidx a ha) hsorts
  · exact hsorts

theorem placementPass_isSome (oracle : Int → List Img → List Img)
    (images : List Img) (perms : Nat) (S : Int) (plc : String)
    (hplc : plc ∈ placementStrategiesList) (h1 : 1504 ≤ S) (h2 : S < 3008)
    (hne : images ≠ [])
    (hall : ∀ im ∈ images, im.width = 1500 ∧ im.height = 1500)
    (st : SearchState) :
    (placementPass oracle 2 images perms S plc st).best.isSome = true := by
  simp only [placementPass]
  have hsorts := foldl_post_mem (fun a : SearchState => a.best.isSome = true)
    (fun st srt => considerGrid 2 images S plc srt st) sortStrategiesList st
    (fun a srt _ => considerGrid_isSome images S plc srt hplc h1 h2 hne hall a)
    (by simp [sortStrategiesList])
  split
  · exact foldl_preserves_mem (fun a : SearchState => a.best.isSome = true)
      _ _ _
      (fun a pidx _ ha =>
        considerPerm_isSome_mono oracle 2 images S plc
          (sortStrategiesList.getLastD "area") pidx a ha) hsorts
  · exact hsorts

theorem gridPass_isSome (oracle : Int → List Img → List Img)
    (images : List Img) (perms : Nat) (hne : images ≠ [])
    (hall : ∀ im ∈ images, im.width = 1500 ∧ im.height = 1500) :
    (gridPass oracle 2 images perms).best.isSome = true := by
  unfold gridPass
  simp only [atlasSizesList, List.foldl_cons, List.foldl_nil]
  have h2048 := foldl_post_mem (fun a : SearchState => a.best.isSome = true)
    (fun st plc => placementPass oracle 2 images perms 2048 plc st)
    placementStrategiesList { best := none, configsTested := 0 }
    (fun a plc hplc =>
      placementPass_isSome oracle images perms 2048 plc hplc (by norm_num)
        (by norm_num) hne hall a)
    (by simp [placementStrategiesList])
  have h1536 := foldl_preserves_mem (fun a : SearchState => a.best.isSome = true)
    (fun st plc => placementPass oracle 2 images perms 1536 plc st)
    placementStrategiesList _
    (fun a plc _ ha =>
      placementPass_isSome_mono oracle 2 images perms 1536 plc a ha) h2048
  exact foldl_preserves_mem (fun a : SearchState => a.best.isSome = true)
    (fun st plc => placementPass oracle 2 images perms 1024 plc st)
    placementStrategiesList _
    (fun a plc _ ha =>
      placementPass_isSome_mono oracle 2 images perms 1024 plc a ha) h1536

theorem randomPass_isSome_mono (oracle : Int → List Img → List Img)
    (pad : Int) (images : List Img) (st : SearchState)
    (h : st.best.isSome = true) :
    (randomPass oracle pad images st).best.isSome = true := by
  cases hbest : st.best with
  | none => rw [hbest] at h; simp at h
  | some best0 =>
      simp only [randomPass, hbest]
      refine foldl_preserves_mem (fun a : SearchState => a.best.isSome = true)
        _ _ _ ?_ h
      intro a i _ ha
      split
      · exact ha
      · split
        · exact ha
        · split
          · rfl
          · exact ha

theorem foldl_max_const (g : Img → Int) : ∀ (l : List Img) (a : Int),
    (∀ jm ∈ l, g jm = 1500) → a = 1500 →
    l.foldl (fun acc im => max acc (g im)) a = 1500 := by
  intro l
  induction l with
  | nil => intro a _ ha; exact ha
  | cons jm rest ih =>
      intro a hall ha
      rw [List.foldl_cons]
      exact ih (max a (g jm))
        (fun km hkm => hall km (List.mem_cons_of_mem jm hkm))
        (by rw [ha, hall jm (by simp)]; exact max_self 1500)

theorem c4_findBest (oracle : Int → List Img → List Img)
    (horacle : ∀ s li, (oracle s li).Perm li) (images : List Img) (ua : Bool)
    (hne : images ≠ [])
    (hall : ∀ im ∈ images, im.width = 1500 ∧ im.height = 1500) :
    ∃ b nm v, findBestSingleAtlas oracle 2 images ua 5 = some b ∧
      b.uv = [(nm, v)] ∧ nm ∈ imgNames images := by
  cases images with
  | nil => exact absurd rfl hne
  | cons im0 rest =>
      have hrest : ∀ jm ∈ rest, jm.width = 1500 ∧ jm.height = 1500 :=
        fun jm hjm => hall jm (List.mem_cons_of_mem im0 hjm)
      have hmw : rest.foldl (fun a im => max a im.width) im0.width = 1500 :=
        foldl_max_const Img.width rest im0.width
          (fun jm hjm => (hrest jm hjm).1) (hall im0 (by simp)).1
      have hmh : rest.foldl (fun a im => max a im.height) im0.height = 1500 :=
        foldl_max_const Img.height rest im0.height
          (fun jm hjm => (hrest jm hjm).2) (hall im0 (by simp)).2
      have hsome : (findBestSingleAtlas oracle 2 (im0 :: rest) ua 5).isSome
          = true := by
        unfold findBestSingleAtlas
        dsimp only
        rw [if_neg (by rw [hmw, hmh]; norm_num)]
        split
        · exact randomPass_isSome_mono oracle 2 (im0 :: rest) _
            (gridPass_isSome oracle (im0 :: rest) 5 (by simp) hall)
        · exact gridPass_isSome oracle (im0 :: rest) 5 (by simp) hall
      obtain ⟨b, hb⟩ := Option.isSome_iff_exists.1 hsome
      obtain ⟨l, sort, hperm, hS, hplc, huv, hneuv⟩ :=
        findBest_candidate oracle horacle 2 (im0 :: rest) ua 5 b hb
      have hlne : l ≠ [] := by
        intro hl
        rw [hl] at hperm
        exact absurd hperm.symm.eq_nil (by simp)
      have hlall : ∀ im ∈ l, im.width = 1500 ∧ im.height = 1500 :=
        fun im him => hall im (hperm.subset him)
      have hS' : b.atlasSize = 2048 ∨ b.atlasSize = 1536 ∨ b.atlasSize = 1024 := by
        simpa [atlasSizesList] using hS
      have hnames : ∀ nm, nm ∈ imgNames l → nm ∈ imgNames (im0 :: rest) :=
        fun nm hnm => List.Perm.subset (hperm.map Img.name) hnm
      rcases hS' with h | h | h
      · obtain ⟨nm, v, hmem, hp2, _⟩ := pack_allsame 2048 sort
          b.placementStrategy hplc (by norm_num) (by norm_num) l hlne hlall
        exact ⟨b, nm, v, hb, by rw [huv, h]; exact hp2, hnames nm hmem⟩
      · obtain ⟨nm, v, hmem, hp2, _⟩ := pack_allsame 1536 sort
          b.placementStrategy hplc (by norm_num) (by norm_num) l hlne hlall
        exact ⟨b, nm, v, hb, by rw [huv, h]; exact hp2, hnames nm hmem⟩
      · exfalso
        apply hneuv
        rw [huv, h]
        exact pack_small 1024 sort b.placementStrategy hplc (by norm_num) l hlall

theorem contains_false_not_mem {l : List String} {a : String}
    (h : l.contains a = false) : a ∉ l := by
  intro hm
  have hc : l.contains a = true := by simpa using hm
  rw [hc] at h
  exact Bool.noConfusion h

theorem imgNames_cons (im : Img) (l : List Img) :
    imgNames (im :: l) = im.name :: imgNames l := rfl

theorem filter_singleton_length (nm : String) : ∀ (l : List Img),
    (imgNames l).Nodup → nm ∈ imgNames l →
    (l.filter (fun im => !(([nm] : List String).contains im.name))).length + 1 =
      l.length := by
  intro l
  induction l with
  | nil => intro _ h2; simp [imgNames] at h2
  | cons im rest ih =>
      intro hnd hmem
      rw [imgNames_cons] at hnd hmem
      have hnd1 := (List.nodup_cons.1 hnd).1
      have hnd2 := (List.nodup_cons.1 hnd).2
      rw [List.filter_cons]
      by_cases him : im.name = nm
      · have hc : (([nm] : List String).contains im.name) = true := by
          have : im.name ∈ ([nm] : List String) := by simp [him]
          simpa using this
        rw [hc]
        simp only [Bool.not_true]
        rw [if_neg (by simp)]
        have hfr : rest.filter
            (fun im => !(([nm] : List String).contains im.name)) = rest := by
          apply List.filter_eq_self.2
          intro jm hjm
          have hjn : jm.name ≠ nm := by
            intro hjn
            exact hnd1 (by
              rw [him, ← hjn]
              exact List.mem_map_of_mem Img.name hjm)
          simp [hjn]
        rw [hfr]
        simp
      · have hcf : (([nm] : List String).contains im.name) = false := by
          have : im.name ∉ ([nm] : List String) := by simp [him]
          simpa using this
        rw [hcf]
        simp only [Bool.not_false]
        rw [if_pos trivial]
        have hmem' : nm ∈ imgNames rest := by
          rcases List.mem_cons.1 hmem with h | h
          · exact absurd h.symm him
          · exact h
        have := ih hnd2 hmem'
        simp only [List.length_cons]
        omega

theorem count_filter_placed (placed : List String) (nm : String) :
    ∀ (l : List Img),
      (imgNames (l.filter (fun im => !(placed.contains im.name)))).count nm =
        if nm ∈ placed then 0 else (imgNames l).count nm := by
  intro l
  induction l with
  | nil =>
      simp only [List.filter_nil]
      split <;> simp [imgNames]
  | cons im rest ih =>
      rw [List.filter_cons]
      by_cases hc : placed.contains im.name = true
      · rw [hc]
        simp only [Bool.not_true]
        rw [if_neg (by simp)]
        rw [ih]
        have himp : im.name ∈ placed := by simpa using hc
        by_cases hnm : nm ∈ placed
        · rw [if_pos hnm, if_pos hnm]
        · rw [if_neg hnm, if_neg hnm, imgNames_cons,
            List.count_cons_of_ne (fun h => hnm (by rw [h]; exact himp))]
      · have hcf : placed.contains im.name = false := by
          cases h : placed.contains im.name
          · rfl
          · exact absurd h hc
        rw [hcf]
        simp only [Bool.not_false]
        rw [if_pos trivial]
        by_cases hnm : nm ∈ placed
        · have hne' : nm ≠ im.name :=
            fun h => (contains_false_not_mem hcf) (by rw [← h]; exact hnm)
          rw [imgNames_cons, List.count_cons_of_ne hne', ih]
          simp [hnm]
        · rw [imgNames_cons, imgNames_cons, List.count_cons, List.count_cons, ih]
          simp [hnm]

theorem fbpLoop_eq_empty (oracle : Int → List Img → List Img) (pad : Int)
    (ua : Bool) (remaining : List Img) (idx : Nat) (acc : List BestResult)
    (h : remaining.isEmpty = true) :
    fbpLoop oracle pad ua remaining idx acc = (acc, remaining) := by
  rw [fbpLoop, if_pos h]

theorem fbpLoop_eq_none (oracle : Int → List Img → List Img) (pad : Int)
    (ua : Bool) (remaining : List Img) (idx : Nat) (acc : List BestResult)
    (h1 : remaining.isEmpty = false)
    (h2 : findBestSingleAtlas oracle pad remaining ua 5 = none) :
    fbpLoop oracle pad ua remaining idx acc = (acc, remaining) := by
  rw [fbpLoop, if_neg (by simp [h1]), h2]

theorem fbpLoop_eq_stop (oracle : Int → List Img → List Img) (pad : Int)
    (ua : Bool) (remaining : List Img) (idx : Nat) (acc : List BestResult)
    (best : BestResult) (h1 : remaining.isEmpty = false)
    (h2 : findBestSingleAtlas oracle pad remaining ua 5 = some best)
    (h3 : 100 < idx + 1) :
    fbpLoop oracle pad ua remaining idx acc =
      (acc ++ [best],
        remaining.filter (fun im => !((uvKeys best.uv).contains im.name))) := by
  rw [fbpLoop, if_neg (by simp [h1]), h2]
  dsimp only
  rw [if_pos h3]

theorem fbpLoop_eq_step (oracle : Int → List Img → List Img) (pad : Int)
    (ua : Bool) (remaining : List Img) (idx : Nat) (acc : List BestResult)
    (best : BestResult) (h1 : remaining.isEmpty = false)
    (h2 : findBestSingleAtlas oracle pad remaining ua 5 = some best)
    (h3 : ¬(100 < idx + 1)) :
    fbpLoop oracle pad ua remaining idx acc =
      fbpLoop oracle pad ua
        (remaining.filter (fun im => !((uvKeys best.uv).contains im.name)))
        (idx + 1) (acc ++ [best]) := by
  rw [fbpLoop, if_neg (by simp [h1]), h2]
  dsimp only
  rw [if_neg h3]

theorem notPlaced_step (remaining : List Img) (acc : List BestResult)
    (best : BestResult)
    (hacc : ∀ im ∈ remaining, ∀ b ∈ acc, im.name ∉ uvKeys b.uv) :
    ∀ im ∈ remaining.filter
        (fun im => !((uvKeys best.uv).contains im.name)),
      ∀ b ∈ acc ++ [best], im.name ∉ uvKeys b.uv := by
  intro im him b hbm
  have him' := List.mem_filter.1 him
  rcases List.mem_append.1 hbm with hbm' | hbm'
  · exact hacc im him'.1 b hbm'
  · have hbb : b = best := by simpa using hbm'
    subst hbb
    intro hmm
    have hct : (uvKeys b.uv).contains im.name = true := by simpa using hmm
    have hp := him'.2
    rw [hct] at hp
    simp at hp

theorem fbpLoop_not_placed (oracle : Int → List Img → List Img) (pad : Int)
    (ua : Bool) : ∀ (fuel idx : Nat) (remaining : List Img)
      (acc : List BestResult), fuel = 101 - idx →
    (∀ im ∈ remaining, ∀ b ∈ acc, im.name ∉ uvKeys b.uv) →
    ∀ im ∈ (fbpLoop oracle pad ua remaining idx acc).2,
      ∀ b ∈ (fbpLoop oracle pad ua remaining idx acc).1,
        im.name ∉ uvKeys b.uv := by
  intro fuel
  induction fuel with
  | zero =>
      intro idx remaining acc hfuel hacc
      by_cases hemp : remaining.isEmpty = true
      · rw [fbpLoop_eq_empty oracle pad ua remaining idx acc hemp]
        exact hacc
      · have hemp' : remaining.isEmpty = false := by simpa using hemp
        cases hfb : findBestSingleAtlas oracle pad remaining ua 5 with
        | none =>
            rw [fbpLoop_eq_none oracle pad ua remaining idx acc hemp' hfb]
            exact hacc
        | some best =>
            have hstop : 100 < idx + 1 := by omega
            rw [fbpLoop_eq_stop oracle pad ua remaining idx acc best hemp'
              hfb hstop]
            exact notPlaced_step remaining acc best hacc
  | succ n ih =>
      intro idx remaining acc hfuel hacc
      by_cases hemp : remaining.isEmpty = true
      · rw [fbpLoop_eq_empty oracle pad ua remaining idx acc hemp]
        exact hacc
      · have hemp' : remaining.isEmpty = false := by simpa using hemp
        cases hfb : findBestSingleAtlas oracle pad remaining ua 5 with
        | none =>
            rw [fbpLoop_eq_none oracle pad ua remaining idx acc hemp' hfb]
            exact hacc
        | some best =>
            by_cases hstop : 100 < idx + 1
            · rw [fbpLoop_eq_stop oracle pad ua remaining idx acc best hemp'
                hfb hstop]
              exact notPlaced_step remaining acc best hacc
            · rw [fbpLoop_eq_step oracle pad ua remaining idx acc best hemp'
                hfb hstop]
              exact ih (idx + 1) _ (acc ++ [best]) (by omega)
                (notPlaced_step remaining acc best hacc)

theorem c4_count (oracle : Int → List Img → List Img)
    (horacle : ∀ s li, (oracle s li).Perm li) :
    ∀ (fuel idx : Nat) (remaining : List Img) (acc : List BestResult),
      fuel = 101 - idx → idx ≤ 100 →
      (∀ im ∈ remaining, im.width = 1500 ∧ im.height = 1500) →
      (imgNames remaining).Nodup →
      101 - idx < remaining.length →
      (fbpLoop oracle 2 true remaining idx acc).2.length =
        remaining.length - (101 - idx) ∧
      List.Sublist (fbpLoop oracle 2 true remaining idx acc).2 remaining ∧
      acc.length < (fbpLoop oracle 2 true remaining idx acc).1.length := by
  intro fuel
  induction fuel with
  | zero =>
      intro idx remaining acc hfuel hidx _ _ _
      exfalso
      omega
  | succ n ih =>
      intro idx remaining acc hfuel hidx hall hnd hlen
      have hne : remaining ≠ [] := by
        intro h
        rw [h] at hlen
        simp at hlen
      have hemp : remaining.isEmpty = false := by
        cases remaining with
        | nil => exact absurd rfl hne
        | cons a l => rfl
      obtain ⟨best, nm, v, hfb, huv, hnmmem⟩ :=
        c4_findBest oracle horacle remaining true hne hall
      have hplaced : uvKeys best.uv = [nm] := by rw [huv]; rfl
      have hflen : (remaining.filter
          (fun im => !((uvKeys best.uv).contains im.name))).length + 1 =
          remaining.length := by
        rw [hplaced]
        exact filter_singleton_length nm remaining hnd hnmmem
      by_cases hstop : 100 < idx + 1
      · rw [fbpLoop_eq_stop oracle 2 true remaining idx acc best hemp hfb hstop]
        refine ⟨?_, List.filter_sublist remaining, ?_⟩
        · dsimp only
          omega
        · dsimp only
          simp only [List.length_append, List.length_cons, List.length_nil]
          omega
      · rw [fbpLoop_eq_step oracle 2 true remaining idx acc best hemp hfb hstop]
        have hall' : ∀ im ∈ remaining.filter
            (fun im => !((uvKeys best.uv).contains im.name)),
            im.width = 1500 ∧ im.height = 1500 :=
          fun im him => hall im (List.mem_filter.1 him).1
        have hnd' : (imgNames (remaining.filter
            (fun im => !((uvKeys best.uv).contains im.name)))).Nodup :=
          hnd.sublist ((List.filter_sublist remaining).map Img.name)
        have hlen' : 101 - (idx + 1) < (remaining.filter
            (fun im => !((uvKeys best.uv).contains im.name))).length := by
          omega
        obtain ⟨hc1, hc2, hc3⟩ := ih (idx + 1) _ (acc ++ [best]) (by omega)
          (by omega) hall' hnd' hlen'
        refine ⟨?_, hc2.trans (List.filter_sublist remaining), ?_⟩
        · rw [hc1]
          omega
        · have hacc1 : (acc ++ [best]).length = acc.length + 1 := by simp
          omega

set_option maxRecDepth 40000 in
/-- C4 counterexample: on 102 distinct images of 1500 x 1500 pixels each
atlas of the search holds exactly one image, so the 100-atlas safety limit
of `find_best_packing` stops the loop with one image still unplaced; the
fallback does not run because atlases were produced, and the leftover
image's name appears in no atlas of the per-level result — the claimed
union equality fails. -/
theorem c4_union_counterexample :
    ∃ nm ∈ imgNames c4Images,
      ∀ a ∈ levelAtlases (fun _ l => l) 2 2048 c4Images, nm ∉ uvKeys a.uv := by
  have horacle : ∀ (s : Int) (li : List Img),
      ((fun (_ : Int) (l : List Img) => l) s li).Perm li :=
    fun _ _ => List.Perm.refl _
  have hall : ∀ im ∈ c4Images, im.width = 1500 ∧ im.height = 1500 := by
    intro im him
    simp only [c4Images, List.mem_map] at him
    obtain ⟨k, _, rfl⟩ := him
    exact ⟨rfl, rfl⟩
  have hnd : (imgNames c4Images).Nodup := by
    simp only [imgNames, c4Images, List.map_map]
    decide
  have hlen : c4Images.length = 102 := by simp [c4Images]
  obtain ⟨hc1, hc2, hc3⟩ := c4_count (fun _ l => l) horacle 101 0 c4Images []
    (by norm_num) (by norm_num) hall hnd (by rw [hlen]; norm_num)
  have hlef : (fbpLoop (fun _ l => l) 2 true c4Images 0 []).2 ≠ [] := by
    intro h
    rw [h, hlen] at hc1
    simp at hc1
  obtain ⟨im, him⟩ := List.exists_mem_of_ne_nil _ hlef
  refine ⟨im.name, List.mem_map_of_mem Img.name (hc2.subset him), ?_⟩
  intro a ha hmm
  have h1ne : (fbpLoop (fun _ l => l) 2 true c4Images 0 []).1.isEmpty = false := by
    cases hres : (fbpLoop (fun _ l => l) 2 true c4Images 0 []).1 with
    | nil => rw [hres] at hc3; simp at hc3
    | cons x xs => rfl
  have hfbp : findBestPacking (fun _ l => l) 2 c4Images true =
      fbpLoop (fun _ l => l) 2 true c4Images 0 [] := rfl
  have hla : levelAtlases (fun _ l => l) 2 2048 c4Images =
      (fbpLoop (fun _ l => l) 2 true c4Images 0 []).1.map
        bestResultAtlasInfo := by
    simp only [levelAtlases]
    rw [hfbp, h1ne]
    simp
  rw [hla] at ha
  obtain ⟨b, hbm, rfl⟩ := List.mem_map.1 ha
  exact fbpLoop_not_placed (fun _ l => l) 2 true 101 0 c4Images []
    (by norm_num) (by intro im' _ b' hb'; simp at hb') im him b hbm hmm

theorem findBest_keys (oracle : Int → List Img → List Img)
    (horacle : ∀ s li, (oracle s li).Perm li) (pad : Int)
    (remaining : List Img) (ua : Bool) (perms : Nat) (b : BestResult)
    (hnd : (imgNames remaining).Nodup)
    (hb : findBestSingleAtlas oracle pad remaining ua perms = some b) :
    (∀ nm ∈ uvKeys b.uv, nm ∈ imgNames remaining) ∧ (uvKeys b.uv).Nodup := by
  obtain ⟨l, sort, hperm, _, _, huv, _⟩ :=
    findBest_candidate oracle horacle pad remaining ua perms b hb
  have hndl : (imgNames l).Nodup := ((hperm.map Img.name).nodup_iff).2 hnd
  obtain ⟨hsub, hnodup⟩ := pack_keys b.atlasSize pad l sort b.placementStrategy hndl
  rw [huv]
  exact ⟨fun nm hnm => (hperm.map Img.name).subset (hsub nm hnm), hnodup⟩

theorem count_step (remaining : List Img) (acc : List BestResult)
    (best : BestResult) (nm : String)
    (hnd : (imgNames remaining).Nodup)
    (hsub : ∀ x ∈ uvKeys best.uv, x ∈ imgNames remaining)
    (hpd : (uvKeys best.uv).Nodup) :
    (placedNames (acc ++ [best])).count nm +
      (imgNames (remaining.filter
        (fun im => !((uvKeys best.uv).contains im.name)))).count nm =
      (placedNames acc).count nm + (imgNames remaining).count nm := by
  have hpn : placedNames (acc ++ [best]) =
      placedNames acc ++ uvKeys best.uv := by
    simp [placedNames]
  rw [hpn, List.count_append, count_filter_placed]
  by_cases hnm : nm ∈ uvKeys best.uv
  · rw [if_pos hnm]
    have h1 : (uvKeys best.uv).count nm = 1 :=
      List.count_eq_one_of_mem hpd hnm
    have h2 : (imgNames remaining).count nm = 1 :=
      List.count_eq_one_of_mem hnd (hsub nm hnm)
    omega
  · rw [if_neg hnm]
    have h1 : (uvKeys best.uv).count nm = 0 :=
      List.count_eq_zero_of_not_mem hnm
    omega

theorem fbpLoop_count_general (oracle : Int → List Img → List Img)
    (horacle : ∀ s li, (oracle s li).Perm li) (pad : Int) (ua : Bool)
    (nm : String) :
    ∀ (fuel idx : Nat) (remaining : List Img) (acc : List BestResult),
      fuel = 101 - idx → (imgNames remaining).Nodup →
      (placedNames (fbpLoop oracle pad ua remaining idx acc).1).count nm +
        (imgNames (fbpLoop oracle pad ua remaining idx acc).2).count nm =
        (placedNames acc).count nm + (imgNames remaining).count nm := by
  intro fuel
  induction fuel with
  | zero =>
      intro idx remaining acc hfuel hnd
      by_cases hemp : remaining.isEmpty = true
      · rw [fbpLoop_eq_empty oracle pad ua remaining idx acc hemp]
      · have hemp' : remaining.isEmpty = false := by simpa using hemp
        cases hfb : findBestSingleAtlas oracle pad remaining ua 5 with
        | none => rw [fbpLoop_eq_none oracle pad ua remaining idx acc hemp' hfb]
        | some best =>
            have hstop : 100 < idx + 1 := by omega
            rw [fbpLoop_eq_stop oracle pad ua remaining idx acc best hemp'
              hfb hstop]
            obtain ⟨hsub, hpd⟩ := findBest_keys oracle horacle pad remaining
              ua 5 best hnd hfb
            exact count_step remaining acc best nm hnd hsub hpd
  | succ n ih =>
      intro idx remaining acc hfuel hnd
      by_cases hemp : remaining.isEmpty = true
      · rw [fbpLoop_eq_empty oracle pad ua remaining idx acc hemp]
      · have hemp' : remaining.isEmpty = false := by simpa using hemp
        cases hfb : findBestSingleAtlas oracle pad remaining ua 5 with
        | none => rw [fbpLoop_eq_none oracle pad ua remaining idx acc hemp' hfb]
        | some best =>
            obtain ⟨hsub, hpd⟩ := findBest_keys oracle horacle pad remaining
              ua 5 best hnd hfb
            by_cases hstop : 100 < idx + 1
            · rw [fbpLoop_eq_stop oracle pad ua remaining idx acc best hemp'
                hfb hstop]
              exact count_step remaining acc best nm hnd hsub hpd
            · rw [fbpLoop_eq_step oracle pad ua remaining idx acc best hemp'
                hfb hstop]
              have hnd' : (imgNames (remaining.filter
                  (fun im => !((uvKeys best.uv).contains im.name)))).Nodup :=
                hnd.sublist ((List.filter_sublist remaining).map Img.name)
              have hih := ih (idx + 1) _ (acc ++ [best]) (by omega) hnd'
              rw [hih]
              exact count_step remaining acc best nm hnd hsub hpd

theorem fbpLoop_nodup (oracle : Int → List Img → List Img)
    (horacle : ∀ s li, (oracle s li).Perm li) (pad : Int) (ua : Bool) :
    ∀ (fuel idx : Nat) (remaining : List Img) (acc : List BestResult),
      fuel = 101 - idx → (imgNames remaining).Nodup →
      (∀ b ∈ acc, (uvKeys b.uv).Nodup) →
      ∀ b ∈ (fbpLoop oracle pad ua remaining idx acc).1,
        (uvKeys b.uv).Nodup := by
  intro fuel
  induction fuel with
  | zero =>
      intro idx remaining acc hfuel hnd hacc
      by_cases hemp : remaining.isEmpty = true
      · rw [fbpLoop_eq_empty oracle pad ua remaining idx acc hemp]
        exact hacc
      · have hemp' : remaining.isEmpty = false := by simpa using hemp
        cases hfb : findBestSingleAtlas oracle pad remaining ua 5 with
        | none =>
            rw [fbpLoop_eq_none oracle pad ua remaining idx acc hemp' hfb]
            exact hacc
        | some best =>
            have hstop : 100 < idx + 1 := by omega
            rw [fbpLoop_eq_stop oracle pad ua remaining idx acc best hemp'
              hfb hstop]
            intro b hbm
            rcases List.mem_append.1 hbm with hbm' | hbm'
            · exact hacc b hbm'
            · have hbb : b = best := by simpa using hbm'
              subst hbb
              exact (findBest_keys oracle horacle pad remaining ua 5 b hnd hfb).2
  | succ n ih =>
      intro idx remaining acc hfuel hnd hacc
      by_cases hemp : remaining.isEmpty = true
      · rw [fbpLoop_eq_empty oracle pad ua remaining idx acc hemp]
        exact hacc
      · have hemp' : remaining.isEmpty = false := by simpa using hemp
        cases hfb : findBestSingleAtlas oracle pad remaining ua 5 with
        | none =>
            rw [fbpLoop_eq_none oracle pad ua remaining idx acc hemp' hfb]
            exact hacc
        | some best =>
            have hbest := findBest_keys oracle horacle pad remaining ua 5 best
              hnd hfb
            have hacc' : ∀ b ∈ acc ++ [best], (uvKeys b.uv).Nodup := by
              intro b hbm
              rcases List.mem_append.1 hbm with hbm' | hbm'
              · exact hacc b hbm'
              · have hbb : b = best := by simpa using hbm'
                subst hbb
                exact hbest.2
            by_cases hstop : 100 < idx + 1
            · rw [fbpLoop_eq_stop oracle pad ua remaining idx acc best hemp'
                hfb hstop]
              exact hacc'
            · rw [fbpLoop_eq_step oracle pad ua remaining idx acc best hemp'
                hfb hstop]
              have hnd' : (imgNames (remaining.filter
                  (fun im => !((uvKeys best.uv).contains im.name)))).Nodup :=
                hnd.sublist ((List.filter_sublist remaining).map Img.name)
              exact ih (idx + 1) _ (acc ++ [best]) (by omega) hnd' hacc'

theorem createIndividual_names (M p : Int) : ∀ images : List Img,
    placedNamesA (createIndividualAtlases M p images) = imgNames images := by
  intro images
  induction images with
  | nil => rfl
  | cons im rest ih =>
      have hstep : placedNamesA (createIndividualAtlases M p (im :: rest)) =
          im.name :: placedNamesA (createIndividualAtlases M p rest) := rfl
      rw [hstep, ih, imgNames_cons]

theorem placedNamesA_map (bs : List BestResult) :
    placedNamesA (bs.map bestResultAtlasInfo) = placedNames bs := by
  induction bs with
  | nil => rfl
  | cons b rest ih =>
      have h1 : placedNamesA ((b :: rest).map bestResultAtlasInfo) =
          uvKeys b.uv ++ placedNamesA (rest.map bestResultAtlasInfo) := rfl
      have h2 : placedNames (b :: rest) =
          uvKeys b.uv ++ placedNames rest := rfl
      rw [h1, h2, ih]

/-- C4 (amended): with distinct input names, every input image name is
placed exactly once across the per-level atlases and the silently dropped
residual together: the placed-name multiset of `find_best_packing`'s
atlases (or of the individual-atlas fallback when it produced none) plus
the residual names equals the input names, and no atlas places a name
twice.  The residual is nonempty only when the search needs more than the
100-atlas safety limit, in which case the excess images are dropped from
the output (see the counterexample). -/
theorem c4_placement_partition (oracle : Int → List Img → List Img)
    (horacle : ∀ s l, (oracle s l).Perm l) (pad maxAtlasSize : Int)
    (images : List Img) (hnd : (imgNames images).Nodup) (nm : String) :
    (placedNamesA (levelAtlases oracle pad maxAtlasSize images)).count nm +
      (imgNames (droppedImages oracle pad images)).count nm =
      (imgNames images).count nm ∧
    ∀ a ∈ levelAtlases oracle pad maxAtlasSize images, (uvKeys a.uv).Nodup := by
  by_cases hemp : (findBestPacking oracle pad images true).1.isEmpty = true
  · have hla : levelAtlases oracle pad maxAtlasSize images =
        createIndividualAtlases maxAtlasSize pad images := by
      simp only [levelAtlases]
      rw [if_pos hemp]
    have hd : droppedImages oracle pad images = [] := by
      simp only [droppedImages]
      rw [if_pos hemp]
    rw [hla, hd, createIndividual_names]
    refine ⟨by simp [imgNames], ?_⟩
    intro a ha
    simp only [createIndividualAtlases, List.mem_map] at ha
    obtain ⟨im, _, rfl⟩ := ha
    simp [uvKeys]
  · have hemp' : (findBestPacking oracle pad images true).1.isEmpty = false := by
      simpa using hemp
    have hla : levelAtlases oracle pad maxAtlasSize images =
        (findBestPacking oracle pad images true).1.map bestResultAtlasInfo := by
      simp only [levelAtlases]
      rw [hemp']
      simp
    have hd : droppedImages oracle pad images =
        (findBestPacking oracle pad images true).2 := by
      simp only [droppedImages]
      rw [hemp']
      simp
    have hfbp : findBestPacking oracle pad images true =
        fbpLoop oracle pad true images 0 [] := rfl
    constructor
    · rw [hla, hd, placedNamesA_map, hfbp]
      have hgen := fbpLoop_count_general oracle horacle pad true nm 101 0
        images [] (by norm_num) hnd
      simpa [placedNames] using hgen
    · rw [hla]
      intro a ha
      obtain ⟨b, hbm, rfl⟩ := List.mem_map.1 ha
      rw [hfbp] at hbm
      exact fbpLoop_nodup oracle horacle pad true 101 0 images []
        (by norm_num) hnd (by intro b' hb'; simp at hb') b hbm

/-- Witness for C4's amended partition at a concrete input. -/
theorem c4_placement_partition_witness :
    (∀ (s : Int) (l : List Img), ((fun (_ : Int) (l : List Img) => l) s l).Perm l) ∧
    (imgNames ([] : List Img)).Nodup ∧
    ((placedNamesA (levelAtlases (fun _ l => l) 2 2048 [])).count "a" +
        (imgNames (droppedImages (fun _ l => l) 2 [])).count "a" =
        (imgNames ([] : List Img)).count "a" ∧
      ∀ a ∈ levelAtlases (fun _ l => l) 2 2048 ([] : List Img),
        (uvKeys a.uv).Nodup) :=
  ⟨fun _ _ => List.Perm.refl _, by simp [imgNames],
    c4_placement_partition (fun _ l => l) (fun _ _ => List.Perm.refl _) 2 2048
      [] (by simp [imgNames]) "a"⟩
